import Mathlib

/-!
Verification of the AstSymbolTable core (api-extractor analyzer) against its
natural-language specification.

The TypeScript source `AstSymbolTable.ts` is embedded shallowly: the TypeScript
compiler services (`ts.TypeChecker`, `ts.Program`, `TypeScriptHelpers`,
`SymbolAnalyzer`, `PackageMetadataManager`) are modelled as an abstract
`Oracle` record of pure query functions, and the mutable caches of the table
are explicit state threaded through every operation.  The supporting entity
classes (`AstSymbol`, `AstDeclaration`, `AstImport`, `AstModule`) are not part
of the provided source; their fields and constructor behaviour are modelled
from the specification and marked as such.

All recursive operations take an explicit fuel argument and fail with a
distinguished `outOfFuel` error when it runs out; termination content (for the
wildcard-export lookup) is proved as a fuel-sufficiency theorem.
-/

deriving instance DecidableEq for Except

namespace AstTable

/-- Identifier of a `ts.Symbol` in the oracle's world. -/
abbrev SymbolId := Nat

/-- Identifier of a `ts.Node` in the oracle's world. -/
abbrev NodeId := Nat

/-- Identifier of a `ts.SourceFile` in the oracle's world. -/
abbrev FileId := Nat

/-- Index of an `AstSymbol` in the table's symbol arena. -/
abbrev AstSymbolId := Nat

/-- Index of an `AstDeclaration` in the table's declaration arena. -/
abbrev AstDeclId := Nat

/-- Index of an `AstModule` in the table's module arena. -/
abbrev AstModuleId := Nat

/-- Modelled from the spec: `AstImport` (AstImport.ts is not in src/).  An
Import Identity is the pair of exported name and module path; two Import
Identities are equal iff both fields match, and the pair itself is used as the
lookup key. -/
structure AstImport where
  exportName : String
  modulePath : String
deriving DecidableEq

/-- The classes of `ts.SyntaxKind` values that `AstSymbolTable.ts`
distinguishes.  `declarationKind` stands for all kinds that
`SymbolAnalyzer.isAstDeclaration` accepts (class, interface, enum, ...);
`otherKind` stands for every remaining kind. -/
inductive TsKind where
  | jsDocComment
  | typeReference
  | expressionWithTypeArguments
  | computedPropertyName
  | exportSpecifier
  | exportDeclarationKind
  | sourceFile
  | declarationKind
  | otherKind
deriving DecidableEq

/-- Modelled from the spec: `SymbolAnalyzer.isAstDeclaration` (SymbolAnalyzer.ts
is not in src/) — the oracle's classification of declaration-bearing node
kinds.  Type references, export specifiers and source files are not
declaration-bearing. -/
def isAstDeclaration : TsKind → Bool
  | .declarationKind => true
  | _ => false

/-- The Type Resolution Oracle: the compiler services consumed by the table
(`ts.TypeChecker`, `ts.Program`, `TypeScriptHelpers`, `SymbolAnalyzer`,
`PackageMetadataManager`), as pure query functions. -/
structure Oracle where
  symName : SymbolId → String
  /-- true when the symbol has a TypeParameter, TypeLiteral or Transient flag -/
  symFlagsFiltered : SymbolId → Bool
  /-- `SymbolAnalyzer.isAmbient` -/
  symIsAmbient : SymbolId → Bool
  symDeclarations : SymbolId → List NodeId
  /-- true when the symbol has the Alias flag -/
  symAliasFlag : SymbolId → Bool
  /-- `TypeScriptHelpers.getImmediateAliasedSymbol` -/
  symImmediateAlias : SymbolId → Option SymbolId
  /-- `TypeScriptHelpers.followAliases` -/
  symFollowAliases : SymbolId → SymbolId
  /-- true when the symbol's escaped name is `InternalSymbolName.ExportStar` -/
  symIsExportStar : SymbolId → Bool
  nodeKind : NodeId → TsKind
  /-- parent chain of a node, nearest ancestor first -/
  nodeAncestors : NodeId → List NodeId
  /-- `node.getChildren()` -/
  nodeChildren : NodeId → List NodeId
  /-- `node.getSourceFile()` -/
  nodeSourceFile : NodeId → FileId
  /-- `TypeScriptHelpers.getSymbolForDeclaration` -/
  symbolForDeclaration : NodeId → Option SymbolId
  /-- `typeChecker.getSymbolAtLocation` -/
  symbolAtLocation : NodeId → Option SymbolId
  /-- `TypeScriptHelpers.findFirstChildNode(node, SyntaxKind.Identifier)` -/
  firstIdentifier : NodeId → Option NodeId
  /-- `exportSpecifier.propertyName`, as trimmed text -/
  exportSpecifierPropertyName : NodeId → Option String
  /-- `exportSpecifier.name`, as trimmed text -/
  exportSpecifierName : NodeId → String
  /-- `TypeScriptHelpers.findFirstParent(declaration, SyntaxKind.ExportDeclaration)` -/
  findExportDeclarationParent : NodeId → Option NodeId
  /-- `TypeScriptHelpers.getModuleSpecifier` -/
  moduleSpecifierOf : NodeId → Option String
  /-- `TypeScriptHelpers.getResolvedModule`, returning the resolved file name -/
  getResolvedModule : FileId → String → Option String
  /-- `program.getSourceFile` by file name -/
  getSourceFileByName : String → Option FileId
  /-- `PackageMetadataManager.isAedocSupportedFor` on the file of a declaration -/
  isAedocSupported : FileId → Bool
  /-- `TypeScriptHelpers.getSymbolForDeclaration` applied to a source file -/
  moduleSymbolOf : FileId → SymbolId
  /-- `typeChecker.getExportsOfModule` -/
  getExportsOfModule : SymbolId → List SymbolId
  /-- `moduleSymbol.exports.values()` -/
  moduleExportsTable : SymbolId → List SymbolId
  /-- `ts.isExternalModuleNameRelative` -/
  isExternalModuleNameRelative : String → Bool

/-- Modelled from the spec: the fields of an `AstSymbol` (AstSymbol.ts is not
in src/).  `imported` is derived: a Symbol Node is imported iff it carries an
Import Identity.  `analyzed` is a monotonic flag, false at construction. -/
structure AstSymbolRec where
  localName : String
  followedSymbol : SymbolId
  astImport : Option AstImport
  parentAstSymbol : Option AstSymbolId
  rootAstSymbol : AstSymbolId
  nominal : Bool
  astDeclarations : List AstDeclId
  analyzed : Bool
deriving DecidableEq

/-- Modelled from the spec: the fields of an `AstDeclaration`
(AstDeclaration.ts is not in src/).  `referencedAstSymbols` is a set
(monotonic accumulation, duplicates are not inserted); `children` mirrors the
parent links. -/
structure AstDeclarationRec where
  declaration : NodeId
  astSymbol : AstSymbolId
  parent : Option AstDeclId
  children : List AstDeclId
  referencedAstSymbols : List AstSymbolId
deriving DecidableEq

/-- Modelled from the spec: the fields of an `AstModule` (AstModule.ts is not
in src/). -/
structure AstModuleRec where
  sourceFile : FileId
  externalModulePath : Option String
  exportedSymbols : List (String × AstSymbolId)
  starExportedModules : List AstModuleId
deriving DecidableEq

/-- The mutable state of one `AstSymbolTable`: the three entity arenas and the
four caches (`_astSymbolsBySymbol`, `_astSymbolsByImportKey`,
`_astDeclarationsByDeclaration`, `_astModulesBySourceFile`). -/
structure TableState where
  astSymbols : List AstSymbolRec
  astDeclarations : List AstDeclarationRec
  astModules : List AstModuleRec
  astSymbolsBySymbol : List (SymbolId × AstSymbolId)
  astSymbolsByImportKey : List (AstImport × AstSymbolId)
  astDeclarationsByDeclaration : List (NodeId × AstDeclId)
  astModulesBySourceFile : List (FileId × AstModuleId)
deriving DecidableEq

/-- The empty table, as produced by the `AstSymbolTable` constructor. -/
def emptyTableState : TableState :=
  { astSymbols := [], astDeclarations := [], astModules := [],
    astSymbolsBySymbol := [], astSymbolsByImportKey := [],
    astDeclarationsByDeclaration := [], astModulesBySourceFile := [] }

/-- Lookup in an association list modelling a JS `Map` (`map.get`). -/
def mapGet {α β : Type} [DecidableEq α] (m : List (α × β)) (k : α) : Option β :=
  match m with
  | [] => none
  | p :: rest => if p.1 = k then some p.2 else mapGet rest k

/-- Update of an association list modelling a JS `Map` (`map.set`): the new
binding shadows any previous one. -/
def mapSet {α β : Type} (m : List (α × β)) (k : α) (v : β) : List (α × β) :=
  (k, v) :: m

/-- Point update of a list element (used for arena mutation). -/
def listModify {α : Type} : List α → Nat → (α → α) → List α
  | [], _, _ => []
  | a :: rest, 0, f => f a :: rest
  | a :: rest, Nat.succ i, f => a :: listModify rest i f

/-- The errors thrown by the table: user-facing configuration errors, internal
consistency errors, and fuel exhaustion of the embedding. -/
inductive TError where
  | unsupportedExport (name : String)
  | unimplementedExportKind
  | error (msg : String)
  | internalError (msg : String)
  | outOfFuel
deriving DecidableEq

/-- The record of a Symbol Node, when the id is valid. -/
def getSymRec (st : TableState) (a : AstSymbolId) : Option AstSymbolRec :=
  st.astSymbols[a]?

/-- The record of a Declaration Node, when the id is valid. -/
def getDeclRec (st : TableState) (d : AstDeclId) : Option AstDeclarationRec :=
  st.astDeclarations[d]?

/-- The record of a Module Registry Entry, when the id is valid. -/
def getModRec (st : TableState) (m : AstModuleId) : Option AstModuleRec :=
  st.astModules[m]?

/-- `AstSymbol.imported`: modelled from the spec as "carries an Import
Identity". -/
def importedOf (st : TableState) (a : AstSymbolId) : Bool :=
  match getSymRec st a with
  | some r => r.astImport.isSome
  | none => false

/-- The `astImport` field of a Symbol Node. -/
def astImportOf (st : TableState) (a : AstSymbolId) : Option AstImport :=
  match getSymRec st a with
  | some r => r.astImport
  | none => none

/-- The `analyzed` flag of a Symbol Node. -/
def analyzedOf (st : TableState) (a : AstSymbolId) : Bool :=
  match getSymRec st a with
  | some r => r.analyzed
  | none => false

/-- The `nominal` flag of a Symbol Node. -/
def nominalOf (st : TableState) (a : AstSymbolId) : Bool :=
  match getSymRec st a with
  | some r => r.nominal
  | none => false

/-- `AstSymbol.rootAstSymbol` of a node id (the id itself when dangling). -/
def rootOfId (st : TableState) (a : AstSymbolId) : AstSymbolId :=
  match getSymRec st a with
  | some r => r.rootAstSymbol
  | none => a

/-- The declaration list of a Symbol Node. -/
def astDeclarationsOf (st : TableState) (a : AstSymbolId) : List AstDeclId :=
  match getSymRec st a with
  | some r => r.astDeclarations
  | none => []

/-- The referenced-symbol set of a Declaration Node. -/
def refsOf (st : TableState) (d : AstDeclId) : List AstSymbolId :=
  match getDeclRec st d with
  | some r => r.referencedAstSymbols
  | none => []

/-- The child Declaration Nodes of a Declaration Node. -/
def childrenOfDecl (st : TableState) (d : AstDeclId) : List AstDeclId :=
  match getDeclRec st d with
  | some r => r.children
  | none => []

/-- The owning Symbol Node of a Declaration Node. -/
def ownerOf (st : TableState) (d : AstDeclId) : AstSymbolId :=
  match getDeclRec st d with
  | some r => r.astSymbol
  | none => 0

/-- Embeds `_tryFindFirstAstDeclarationParent` (lines 586-595): the walk up
`node.parent` is the first declaration-bearing entry of the ancestor chain. -/
def tryFindFirstAstDeclarationParent (o : Oracle) (node : NodeId) : Option NodeId :=
  (o.nodeAncestors node).find? (fun p => isAstDeclaration (o.nodeKind p))

/-- Embeds lines 568-578 of `_fetchAstSymbol`: the import-consistency check
performed on the resolved Symbol Node before returning it. -/
def finishFetch (st : TableState) (astSymbol : AstSymbolId)
    (astImportOptions : Option AstImport) :
    Except TError (Option AstSymbolId × TableState) :=
  if astImportOptions.isSome && !importedOf st astSymbol then
    .error (.internalError "The symbol is being imported after it was already registered as non-imported")
  else
    .ok (some astSymbol, st)

/-- Lines 546-558: find the parent `AstDeclaration` for one declaration of a
symbol that has a parent symbol. -/
def resolveParentDeclaration (o : Oracle) (st : TableState)
    (parentAstSymbol : Option AstSymbolId) (declaration : NodeId) :
    Except TError (Option AstDeclId) :=
  match parentAstSymbol with
  | none => .ok none
  | some _ =>
    match tryFindFirstAstDeclarationParent o declaration with
    | none => .error (.internalError "Missing parent declaration")
    | some parentDeclaration =>
      match mapGet st.astDeclarationsByDeclaration parentDeclaration with
      | none => .error (.internalError "Missing parent AstDeclaration")
      | some parentAstDeclaration => .ok (some parentAstDeclaration)

/-- Lines 560-563 plus the constructor side effects: append the new
`AstDeclaration` record, register it in the by-declaration cache, link it into
its parent's children and into its owning symbol's declaration list (the two
links are modelled from the spec: the `AstDeclaration` constructor notifies
its parent and its owning `AstSymbol`). -/
def createOneDeclaration (st : TableState) (newId : AstSymbolId)
    (parentOpt : Option AstDeclId) (declaration : NodeId) : TableState :=
  let declId := st.astDeclarations.length
  let declRec : AstDeclarationRec :=
    { declaration := declaration, astSymbol := newId, parent := parentOpt,
      children := [], referencedAstSymbols := [] }
  let newDeclMap := mapSet st.astDeclarationsByDeclaration declaration declId
  let st1 := { st with
    astDeclarations := st.astDeclarations ++ [declRec],
    astDeclarationsByDeclaration := newDeclMap }
  let st2 :=
    match parentOpt with
    | some p =>
      let withChild :=
        listModify st1.astDeclarations p
          (fun r => { r with children := r.children ++ [declId] })
      { st1 with astDeclarations := withChild }
    | none => st1
  let withOwned :=
    listModify st2.astSymbols newId
      (fun r => { r with astDeclarations := r.astDeclarations ++ [declId] })
  { st2 with astSymbols := withOwned }

/-- Embeds the declaration-creation loop of `_fetchAstSymbol` (lines 542-564):
one `AstDeclaration` is created per declaration of the followed symbol, wired
to its parent `AstDeclaration` when the symbol has a parent. -/
def createDeclarationsFor (o : Oracle) :
    TableState → AstSymbolId → Option AstSymbolId → List NodeId →
    Except TError TableState
  | st, _, _, [] => .ok st
  | st, newId, parentAstSymbol, declaration :: rest =>
    match resolveParentDeclaration o st parentAstSymbol declaration with
    | .error e => .error e
    | .ok parentOpt =>
      createDeclarationsFor o (createOneDeclaration st newId parentOpt declaration)
        newId parentAstSymbol rest

/-- Embeds `_fetchAstSymbol` (lines 428-581).  The fuel argument bounds the
parent-chain recursion of line 518; all other steps are loop-free.  Note that
`addIfMissing` is only ever forwarded to the recursive parent fetch, exactly
as in the source. -/
def fetchAstSymbol (o : Oracle) :
    Nat → TableState → SymbolId → Bool → Option AstImport →
    Except TError (Option AstSymbolId × TableState)
  | 0, _, _, _, _ => .error .outOfFuel
  | Nat.succ fuel, st, followedSymbol, addIfMissing, astImportOptions =>
    if o.symFlagsFiltered followedSymbol then .ok (none, st)
    else if o.symIsAmbient followedSymbol then .ok (none, st)
    else
      match mapGet st.astSymbolsBySymbol followedSymbol with
      | some astSymbol => finishFetch st astSymbol astImportOptions
      | none =>
        match o.symDeclarations followedSymbol with
        | [] => .error (.internalError "Followed a symbol with no declarations")
        | firstDecl :: restDecls =>
          let importHit : Option AstSymbolId :=
            match astImportOptions with
            | some imp => mapGet st.astSymbolsByImportKey imp
            | none => none
          match importHit with
          | some astSymbol =>
            let newBySymbol := mapSet st.astSymbolsBySymbol followedSymbol astSymbol
            let st1 := { st with astSymbolsBySymbol := newBySymbol }
            finishFetch st1 astSymbol astImportOptions
          | none =>
            let nominal :=
              (restDecls.isEmpty && decide (o.nodeKind firstDecl = TsKind.sourceFile))
              || (astImportOptions.isSome
                  && !o.isAedocSupported (o.nodeSourceFile firstDecl))
            let parentResult : Except TError (Option AstSymbolId × TableState) :=
              if nominal then .ok (none, st)
              else if !((firstDecl :: restDecls).all
                  (fun d => isAstDeclaration (o.nodeKind d))) then
                .error (.internalError "Symbol uses a construct which may be an unimplemented language feature")
              else
                match tryFindFirstAstDeclarationParent o firstDecl with
                | none => .ok (none, st)
                | some arbitraryParentDeclaration =>
                  match o.symbolForDeclaration arbitraryParentDeclaration with
                  | none => .error (.internalError "Unable to find symbol for parent declaration")
                  | some parentSymbol =>
                    match fetchAstSymbol o fuel st parentSymbol addIfMissing none with
                    | .error e => .error e
                    | .ok (none, _) =>
                      .error (.internalError "Unable to construct a parent AstSymbol")
                    | .ok (some parentAstSymbol, st') => .ok (some parentAstSymbol, st')
            match parentResult with
            | .error e => .error e
            | .ok (parentOpt, st') =>
              let newId := st'.astSymbols.length
              let newRec : AstSymbolRec :=
                { localName := o.symName followedSymbol,
                  followedSymbol := followedSymbol,
                  astImport := astImportOptions,
                  parentAstSymbol := parentOpt,
                  rootAstSymbol :=
                    (match parentOpt with
                     | some pa => rootOfId st' pa
                     | none => newId),
                  nominal := nominal,
                  astDeclarations := [],
                  analyzed := false }
              let newBySymbol := mapSet st'.astSymbolsBySymbol followedSymbol newId
              let newByImportKey :=
                match astImportOptions with
                | some imp => mapSet st'.astSymbolsByImportKey imp newId
                | none => st'.astSymbolsByImportKey
              let st2 := { st' with
                astSymbols := st'.astSymbols ++ [newRec],
                astSymbolsBySymbol := newBySymbol,
                astSymbolsByImportKey := newByImportKey }
              match createDeclarationsFor o st2 newId parentOpt (firstDecl :: restDecls) with
              | .error e => .error e
              | .ok st3 => finishFetch st3 newId astImportOptions

/-- Embeds `tryGetAstSymbol` (lines 329-331): a lookup entry point that passes
`addIfMissing = false`. -/
def tryGetAstSymbol (o : Oracle) (fuel : Nat) (st : TableState) (symbol : SymbolId) :
    Except TError (Option AstSymbolId × TableState) :=
  fetchAstSymbol o fuel st symbol false none

mutual

/-- Embeds `_tryGetExportOfAstModule` (lines 207-229): depth-first search over
the wildcard re-export graph guarded by the visited-module set.  The function
is pure over the module arena; the evolving visited set is returned.  Fuel
exhaustion yields `none`; `tryGetExportSufficientFuel` shows enough fuel always
exists. -/
def tryGetExportOfAstModule (mods : List AstModuleRec) (exportName : String) :
    Nat → AstModuleId → List AstModuleId →
    Option (Option AstSymbolId × List AstModuleId)
  | 0, _, _ => none
  | Nat.succ fuel, astModule, visitedAstModules =>
    if astModule ∈ visitedAstModules then some (none, visitedAstModules)
    else
      let visited1 := astModule :: visitedAstModules
      match mods[astModule]? with
      | none => some (none, visited1)
      | some md =>
        match mapGet md.exportedSymbols exportName with
        | some astSymbol => some (some astSymbol, visited1)
        | none => tryGetExportStarLoop mods exportName fuel md.starExportedModules visited1

/-- The loop of lines 221-226: probe each star-exported module in order,
short-circuiting on the first hit. -/
def tryGetExportStarLoop (mods : List AstModuleRec) (exportName : String) :
    Nat → List AstModuleId → List AstModuleId →
    Option (Option AstSymbolId × List AstModuleId)
  | 0, _, _ => none
  | Nat.succ _, [], visitedAstModules => some (none, visitedAstModules)
  | Nat.succ fuel, starExportedModule :: rest, visitedAstModules =>
    match tryGetExportOfAstModule mods exportName fuel starExportedModule visitedAstModules with
    | none => none
    | some (some astSymbol, visited') => some (some astSymbol, visited')
    | some (none, visited') => tryGetExportStarLoop mods exportName fuel rest visited'

end

/-- The number of star-exported modules recorded for a module id. -/
def starCount (mods : List AstModuleRec) (i : AstModuleId) : Nat :=
  match mods[i]? with
  | some md => md.starExportedModules.length
  | none => 0

/-- Fuel potential of a lookup: enough steps to expand every not-yet-visited
module once and probe each of its star-export edges once. -/
def lookupPotential (mods : List AstModuleRec) (visited : List AstModuleId) : Nat :=
  (((List.range mods.length).filter (fun i => decide (i ∉ visited))).map
    (fun i => 2 + starCount mods i)).sum

/-- A fuel amount sufficient for any top-level lookup over the given module
arena (see `tryGetExport_fuel_sufficient`). -/
def lookupFuelBound (mods : List AstModuleRec) : Nat :=
  1 + lookupPotential mods []

/-- Embeds `_getExportOfAstModule` (lines 198-205): start a lookup with a
fresh visited set and treat "not found" as a fatal internal error.  The fuel
`lookupFuelBound` is always sufficient, so the `outOfFuel` branch is dead. -/
def getExportOfAstModule (st : TableState) (exportName : String)
    (astModule : AstModuleId) : Except TError AstSymbolId :=
  match tryGetExportOfAstModule st.astModules exportName
      (lookupFuelBound st.astModules) astModule [] with
  | none => .error .outOfFuel
  | some (none, _) => .error (.internalError "Unable to analyze the export")
  | some (some astSymbol, _) => .ok astSymbol

/-- Sets the `externalModulePath` field of a module entry (line 86). -/
def setExternalModulePath (st : TableState) (m : AstModuleId) (path : String) :
    TableState :=
  let updated :=
    listModify st.astModules m (fun r => { r with externalModulePath := some path })
  { st with astModules := updated }

/-- Performs `astModule.exportedSymbols.set(name, astSymbol)`. -/
def setModuleExport (st : TableState) (m : AstModuleId) (name : String)
    (astSymbol : AstSymbolId) : TableState :=
  let updated :=
    listModify st.astModules m
      (fun r => { r with exportedSymbols := mapSet r.exportedSymbols name astSymbol })
  { st with astModules := updated }

/-- Performs `astModule.starExportedModules.add(starExportedModule)` with JS
`Set` semantics: appended only when absent. -/
def addStarExportedModule (st : TableState) (m : AstModuleId)
    (starExportedModule : AstModuleId) : TableState :=
  let updated :=
    listModify st.astModules m
      (fun r =>
        if starExportedModule ∈ r.starExportedModules then r
        else { r with starExportedModules := r.starExportedModules ++ [starExportedModule] })
  { st with astModules := updated }

/-- Result of scanning the declarations of one export (the `for` loop of
lines 135-176): either the export was handled via a re-export declaration, or
the scan fell through. -/
inductive CollectScan where
  | handled (st : TableState)
  | notHandled (st : TableState)

mutual

/-- Embeds `fetchAstModuleBySourceFile` (lines 70-127): memoized construction
of a Module Registry Entry.  The entry is registered in the cache before its
exports are populated, which is what makes `export *` cycles safe. -/
def fetchAstModuleBySourceFile (o : Oracle) (fuel : Nat) (st : TableState)
    (sourceFile : FileId) (moduleSpecifier : Option String) :
    Except TError (AstModuleId × TableState) :=
  match fuel with
  | 0 => .error .outOfFuel
  | Nat.succ fuel =>
    match mapGet st.astModulesBySourceFile sourceFile with
    | some astModule => .ok (astModule, st)
    | none =>
      let astModuleId := st.astModules.length
      let newMod : AstModuleRec :=
        { sourceFile := sourceFile, externalModulePath := none,
          exportedSymbols := [], starExportedModules := [] }
      let newCache := mapSet st.astModulesBySourceFile sourceFile astModuleId
      let st1 := { st with
        astModules := st.astModules ++ [newMod],
        astModulesBySourceFile := newCache }
      let moduleSymbol := o.moduleSymbolOf sourceFile
      match moduleSpecifier with
      | some sp =>
        if o.isExternalModuleNameRelative sp then
          match localExportsLoop o fuel st1 astModuleId (o.moduleExportsTable moduleSymbol) with
          | .error e => .error e
          | .ok st2 => .ok (astModuleId, st2)
        else
          let st2 := setExternalModulePath st1 astModuleId sp
          match externalExportsLoop o fuel st2 astModuleId sp (o.getExportsOfModule moduleSymbol) with
          | .error e => .error e
          | .ok st3 => .ok (astModuleId, st3)
      | none =>
        match localExportsLoop o fuel st1 astModuleId (o.moduleExportsTable moduleSymbol) with
        | .error e => .error e
        | .ok st2 => .ok (astModuleId, st2)
termination_by structural fuel

/-- The loop of lines 88-103 (external entry point): follow aliases, fetch
with an Import Identity, and fail fatally on an unsupported export. -/
def externalExportsLoop (o : Oracle) (fuel : Nat) (st : TableState)
    (astModuleId : AstModuleId) (modulePath : String)
    (exportedSymbols : List SymbolId) : Except TError TableState :=
  match fuel, exportedSymbols with
  | 0, _ => .error .outOfFuel
  | Nat.succ _, [] => .ok st
  | Nat.succ fuel, exportedSymbol :: rest =>
    let astImportOptions : AstImport :=
      { exportName := o.symName exportedSymbol, modulePath := modulePath }
    let followedSymbol := o.symFollowAliases exportedSymbol
    match fetchAstSymbol o fuel st followedSymbol true (some astImportOptions) with
    | .error e => .error e
    | .ok (none, _) => .error (.unsupportedExport (o.symName exportedSymbol))
    | .ok (some astSymbol, st1) =>
      let st2 := setModuleExport st1 astModuleId (o.symName exportedSymbol) astSymbol
      externalExportsLoop o fuel st2 astModuleId modulePath rest
termination_by structural fuel

/-- The loop of lines 106-121 (local module): export-star aggregate entries
expand their declarations; every other export is collected individually. -/
def localExportsLoop (o : Oracle) (fuel : Nat) (st : TableState)
    (astModuleId : AstModuleId) (exportedSymbols : List SymbolId) :
    Except TError TableState :=
  match fuel, exportedSymbols with
  | 0, _ => .error .outOfFuel
  | Nat.succ _, [] => .ok st
  | Nat.succ fuel, exportedSymbol :: rest =>
    if o.symIsExportStar exportedSymbol then
      match starDeclarationsLoop o fuel st astModuleId (o.symDeclarations exportedSymbol) with
      | .error e => .error e
      | .ok st1 => localExportsLoop o fuel st1 astModuleId rest
    else
      match collectExportForAstModule o fuel st astModuleId exportedSymbol with
      | .error e => .error e
      | .ok st1 => localExportsLoop o fuel st1 astModuleId rest
termination_by structural fuel

/-- The loop of lines 112-114: each declaration of the export-star aggregate
symbol is processed by `_collectExportsFromExportStar`. -/
def starDeclarationsLoop (o : Oracle) (fuel : Nat) (st : TableState)
    (astModuleId : AstModuleId) (exportStarDeclarations : List NodeId) :
    Except TError TableState :=
  match fuel, exportStarDeclarations with
  | 0, _ => .error .outOfFuel
  | Nat.succ _, [] => .ok st
  | Nat.succ fuel, exportStarDeclaration :: rest =>
    match collectExportsFromExportStar o fuel st astModuleId exportStarDeclaration with
    | .error e => .error e
    | .ok st1 => starDeclarationsLoop o fuel st1 astModuleId rest
termination_by structural fuel

/-- Embeds `_collectExportsFromExportStar` (lines 231-243): resolve the
wildcard target module eagerly and add it to `starExportedModules`; nodes that
are not export declarations are ignored. -/
def collectExportsFromExportStar (o : Oracle) (fuel : Nat) (st : TableState)
    (astModuleId : AstModuleId) (exportStarDeclaration : NodeId) :
    Except TError TableState :=
  match fuel with
  | 0 => .error .outOfFuel
  | Nat.succ fuel =>
    if o.nodeKind exportStarDeclaration = TsKind.exportDeclarationKind then
      match fetchSpecifierAstModule o fuel st exportStarDeclaration with
      | .error e => .error e
      | .ok (none, st1) => .ok st1
      | .ok (some starExportedModule, st1) =>
        .ok (addStarExportedModule st1 astModuleId starExportedModule)
    else
      .ok st
termination_by structural fuel

/-- Embeds `_fetchSpecifierAstModule` (lines 245-275): resolve the specifier
string of an import/export declaration to a source file and fetch its module
entry; oracle-reported resolution failures are fatal internal errors. -/
def fetchSpecifierAstModule (o : Oracle) (fuel : Nat) (st : TableState)
    (exportStarDeclaration : NodeId) :
    Except TError (Option AstModuleId × TableState) :=
  match fuel with
  | 0 => .error .outOfFuel
  | Nat.succ fuel =>
    match o.moduleSpecifierOf exportStarDeclaration with
    | none => .ok (none, st)
    | some moduleSpecifier =>
      match o.getResolvedModule (o.nodeSourceFile exportStarDeclaration) moduleSpecifier with
      | none => .error (.internalError "getResolvedModule could not resolve module name")
      | some resolvedFileName =>
        match o.getSourceFileByName resolvedFileName with
        | none => .error (.internalError "getSourceFile failed to locate the resolved file")
        | some moduleSourceFile =>
          match fetchAstModuleBySourceFile o fuel st moduleSourceFile (some moduleSpecifier) with
          | .error e => .error e
          | .ok (specifierAstModule, st1) => .ok (some specifierAstModule, st1)
termination_by structural fuel

/-- Embeds `_collectExportForAstModule` (lines 129-196): the alias-following
`while` loop starts at the exported symbol itself. -/
def collectExportForAstModule (o : Oracle) (fuel : Nat) (st : TableState)
    (astModuleId : AstModuleId) (exportedSymbol : SymbolId) :
    Except TError TableState :=
  match fuel with
  | 0 => .error .outOfFuel
  | Nat.succ fuel =>
    collectAliasLoop o fuel st astModuleId exportedSymbol exportedSymbol
termination_by structural fuel

/-- One iteration of the `while (true)` loop of lines 132-189: scan the
current symbol's declarations for a re-export declaration; if none handles the
export, follow one alias step or exit the loop and fetch the terminal symbol
as an ordinary declaration (lines 191-195). -/
def collectAliasLoop (o : Oracle) (fuel : Nat) (st : TableState)
    (astModuleId : AstModuleId) (exportedSymbol : SymbolId) (current : SymbolId) :
    Except TError TableState :=
  match fuel with
  | 0 => .error .outOfFuel
  | Nat.succ fuel =>
    match collectDeclScan o fuel st astModuleId exportedSymbol (o.symDeclarations current) with
    | .error e => .error e
    | .ok (CollectScan.handled st1) => .ok st1
    | .ok (CollectScan.notHandled st1) =>
      let continueWith : Option SymbolId :=
        if !o.symAliasFlag current then none
        else
          match o.symImmediateAlias current with
          | none => none
          | some currentAlias =>
            if currentAlias = current then none else some currentAlias
      match continueWith with
      | some currentAlias =>
        collectAliasLoop o fuel st1 astModuleId exportedSymbol currentAlias
      | none =>
        match fetchAstSymbol o fuel st1 current true none with
        | .error e => .error e
        | .ok (none, st2) => .ok st2
        | .ok (some fetchedAstSymbol, st2) =>
          .ok (setModuleExport st2 astModuleId (o.symName exportedSymbol) fetchedAstSymbol)
termination_by structural fuel

/-- The `for` loop of lines 135-176: look for an export declaration parent of
each declaration; a named re-export is resolved through the specifier's
target module using the original (`propertyName`) name and bound under the
exported symbol's own name. -/
def collectDeclScan (o : Oracle) (fuel : Nat) (st : TableState)
    (astModuleId : AstModuleId) (exportedSymbol : SymbolId)
    (declarations : List NodeId) : Except TError CollectScan :=
  match fuel, declarations with
  | 0, _ => .error .outOfFuel
  | Nat.succ _, [] => .ok (CollectScan.notHandled st)
  | Nat.succ fuel, declaration :: rest =>
    match o.findExportDeclarationParent declaration with
    | none => collectDeclScan o fuel st astModuleId exportedSymbol rest
    | some exportDeclaration =>
      if o.nodeKind declaration = TsKind.exportSpecifier then
        let exportName :=
          (o.exportSpecifierPropertyName declaration).getD
            (o.exportSpecifierName declaration)
        match fetchSpecifierAstModule o fuel st exportDeclaration with
        | .error e => .error e
        | .ok (none, st1) => collectDeclScan o fuel st1 astModuleId exportedSymbol rest
        | .ok (some specifierAstModule, st1) =>
          match getExportOfAstModule st1 exportName specifierAstModule with
          | .error e => .error e
          | .ok exportedAstSymbol =>
            .ok (CollectScan.handled
              (setModuleExport st1 astModuleId (o.symName exportedSymbol) exportedAstSymbol))
      else
        .error .unimplementedExportKind
termination_by structural fuel

end

/-- Modelled from the spec: `AstDeclaration._notifyReferencedAstSymbol`
(AstDeclaration.ts is not in src/).  The referenced-symbol collection is a
set: monotonic accumulation with no duplicate entries. -/
def notifyReferencedAstSymbol (st : TableState) (governing : AstDeclId)
    (referenced : AstSymbolId) : TableState :=
  let updated :=
    listModify st.astDeclarations governing
      (fun r =>
        if referenced ∈ r.referencedAstSymbols then r
        else { r with referencedAstSymbols := r.referencedAstSymbols ++ [referenced] })
  { st with astDeclarations := updated }

/-- Modelled from the spec: `AstSymbol._notifyAnalyzed` (AstSymbol.ts is not
in src/).  Analysis operates at root granularity and `analyze` is idempotent
per Symbol Node, so marking sets the `analyzed` flag on the symbol's whole
merged-declaration family (every node sharing the same root). -/
def notifyAnalyzed (st : TableState) (astSymbol : AstSymbolId) : TableState :=
  let root := rootOfId st astSymbol
  let updated :=
    st.astSymbols.map
      (fun r => if r.rootAstSymbol = root then { r with analyzed := true } else r)
  { st with astSymbols := updated }

/-- Embeds `_fetchAstSymbolForNode` (lines 415-426). -/
def fetchAstSymbolForNode (o : Oracle) (fuel : Nat) (st : TableState)
    (node : NodeId) : Except TError (Option AstSymbolId × TableState) :=
  if !isAstDeclaration (o.nodeKind node) then .ok (none, st)
  else
    match o.symbolForDeclaration node with
    | none => .error (.internalError "Unable to find symbol for node")
    | some symbol => fetchAstSymbol o fuel st symbol true none

/-- Embeds `_fetchAstDeclaration` (lines 400-413). -/
def fetchAstDeclaration (o : Oracle) (fuel : Nat) (st : TableState)
    (node : NodeId) : Except TError (Option AstDeclId × TableState) :=
  match fetchAstSymbolForNode o fuel st node with
  | .error e => .error e
  | .ok (none, st1) => .ok (none, st1)
  | .ok (some _, st1) =>
    match mapGet st1.astDeclarationsByDeclaration node with
    | none => .error (.internalError "Unable to find constructed AstDeclaration")
    | some astDeclaration => .ok (some astDeclaration, st1)

mutual

/-- Embeds `_analyzeChildTree` (lines 358-397): skip documentation comments,
record type-reference-like constructs as referenced symbols on the governing
Declaration Node, and recurse into children with the governing declaration
switched when the node itself introduces one. -/
def analyzeChildTree (o : Oracle) (fuel : Nat) (st : TableState) (node : NodeId)
    (governingAstDeclaration : AstDeclId) : Except TError TableState :=
  match fuel with
  | 0 => .error .outOfFuel
  | Nat.succ fuel =>
    if o.nodeKind node = TsKind.jsDocComment then .ok st
    else
      let stepRef : Except TError TableState :=
        if o.nodeKind node = TsKind.typeReference
            ∨ o.nodeKind node = TsKind.expressionWithTypeArguments
            ∨ o.nodeKind node = TsKind.computedPropertyName then
          match o.firstIdentifier node with
          | none => .ok st
          | some symbolNode =>
            match o.symbolAtLocation symbolNode with
            | none => .error (.error "Symbol not found for identifier")
            | some symbol =>
              match fetchAstSymbol o fuel st symbol true none with
              | .error e => .error e
              | .ok (none, st1) => .ok st1
              | .ok (some referencedAstSymbol, st1) =>
                .ok (notifyReferencedAstSymbol st1 governingAstDeclaration referencedAstSymbol)
        else .ok st
      match stepRef with
      | .error e => .error e
      | .ok st1 =>
        match fetchAstDeclaration o fuel st1 node with
        | .error e => .error e
        | .ok (newGoverningOpt, st2) =>
          let newGoverning := newGoverningOpt.getD governingAstDeclaration
          analyzeChildrenLoop o fuel st2 (o.nodeChildren node) newGoverning
termination_by structural fuel

/-- The loop of lines 394-396 over `node.getChildren()`. -/
def analyzeChildrenLoop (o : Oracle) (fuel : Nat) (st : TableState)
    (childNodes : List NodeId) (governing : AstDeclId) :
    Except TError TableState :=
  match fuel, childNodes with
  | 0, _ => .error .outOfFuel
  | Nat.succ _, [] => .ok st
  | Nat.succ fuel, childNode :: rest =>
    match analyzeChildTree o fuel st childNode governing with
    | .error e => .error e
    | .ok st1 => analyzeChildrenLoop o fuel st1 rest governing
termination_by structural fuel

end

/-- The loop of lines 304-306: walk the child tree of every Declaration Node
of the root symbol.  A dangling declaration id is a modelling artifact and
reported as an internal error. -/
def analyzeRootDeclsLoop (o : Oracle) (fuel : Nat) (st : TableState)
    (astDeclarations : List AstDeclId) : Except TError TableState :=
  match fuel, astDeclarations with
  | 0, _ => .error .outOfFuel
  | Nat.succ _, [] => .ok st
  | Nat.succ fuel, astDeclaration :: rest =>
    match getDeclRec st astDeclaration with
    | none => .error (.internalError "Dangling AstDeclaration id")
    | some declRec =>
      match analyzeChildTree o fuel st declRec.declaration astDeclaration with
      | .error e => .error e
      | .ok st1 => analyzeRootDeclsLoop o fuel st1 rest
termination_by structural fuel

mutual

/-- Embeds `analyze` (lines 289-323): idempotence check, nominal
short-circuit, child-tree walk of the root's declarations, marking, and the
recursive expansion of non-imported referenced symbols performed only when
the symbol itself has no Import Identity. -/
def analyze (o : Oracle) (fuel : Nat) (st : TableState)
    (astSymbol : AstSymbolId) : Except TError TableState :=
  match fuel with
  | 0 => .error .outOfFuel
  | Nat.succ fuel =>
    if analyzedOf st astSymbol then .ok st
    else if nominalOf st astSymbol then .ok (notifyAnalyzed st astSymbol)
    else
      let rootAstSymbol := rootOfId st astSymbol
      match analyzeRootDeclsLoop o fuel st (astDeclarationsOf st rootAstSymbol) with
      | .error e => .error e
      | .ok st1 =>
        let st2 := notifyAnalyzed st1 rootAstSymbol
        if (astImportOf st2 astSymbol).isSome then .ok st2
        else phase2TopLoop o fuel st2 (astDeclarationsOf st2 rootAstSymbol)
termination_by structural fuel

/-- The outer iteration of `forEachDeclarationRecursive` (lines 314-321) over
the root's Declaration Nodes. -/
def phase2TopLoop (o : Oracle) (fuel : Nat) (st : TableState)
    (astDeclarations : List AstDeclId) : Except TError TableState :=
  match fuel, astDeclarations with
  | 0, _ => .error .outOfFuel
  | Nat.succ _, [] => .ok st
  | Nat.succ fuel, astDeclaration :: rest =>
    match phase2Visit o fuel st astDeclaration with
    | .error e => .error e
    | .ok st1 => phase2TopLoop o fuel st1 rest
termination_by structural fuel

/-- One visit of `forEachDeclarationRecursive`: run the callback (the
referenced-symbol loop) on this Declaration Node, then recurse into its
children.  Modelled from the spec: the traversal is live (children and
referenced symbols are re-read from the current state, as JS array iteration
does). -/
def phase2Visit (o : Oracle) (fuel : Nat) (st : TableState)
    (astDeclaration : AstDeclId) : Except TError TableState :=
  match fuel with
  | 0 => .error .outOfFuel
  | Nat.succ fuel =>
    match phase2RefsLoop o fuel st astDeclaration 0 with
    | .error e => .error e
    | .ok st1 => phase2ChildrenLoop o fuel st1 astDeclaration 0
termination_by structural fuel

/-- The callback body of lines 315-320: analyze every not-imported referenced
symbol of this Declaration Node. -/
def phase2RefsLoop (o : Oracle) (fuel : Nat) (st : TableState)
    (astDeclaration : AstDeclId) (i : Nat) : Except TError TableState :=
  match fuel with
  | 0 => .error .outOfFuel
  | Nat.succ fuel =>
    match (refsOf st astDeclaration)[i]? with
    | none => .ok st
    | some referencedAstSymbol =>
      if importedOf st referencedAstSymbol then
        phase2RefsLoop o fuel st astDeclaration (i + 1)
      else
        match analyze o fuel st referencedAstSymbol with
        | .error e => .error e
        | .ok st1 => phase2RefsLoop o fuel st1 astDeclaration (i + 1)
termination_by structural fuel

/-- Recursion of `forEachDeclarationRecursive` into child Declaration
Nodes. -/
def phase2ChildrenLoop (o : Oracle) (fuel : Nat) (st : TableState)
    (astDeclaration : AstDeclId) (i : Nat) : Except TError TableState :=
  match fuel with
  | 0 => .error .outOfFuel
  | Nat.succ fuel =>
    match (childrenOfDecl st astDeclaration)[i]? with
    | none => .ok st
    | some childDeclaration =>
      match phase2Visit o fuel st childDeclaration with
      | .error e => .error e
      | .ok st1 => phase2ChildrenLoop o fuel st1 astDeclaration (i + 1)
termination_by structural fuel

end

/-- The expansion-free variant of `analyze`: identical to `analyze` up to and
including the marking step, with no recursive expansion phase.  Used to state
that `analyze` performs no expansion for symbols carrying an Import
Identity. -/
def analyzeNoExpand (o : Oracle) :
    Nat → TableState → AstSymbolId → Except TError TableState
  | 0, _, _ => .error .outOfFuel
  | Nat.succ fuel, st, astSymbol =>
    if analyzedOf st astSymbol then .ok st
    else if nominalOf st astSymbol then .ok (notifyAnalyzed st astSymbol)
    else
      let rootAstSymbol := rootOfId st astSymbol
      match analyzeRootDeclsLoop o fuel st (astDeclarationsOf st rootAstSymbol) with
      | .error e => .error e
      | .ok st1 => .ok (notifyAnalyzed st1 rootAstSymbol)

/-! ### Basic lemmas about the map and arena primitives -/

theorem mapGet_mapSet_self {α β : Type} [DecidableEq α] (m : List (α × β)) (k : α)
    (v : β) : mapGet (mapSet m k v) k = some v := by
  simp [mapGet, mapSet]

theorem mapGet_mapSet_ne {α β : Type} [DecidableEq α] (m : List (α × β)) (k k' : α)
    (v : β) (h : k' ≠ k) : mapGet (mapSet m k' v) k = mapGet m k := by
  simp [mapGet, mapSet, h]

theorem listModify_length {α : Type} (l : List α) (i : Nat) (f : α → α) :
    (listModify l i f).length = l.length := by
  induction l generalizing i with
  | nil => simp [listModify]
  | cons a rest ih =>
    cases i with
    | zero => simp [listModify]
    | succ j => simp [listModify, ih]

theorem listModify_getElem?_ne {α : Type} (l : List α) (i j : Nat) (f : α → α)
    (h : j ≠ i) : (listModify l i f)[j]? = l[j]? := by
  induction l generalizing i j with
  | nil => simp [listModify]
  | cons a rest ih =>
    cases i with
    | zero =>
      cases j with
      | zero => exact absurd rfl h
      | succ j' => simp [listModify]
    | succ i' =>
      cases j with
      | zero => simp [listModify]
      | succ j' =>
        simp only [listModify, List.getElem?_cons_succ]
        exact ih i' j' (fun hc => h (by simp [hc]))

theorem listModify_getElem?_self {α : Type} (l : List α) (i : Nat) (f : α → α) :
    (listModify l i f)[i]? = l[i]?.map f := by
  induction l generalizing i with
  | nil => simp [listModify]
  | cons a rest ih =>
    cases i with
    | zero => simp [listModify]
    | succ i' => simpa [listModify] using ih i'

theorem getElem?_append_left_of_lt {α : Type} (l l' : List α) (i : Nat)
    (h : i < l.length) : (l ++ l')[i]? = l[i]? := by
  rw [List.getElem?_append_left h]

theorem getElem?_append_length {α : Type} (l : List α) (a : α) :
    (l ++ [a])[l.length]? = some a := by
  rw [List.getElem?_append_right (Nat.le_refl _)]
  simp

/-! ### Characterization of the import-consistency check -/

theorem finishFetch_ok {st : TableState} {c : AstSymbolId}
    {imp : Option AstImport} {x : Option AstSymbolId} {y : TableState}
    (h : finishFetch st c imp = .ok (x, y)) :
    x = some c ∧ y = st ∧ (imp.isSome = true → importedOf st c = true) := by
  unfold finishFetch at h
  split at h
  · exact absurd h (by simp)
  · next hcond =>
    refine ⟨by injection h with h'; injection h' with h1 h2; exact h1.symm ▸ rfl, ?_, ?_⟩
    · injection h with h'; injection h' with h1 h2; exact h2.symm ▸ rfl
    · intro hs
      by_contra hni
      simp only [Bool.not_eq_true] at hni
      exact hcond (by simp [hs, hni])

theorem finishFetch_none (st : TableState) (c : AstSymbolId) :
    finishFetch st c none = .ok (some c, st) := by
  simp [finishFetch]

/-! ### Stability of existing records under symbol construction -/

/-- All fields of a Declaration Node except `children` are immutable once the
node exists. -/
def DeclStable (r r' : AstDeclarationRec) : Prop :=
  r'.declaration = r.declaration ∧ r'.astSymbol = r.astSymbol ∧
  r'.parent = r.parent ∧ r'.referencedAstSymbols = r.referencedAstSymbols

theorem declStable_refl (r : AstDeclarationRec) : DeclStable r r :=
  ⟨rfl, rfl, rfl, rfl⟩

theorem declStable_trans {r₁ r₂ r₃ : AstDeclarationRec}
    (h₁ : DeclStable r₁ r₂) (h₂ : DeclStable r₂ r₃) : DeclStable r₁ r₃ :=
  ⟨h₂.1.trans h₁.1, h₂.2.1.trans h₁.2.1, h₂.2.2.1.trans h₁.2.2.1,
    h₂.2.2.2.trans h₁.2.2.2⟩

/-- The facts a caller needs about one `createOneDeclaration` step. -/
theorem createOneDeclaration_facts (st : TableState) (n : AstSymbolId)
    (p : Option AstDeclId) (d : NodeId) :
    (createOneDeclaration st n p d).astSymbolsBySymbol = st.astSymbolsBySymbol ∧
    (createOneDeclaration st n p d).astSymbolsByImportKey = st.astSymbolsByImportKey ∧
    (createOneDeclaration st n p d).astModules = st.astModules ∧
    (createOneDeclaration st n p d).astModulesBySourceFile = st.astModulesBySourceFile ∧
    (createOneDeclaration st n p d).astSymbols.length = st.astSymbols.length ∧
    (∀ i, i ≠ n → (createOneDeclaration st n p d).astSymbols[i]? = st.astSymbols[i]?) ∧
    st.astDeclarations.length ≤ (createOneDeclaration st n p d).astDeclarations.length ∧
    (∀ (j : Nat) (r : AstDeclarationRec), st.astDeclarations[j]? = some r →
      ∃ r', (createOneDeclaration st n p d).astDeclarations[j]? = some r' ∧
        DeclStable r r') := by
  unfold createOneDeclaration
  cases p with
  | none =>
    refine ⟨rfl, rfl, rfl, rfl, by simp [listModify_length], ?_, by simp, ?_⟩
    · intro i hi
      simp [listModify_getElem?_ne _ _ _ _ hi]
    · intro j r hr
      have hj : j < st.astDeclarations.length := by
        by_contra hge
        rw [List.getElem?_eq_none (by omega)] at hr
        exact absurd hr (by simp)
      refine ⟨r, ?_, declStable_refl r⟩
      simp only []
      rw [getElem?_append_left_of_lt _ _ _ hj]
      exact hr
  | some pd =>
    refine ⟨rfl, rfl, rfl, rfl, by simp [listModify_length], ?_,
      by simp [listModify_length], ?_⟩
    · intro i hi
      simp [listModify_getElem?_ne _ _ _ _ hi]
    · intro j r hr
      have hj : j < st.astDeclarations.length := by
        by_contra hge
        rw [List.getElem?_eq_none (by omega)] at hr
        exact absurd hr (by simp)
      simp only []
      by_cases hjp : j = pd
      · subst hjp
        rw [listModify_getElem?_self, getElem?_append_left_of_lt _ _ _ hj, hr]
        exact ⟨_, rfl, rfl, rfl, rfl, rfl⟩
      · rw [listModify_getElem?_ne _ _ _ _ hjp,
          getElem?_append_left_of_lt _ _ _ hj]
        exact ⟨r, hr, declStable_refl r⟩

/-- The facts a caller needs about `createDeclarationsFor`: it touches neither
the symbol maps nor the module state, leaves every symbol record other than
the freshly created one untouched, and only ever appends declaration records
or extends the `children` of existing ones. -/
theorem createDeclarationsFor_facts {o : Oracle} {n : AstSymbolId}
    {p : Option AstSymbolId} {ds : List NodeId} {st st' : TableState}
    (h : createDeclarationsFor o st n p ds = .ok st') :
    st'.astSymbolsBySymbol = st.astSymbolsBySymbol ∧
    st'.astSymbolsByImportKey = st.astSymbolsByImportKey ∧
    st'.astModules = st.astModules ∧
    st'.astModulesBySourceFile = st.astModulesBySourceFile ∧
    st'.astSymbols.length = st.astSymbols.length ∧
    (∀ i, i ≠ n → st'.astSymbols[i]? = st.astSymbols[i]?) ∧
    st.astDeclarations.length ≤ st'.astDeclarations.length ∧
    (∀ (j : Nat) (r : AstDeclarationRec), st.astDeclarations[j]? = some r →
      ∃ r', st'.astDeclarations[j]? = some r' ∧ DeclStable r r') := by
  induction ds generalizing st with
  | nil =>
    simp only [createDeclarationsFor] at h
    injection h with h
    subst h
    exact ⟨rfl, rfl, rfl, rfl, rfl, fun _ _ => rfl, Nat.le_refl _,
      fun j r hr => ⟨r, hr, declStable_refl r⟩⟩
  | cons d rest ih =>
    simp only [createDeclarationsFor] at h
    split at h
    · exact absurd h (by simp)
    · next parentOpt _ =>
      obtain ⟨f1, f2, f3, f4, f5, f6, f7, f8⟩ := ih h
      obtain ⟨e1, e2, e3, e4, e5, e6, e7, e8⟩ :=
        createOneDeclaration_facts st n parentOpt d
      refine ⟨f1.trans e1, f2.trans e2, f3.trans e3, f4.trans e4, f5.trans e5,
        fun i hi => (f6 i hi).trans (e6 i hi), Nat.le_trans e7 f7, ?_⟩
      intro j r hr
      obtain ⟨r₂, hr₂, hs₂⟩ := e8 j r hr
      obtain ⟨r₃, hr₃, hs₃⟩ := f8 j r₂ hr₂
      exact ⟨r₃, hr₃, declStable_trans hs₂ hs₃⟩

/-- The collected facts about one `_fetchAstSymbol` call: the symbol arena
only grows and existing symbol records are untouched; the module state is
untouched; declaration records are only appended or have their `children`
extended; and on success the followed symbol is bound in the identity cache to
the returned node, which is imported whenever Import Identity context was
supplied. -/
theorem fetchAstSymbol_facts {o : Oracle} {fuel : Nat} {st st' : TableState}
    {s : SymbolId} {b : Bool} {imp : Option AstImport} {r : Option AstSymbolId}
    (h : fetchAstSymbol o fuel st s b imp = .ok (r, st')) :
    st.astSymbols.length ≤ st'.astSymbols.length ∧
    (∀ i, i < st.astSymbols.length → st'.astSymbols[i]? = st.astSymbols[i]?) ∧
    st'.astModules = st.astModules ∧
    st'.astModulesBySourceFile = st.astModulesBySourceFile ∧
    st.astDeclarations.length ≤ st'.astDeclarations.length ∧
    (∀ (j : Nat) (rc : AstDeclarationRec), st.astDeclarations[j]? = some rc →
      ∃ rc', st'.astDeclarations[j]? = some rc' ∧ DeclStable rc rc') ∧
    (∀ a, r = some a → mapGet st'.astSymbolsBySymbol s = some a ∧
      (imp.isSome = true → importedOf st' a = true)) := by
  induction fuel generalizing st s b imp r st' with
  | zero => exact absurd h (by simp [fetchAstSymbol])
  | succ n ih =>
    simp only [fetchAstSymbol] at h
    split at h
    · -- filtered
      injection h with h
      injection h with h1 h2
      subst h2
      exact ⟨Nat.le_refl _, fun _ _ => rfl, rfl, rfl, Nat.le_refl _,
        fun j rc hr => ⟨rc, hr, declStable_refl rc⟩,
        fun a ha => absurd (h1 ▸ ha) (by simp)⟩
    · split at h
      · -- ambient
        injection h with h
        injection h with h1 h2
        subst h2
        exact ⟨Nat.le_refl _, fun _ _ => rfl, rfl, rfl, Nat.le_refl _,
          fun j rc hr => ⟨rc, hr, declStable_refl rc⟩,
          fun a ha => absurd (h1 ▸ ha) (by simp)⟩
      · split at h
        · -- cache hit by followed symbol
          next c hcache =>
          obtain ⟨hx, hy, hz⟩ := finishFetch_ok h
          subst hy
          refine ⟨Nat.le_refl _, fun _ _ => rfl, rfl, rfl, Nat.le_refl _,
            fun j rc hr => ⟨rc, hr, declStable_refl rc⟩, ?_⟩
          intro a ha
          rw [hx] at ha
          injection ha with ha
          subst ha
          exact ⟨hcache, hz⟩
        · split at h
          · -- no declarations: internal error
            exact absurd h (by simp)
          · next fd rds hdecls =>
            split at h
            · -- import-key merge
              next c hkey =>
              obtain ⟨hx, hy, hz⟩ := finishFetch_ok h
              subst hy
              refine ⟨Nat.le_refl _, fun _ _ => rfl, rfl, rfl, Nat.le_refl _,
                fun j rc hr => ⟨rc, hr, declStable_refl rc⟩, ?_⟩
              intro a ha
              rw [hx] at ha
              injection ha with ha
              subst ha
              exact ⟨mapGet_mapSet_self _ _ _, hz⟩
            · -- construction path
              next hkeymiss =>
              split at h
              · exact absurd h (by simp)
              · next parentOpt stBase hparent =>
                -- facts from the parent-resolution step
                have base :
                    st.astSymbols.length ≤ stBase.astSymbols.length ∧
                    (∀ i, i < st.astSymbols.length →
                      stBase.astSymbols[i]? = st.astSymbols[i]?) ∧
                    stBase.astModules = st.astModules ∧
                    stBase.astModulesBySourceFile = st.astModulesBySourceFile ∧
                    st.astDeclarations.length ≤ stBase.astDeclarations.length ∧
                    (∀ (j : Nat) (rc : AstDeclarationRec),
                      st.astDeclarations[j]? = some rc →
                      ∃ rc', stBase.astDeclarations[j]? = some rc' ∧
                        DeclStable rc rc') := by
                  split at hparent
                  · injection hparent with hp
                    injection hp with hp1 hp2
                    subst hp2
                    exact ⟨Nat.le_refl _, fun _ _ => rfl, rfl, rfl, Nat.le_refl _,
                      fun j rc hr => ⟨rc, hr, declStable_refl rc⟩⟩
                  · split at hparent
                    · exact absurd hparent (by simp)
                    · split at hparent
                      · injection hparent with hp
                        injection hp with hp1 hp2
                        subst hp2
                        exact ⟨Nat.le_refl _, fun _ _ => rfl, rfl, rfl, Nat.le_refl _,
                          fun j rc hr => ⟨rc, hr, declStable_refl rc⟩⟩
                      · split at hparent
                        · exact absurd hparent (by simp)
                        · split at hparent
                          · exact absurd hparent (by simp)
                          · exact absurd hparent (by simp)
                          · next hfetch =>
                            obtain ⟨g1, g2, g3, g4, g5, g6, _⟩ := ih hfetch
                            injection hparent with hp
                            injection hp with hp1 hp2
                            subst hp2
                            exact ⟨g1, g2, g3, g4, g5, g6⟩
                split at h
                · exact absurd h (by simp)
                · next st3 hcreate =>
                  obtain ⟨c1, c2, c3, c4, c5, c6, c7, c8⟩ :=
                    createDeclarationsFor_facts hcreate
                  obtain ⟨hx, hy, hz⟩ := finishFetch_ok h
                  subst hy
                  obtain ⟨b1, b2, b3, b4, b5, b6⟩ := base
                  refine ⟨?_, ?_, ?_, ?_, ?_, ?_, ?_⟩
                  · calc st.astSymbols.length ≤ stBase.astSymbols.length := b1
                      _ ≤ stBase.astSymbols.length + 1 := Nat.le_succ _
                      _ = st'.astSymbols.length := by simp [c5]
                  · intro i hi
                    have hi' : i < stBase.astSymbols.length := Nat.lt_of_lt_of_le hi b1
                    have hne : i ≠ stBase.astSymbols.length := Nat.ne_of_lt hi'
                    rw [c6 i hne]
                    simp only []
                    rw [getElem?_append_left_of_lt _ _ _ hi']
                    exact b2 i hi
                  · rw [c3]; exact b3
                  · rw [c4]; exact b4
                  · exact Nat.le_trans b5 c7
                  · intro j rc hr
                    obtain ⟨rc₂, hr₂, hs₂⟩ := b6 j rc hr
                    obtain ⟨rc₃, hr₃, hs₃⟩ := c8 j rc₂ hr₂
                    exact ⟨rc₃, hr₃, declStable_trans hs₂ hs₃⟩
                  · intro a ha
                    rw [hx] at ha
                    injection ha with ha
                    subst ha
                    refine ⟨?_, hz⟩
                    rw [c1]
                    exact mapGet_mapSet_self _ _ _

/-- Success with a node implies the two symbol filters passed. -/
theorem fetchAstSymbol_ok_some_filters {o : Oracle} {fuel : Nat}
    {st st' : TableState} {s : SymbolId} {b : Bool} {imp : Option AstImport}
    {a : AstSymbolId} (h : fetchAstSymbol o fuel st s b imp = .ok (some a, st')) :
    o.symFlagsFiltered s = false ∧ o.symIsAmbient s = false := by
  cases fuel with
  | zero => exact absurd h (by simp [fetchAstSymbol])
  | succ n =>
    simp only [fetchAstSymbol] at h
    have hf : o.symFlagsFiltered s = false := by
      by_contra hf
      rw [Bool.not_eq_false] at hf
      simp [hf] at h
    refine ⟨hf, ?_⟩
    by_contra hamb
    rw [Bool.not_eq_false] at hamb
    simp [hf, hamb] at h

/-- `addIfMissing` only flows into the recursive parent fetch and never
influences the result: the function behaves identically for both values. -/
theorem fetchAstSymbol_addIfMissing_eq (o : Oracle) (fuel : Nat) :
    ∀ (st : TableState) (s : SymbolId) (imp : Option AstImport) (b b' : Bool),
      fetchAstSymbol o fuel st s b imp = fetchAstSymbol o fuel st s b' imp := by
  induction fuel with
  | zero => intro st s imp b b'; rfl
  | succ n ih =>
    intro st s imp b b'
    simp only [fetchAstSymbol]
    simp only [show ∀ (st2 : TableState) (s2 : SymbolId) (imp2 : Option AstImport),
      fetchAstSymbol o n st2 s2 b imp2 = fetchAstSymbol o n st2 s2 b' imp2 from
      fun st2 s2 imp2 => ih st2 s2 imp2 b b']

/-! ### Concrete world used by witnesses -/

/-- A small concrete oracle: symbols 5, 6 and 11 are plain top-level
declarations with one declaration node each; everything else is empty. -/
def wOracle : Oracle :=
  { symName := fun s => if s = 5 then "Five" else if s = 6 then "Six" else "Other",
    symFlagsFiltered := fun _ => false,
    symIsAmbient := fun _ => false,
    symDeclarations := fun s =>
      if s = 5 then [50] else if s = 6 then [60] else if s = 11 then [110] else [],
    symAliasFlag := fun _ => false,
    symImmediateAlias := fun _ => none,
    symFollowAliases := fun s => s,
    symIsExportStar := fun _ => false,
    nodeKind := fun _ => TsKind.declarationKind,
    nodeAncestors := fun _ => [],
    nodeChildren := fun _ => [],
    nodeSourceFile := fun _ => 0,
    symbolForDeclaration := fun n =>
      if n = 50 then some 5 else if n = 60 then some 6
      else if n = 110 then some 11 else none,
    symbolAtLocation := fun _ => none,
    firstIdentifier := fun _ => none,
    exportSpecifierPropertyName := fun _ => none,
    exportSpecifierName := fun _ => "",
    findExportDeclarationParent := fun _ => none,
    moduleSpecifierOf := fun _ => none,
    getResolvedModule := fun _ _ => none,
    getSourceFileByName := fun _ => none,
    isAedocSupported := fun _ => true,
    moduleSymbolOf := fun _ => 0,
    getExportsOfModule := fun _ => [],
    moduleExportsTable := fun _ => [],
    isExternalModuleNameRelative := fun _ => false }

/-- A concrete Import Identity used by witnesses. -/
def wImport : AstImport := { exportName := "X", modulePath := "pkg" }

/-- Extracts the state of a successful table operation (used to name witness
states). -/
def stateAfter (r : Except TError (Option AstSymbolId × TableState)) : TableState :=
  match r with
  | .ok (_, st) => st
  | .error _ => emptyTableState

/-- State holding symbol 5 fetched without import context (node 0,
non-imported). -/
def wStatePlain : TableState :=
  stateAfter (fetchAstSymbol wOracle 2 emptyTableState 5 true none)

/-- State holding symbol 6 fetched with Import Identity `wImport` (node 0,
imported). -/
def wStateImported : TableState :=
  stateAfter (fetchAstSymbol wOracle 2 emptyTableState 6 true (some wImport))

/-! ### C1 — identity uniqueness of resolution -/

/-- C1: for any run of the table, once a resolution call on a followed
identity has returned a Symbol Node, every later resolution call on the same
identity returns that same node with the state unchanged (a cache hit instead
of a second construction); at worst it can fail the import-consistency check,
but it can never produce a different node. -/
theorem c1_identity_unique {o : Oracle} {fuel : Nat} {st st' : TableState}
    {s : SymbolId} {b : Bool} {imp : Option AstImport} {a : AstSymbolId}
    (h : fetchAstSymbol o fuel st s b imp = .ok (some a, st'))
    (fuel2 : Nat) (b2 : Bool) (imp2 : Option AstImport) :
    fetchAstSymbol o (Nat.succ fuel2) st' s b2 imp2 = .ok (some a, st') ∨
    (∃ e, fetchAstSymbol o (Nat.succ fuel2) st' s b2 imp2 = .error e) := by
  obtain ⟨hf, hamb⟩ := fetchAstSymbol_ok_some_filters h
  have hbind : mapGet st'.astSymbolsBySymbol s = some a :=
    ((fetchAstSymbol_facts h).2.2.2.2.2.2 a rfl).1
  simp only [fetchAstSymbol, hf, hamb, hbind, Bool.false_eq_true, if_false]
  unfold finishFetch
  split
  · exact Or.inr ⟨_, rfl⟩
  · exact Or.inl rfl

/-- Witness for C1: constructing symbol 5 and fetching it again returns the
identical node id 0 and leaves the state untouched. -/
theorem c1_witness :
    fetchAstSymbol wOracle 2 emptyTableState 5 true none = .ok (some 0, wStatePlain) ∧
    fetchAstSymbol wOracle 1 wStatePlain 5 false none = .ok (some 0, wStatePlain) := by
  have h : fetchAstSymbol wOracle 2 emptyTableState 5 true none =
      .ok (some 0, wStatePlain) := by decide
  refine ⟨h, ?_⟩
  rcases c1_identity_unique h 0 false none with hc | ⟨e, hc⟩
  · exact hc
  · rw [show fetchAstSymbol wOracle 1 wStatePlain 5 false none =
      .ok (some 0, wStatePlain) from by decide] at hc
    simp at hc

/-! ### C4 — import-consistency check and monotonicity of `imported` -/

/-- C4: (1) when `_fetchAstSymbol` is called with an Import Identity and the
cached Symbol Node resolved for the followed identity is not imported, it
throws the fatal internal-consistency error; (2) when such a call succeeds,
the returned node is imported; and (3) the `astImport` field of every
pre-existing node is never changed by any call, so `imported` can never be
revoked. -/
theorem c4_import_consistency (o : Oracle) :
    (∀ (fuel : Nat) (st : TableState) (s : SymbolId) (b : Bool) (i : AstImport)
      (a : AstSymbolId),
      o.symFlagsFiltered s = false → o.symIsAmbient s = false →
      mapGet st.astSymbolsBySymbol s = some a → importedOf st a = false →
      fetchAstSymbol o (Nat.succ fuel) st s b (some i) =
        .error (.internalError
          "The symbol is being imported after it was already registered as non-imported")) ∧
    (∀ (fuel : Nat) (st st' : TableState) (s : SymbolId) (b : Bool)
      (i : AstImport) (a : AstSymbolId),
      fetchAstSymbol o fuel st s b (some i) = .ok (some a, st') →
      importedOf st' a = true) ∧
    (∀ (fuel : Nat) (st st' : TableState) (s : SymbolId) (b : Bool)
      (imp : Option AstImport) (r : Option AstSymbolId),
      fetchAstSymbol o fuel st s b imp = .ok (r, st') →
      ∀ idx, idx < st.astSymbols.length → astImportOf st' idx = astImportOf st idx) := by
  refine ⟨?_, ?_, ?_⟩
  · intro fuel st s b i a hf hamb hcache himp
    simp [fetchAstSymbol, hf, hamb, hcache, finishFetch, himp]
  · intro fuel st st' s b i a h
    exact ((fetchAstSymbol_facts h).2.2.2.2.2.2 a rfl).2 (by simp)
  · intro fuel st st' s b imp r h idx hidx
    have hs := (fetchAstSymbol_facts h).2.1 idx hidx
    simp [astImportOf, getSymRec, hs]

/-- Witness for C4: fetching the non-imported node for symbol 5 with an Import
Identity fails fatally, while fetching symbol 6 with an Import Identity
produces an imported node. -/
theorem c4_witness :
    fetchAstSymbol wOracle 1 wStatePlain 5 true (some wImport) =
      .error (.internalError
        "The symbol is being imported after it was already registered as non-imported") ∧
    importedOf wStateImported 0 = true := by
  constructor
  · exact (c4_import_consistency wOracle).1 0 wStatePlain 5 true wImport 0
      (by decide) (by decide) (by decide) (by decide)
  · exact (c4_import_consistency wOracle).2.1 2 emptyTableState wStateImported 6
      true wImport 0 (by decide)

/-! ### C6 — merging of distinct identities with one Import Identity -/

/-- C6: on a cache miss by followed identity, when a Symbol Node is already
registered under the supplied Import Identity key, the new identity is bound
in the identity cache to that existing node and the very same node is
returned — no new node is constructed and the arenas are untouched. -/
theorem c6_import_identity_merge {o : Oracle} {fuel : Nat} {st : TableState}
    {s2 : SymbolId} {b : Bool} {imp : AstImport} {a : AstSymbolId}
    (d : NodeId) (ds : List NodeId)
    (hf : o.symFlagsFiltered s2 = false) (hamb : o.symIsAmbient s2 = false)
    (hmiss : mapGet st.astSymbolsBySymbol s2 = none)
    (hd : o.symDeclarations s2 = d :: ds)
    (hkey : mapGet st.astSymbolsByImportKey imp = some a)
    (himp : importedOf st a = true) :
    fetchAstSymbol o (Nat.succ fuel) st s2 b (some imp) =
      .ok (some a,
        { st with astSymbolsBySymbol := mapSet st.astSymbolsBySymbol s2 a }) := by
  simp only [fetchAstSymbol, hf, hamb, hmiss, hd, hkey, Bool.false_eq_true, if_false]
  have himp' : importedOf
      { st with astSymbolsBySymbol := mapSet st.astSymbolsBySymbol s2 a } a = true := by
    simpa [importedOf, getSymRec] using himp
  simp [finishFetch, himp']

/-- Witness for C6: after symbol 6 is registered under `wImport`, fetching the
distinct followed symbol 11 with the same Import Identity yields the same node
id 0, adding only the identity-cache binding. -/
theorem c6_witness :
    fetchAstSymbol wOracle 1 wStateImported 11 true (some wImport) =
      .ok (some 0,
        { wStateImported with
            astSymbolsBySymbol := mapSet wStateImported.astSymbolsBySymbol 11 0 }) := by
  exact c6_import_identity_merge 110 [] (by decide) (by decide) (by decide)
    (by decide) (by decide) (by decide)

/-! ### C9 — `addIfMissing` is never consulted before construction -/

/-- C9: the `addIfMissing` flag has no influence whatsoever on
`_fetchAstSymbol` (it is only forwarded to the recursive parent fetch), and in
particular the lookup-only entry point `tryGetAstSymbol` still constructs and
registers a new Symbol Node for an unseen identity that passes the filters. -/
theorem c9_addIfMissing_unused (o : Oracle) :
    (∀ (fuel : Nat) (st : TableState) (s : SymbolId) (imp : Option AstImport)
      (b b' : Bool),
      fetchAstSymbol o fuel st s b imp = fetchAstSymbol o fuel st s b' imp) ∧
    (∀ (fuel : Nat) (st : TableState) (s : SymbolId) (d : NodeId),
      o.symFlagsFiltered s = false → o.symIsAmbient s = false →
      mapGet st.astSymbolsBySymbol s = none →
      o.symDeclarations s = [d] →
      o.nodeKind d = TsKind.declarationKind →
      tryFindFirstAstDeclarationParent o d = none →
      ∃ st', tryGetAstSymbol o (Nat.succ fuel) st s =
          .ok (some st.astSymbols.length, st') ∧
        st'.astSymbols.length = st.astSymbols.length + 1 ∧
        mapGet st'.astSymbolsBySymbol s = some st.astSymbols.length) := by
  refine ⟨fun fuel st s imp b b' => fetchAstSymbol_addIfMissing_eq o fuel st s imp b b', ?_⟩
  intro fuel st s d hf hamb hmiss hd hk hp
  refine ⟨stateAfter (tryGetAstSymbol o (Nat.succ fuel) st s), ?_, ?_, ?_⟩ <;>
    simp [stateAfter, tryGetAstSymbol, fetchAstSymbol, hf, hamb, hmiss, hd, hk, hp,
      isAstDeclaration, createDeclarationsFor, resolveParentDeclaration,
      createOneDeclaration, finishFetch, importedOf, getSymRec,
      mapGet_mapSet_self, listModify_length]

/-- Witness for C9: on the empty table, `tryGetAstSymbol` (the entry point
documented as constructing nothing) constructs node 0 for symbol 5. -/
theorem c9_witness :
    ∃ st', tryGetAstSymbol wOracle 2 emptyTableState 5 = .ok (some 0, st') ∧
      st'.astSymbols.length = 0 + 1 ∧
      mapGet st'.astSymbolsBySymbol 5 = some 0 := by
  exact (c9_addIfMissing_unused wOracle).2 1 emptyTableState 5 50
    (by decide) (by decide) (by decide) (by decide) (by decide) (by decide)

/-! ### C2 — termination of wildcard-export lookup -/

/-- The visited set only ever grows during a lookup. -/
theorem tryGetExport_visited_mono (mods : List AstModuleRec) (name : String) :
    ∀ fuel : Nat,
      (∀ (m : AstModuleId) (visited : List AstModuleId) (r : Option AstSymbolId)
        (vis' : List AstModuleId),
        tryGetExportOfAstModule mods name fuel m visited = some (r, vis') →
        visited ⊆ vis') ∧
      (∀ (cs visited : List AstModuleId) (r : Option AstSymbolId)
        (vis' : List AstModuleId),
        tryGetExportStarLoop mods name fuel cs visited = some (r, vis') →
        visited ⊆ vis') := by
  intro fuel
  induction fuel with
  | zero =>
    constructor
    · intro m visited r vis' h
      exact absurd h (by simp [tryGetExportOfAstModule])
    · intro cs visited r vis' h
      exact absurd h (by simp [tryGetExportStarLoop])
  | succ n ih =>
    constructor
    · intro m visited r vis' h
      simp only [tryGetExportOfAstModule] at h
      split at h
      · injection h with h
        injection h with h1 h2
        subst h2
        exact List.Subset.refl _
      · next hm =>
        split at h
        · injection h with h
          injection h with h1 h2
          subst h2
          exact List.subset_cons_self _ _
        · split at h
          · injection h with h
            injection h with h1 h2
            subst h2
            exact List.subset_cons_self _ _
          · have hsub := ih.2 _ _ _ _ h
            exact fun x hx => hsub (List.mem_cons_of_mem _ hx)
    · intro cs visited r vis' h
      cases cs with
      | nil =>
        simp only [tryGetExportStarLoop] at h
        injection h with h
        injection h with h1 h2
        subst h2
        exact List.Subset.refl _
      | cons c rest =>
        simp only [tryGetExportStarLoop] at h
        split at h
        · exact absurd h (by simp)
        · next hc =>
          injection h with h
          injection h with h1 h2
          subst h2
          exact ih.1 _ _ _ _ hc
        · next v' hc =>
          exact fun x hx => ih.2 _ _ _ _ h (ih.1 _ _ _ _ hc hx)

/-- Splitting the lookup potential at a freshly visited module. -/
theorem lookupPotential_cons (mods : List AstModuleRec) (visited : List AstModuleId)
    (m : AstModuleId) (hm : m < mods.length) (hnv : m ∉ visited) :
    lookupPotential mods visited =
      lookupPotential mods (m :: visited) + (2 + starCount mods m) := by
  unfold lookupPotential
  have key : ∀ (l : List AstModuleId), l.Nodup → m ∈ l →
      ((l.filter (fun i => decide (i ∉ visited))).map
        (fun i => 2 + starCount mods i)).sum =
      ((l.filter (fun i => decide (i ∉ m :: visited))).map
        (fun i => 2 + starCount mods i)).sum + (2 + starCount mods m) := by
    intro l
    induction l with
    | nil => intro _ hml; exact absurd hml (by simp)
    | cons a rest ihl =>
      intro hnd hml
      rw [List.filter_cons, List.filter_cons]
      by_cases ham : a = m
      · subst ham
        have hnr : a ∉ rest := (List.nodup_cons.mp hnd).1
        have hfeq : rest.filter (fun i => decide (i ∉ visited)) =
            rest.filter (fun i => decide (i ∉ a :: visited)) := by
          apply List.filter_congr
          intro x hx
          have hxa : x ≠ a := fun hxe => hnr (hxe ▸ hx)
          simp [hxa]
        rw [if_pos (by simp [hnv]), if_neg (by simp), hfeq]
        simp only [List.map_cons, List.sum_cons]
        omega
      · have hmr : m ∈ rest := by
          cases List.mem_cons.mp hml with
          | inl he => exact absurd he.symm ham
          | inr hr => exact hr
        have step := ihl (List.nodup_cons.mp hnd).2 hmr
        by_cases hav : a ∈ visited
        · rw [if_neg (by simp [hav]), if_neg (by simp [hav])]
          exact step
        · rw [if_pos (by simp [hav]), if_pos (by simp [hav, ham])]
          simp only [List.map_cons, List.sum_cons]
          omega
  exact key (List.range mods.length) (List.nodup_range _)
    (List.mem_range.mpr hm)

/-- The lookup potential shrinks as the visited set grows. -/
theorem lookupPotential_anti (mods : List AstModuleRec)
    {visited visited' : List AstModuleId} (h : visited ⊆ visited') :
    lookupPotential mods visited' ≤ lookupPotential mods visited := by
  unfold lookupPotential
  have hsub : List.Sublist
      ((List.range mods.length).filter (fun i => decide (i ∉ visited')))
      ((List.range mods.length).filter (fun i => decide (i ∉ visited))) := by
    apply List.monotone_filter_right
    intro a ha
    simp only [decide_eq_true_eq] at ha ⊢
    exact fun hav => ha (h hav)
  exact List.Sublist.sum_le_sum (hsub.map _) (fun x _ => Nat.zero_le x)

/-- Fuel sufficiency: a lookup whose fuel exceeds the current potential never
runs out of fuel — the visited-set discipline makes the recursion bottom
out. -/
theorem tryGetExport_fuel_sufficient (mods : List AstModuleRec) (name : String) :
    ∀ fuel : Nat,
      (∀ (m : AstModuleId) (visited : List AstModuleId),
        lookupPotential mods visited < fuel →
        (tryGetExportOfAstModule mods name fuel m visited).isSome = true) ∧
      (∀ (cs visited : List AstModuleId),
        lookupPotential mods visited + cs.length < fuel →
        (tryGetExportStarLoop mods name fuel cs visited).isSome = true) := by
  intro fuel
  induction fuel with
  | zero => exact ⟨fun m v h => absurd h (by omega), fun cs v h => absurd h (by omega)⟩
  | succ n ih =>
    constructor
    · intro m visited hp
      simp only [tryGetExportOfAstModule]
      split
      · rfl
      · next hm =>
        split
        · rfl
        · next md hmd =>
          split
          · rfl
          · apply ih.2
            have hlt : m < mods.length := by
              by_contra hge
              rw [List.getElem?_eq_none (Nat.le_of_not_lt hge)] at hmd
              exact absurd hmd (by simp)
            have hsplit := lookupPotential_cons mods visited m hlt hm
            have hsc : starCount mods m = md.starExportedModules.length := by
              simp [starCount, hmd]
            omega
    · intro cs visited hp
      cases cs with
      | nil => simp [tryGetExportStarLoop]
      | cons c rest =>
        simp only [tryGetExportStarLoop, List.length_cons] at hp ⊢
        have h1 : (tryGetExportOfAstModule mods name n c visited).isSome = true :=
          ih.1 c visited (by omega)
        obtain ⟨⟨r, v'⟩, hrv⟩ := Option.isSome_iff_exists.mp h1
        rw [hrv]
        cases r with
        | some a => rfl
        | none =>
          apply ih.2
          have hmono := (tryGetExport_visited_mono mods name n).1 _ _ _ _ hrv
          have hanti := lookupPotential_anti mods hmono
          omega

/-- A name exported by no module at all is never found. -/
theorem tryGetExport_none_of_absent (mods : List AstModuleRec) (name : String)
    (habs : ∀ md ∈ mods, mapGet md.exportedSymbols name = none) :
    ∀ fuel : Nat,
      (∀ (m : AstModuleId) (visited : List AstModuleId)
        (p : Option AstSymbolId × List AstModuleId),
        tryGetExportOfAstModule mods name fuel m visited = some p → p.1 = none) ∧
      (∀ (cs visited : List AstModuleId) (p : Option AstSymbolId × List AstModuleId),
        tryGetExportStarLoop mods name fuel cs visited = some p → p.1 = none) := by
  intro fuel
  induction fuel with
  | zero =>
    exact ⟨fun m v p h => absurd h (by simp [tryGetExportOfAstModule]),
      fun cs v p h => absurd h (by simp [tryGetExportStarLoop])⟩
  | succ n ih =>
    constructor
    · intro m visited p h
      simp only [tryGetExportOfAstModule] at h
      split at h
      · injection h with h; subst h; rfl
      · split at h
        · injection h with h; subst h; rfl
        · next md hmd =>
          split at h
          · next a hhit =>
            have hmem : md ∈ mods := by
              have := List.getElem?_eq_some_iff.mp hmd
              obtain ⟨hlt, hget⟩ := this
              exact hget ▸ List.getElem_mem hlt
            rw [habs md hmem] at hhit
            exact absurd hhit (by simp)
          · exact ih.2 _ _ _ h
    · intro cs visited p h
      cases cs with
      | nil =>
        simp only [tryGetExportStarLoop] at h
        injection h with h; subst h; rfl
      | cons c rest =>
        simp only [tryGetExportStarLoop] at h
        split at h
        · exact absurd h (by simp)
        · next hc =>
          injection h with h; subst h
          exact ih.1 _ _ _ hc
        · exact ih.2 _ _ _ h

/-- C2: wildcard-export lookup terminates on cyclic star-export graphs.
Conjunction: (1) re-entering an already-visited module returns "not found"
immediately with the visited set unchanged; (2) any fuel exceeding the
potential of the not-yet-visited modules suffices — in particular the
recursion guarded by the visited set always bottoms out, so the lookup as run
by `_getExportOfAstModule` (with `lookupFuelBound`) terminates; (3) a name
exported by no module of the arena is reported "not found" rather than
looping. -/
theorem c2_wildcard_cycle_termination :
    (∀ (mods : List AstModuleRec) (name : String) (fuel : Nat)
      (m : AstModuleId) (visited : List AstModuleId), m ∈ visited →
      tryGetExportOfAstModule mods name (Nat.succ fuel) m visited =
        some (none, visited)) ∧
    (∀ (mods : List AstModuleRec) (name : String) (fuel : Nat)
      (m : AstModuleId) (visited : List AstModuleId),
      lookupPotential mods visited < fuel →
      (tryGetExportOfAstModule mods name fuel m visited).isSome = true) ∧
    (∀ (mods : List AstModuleRec) (name : String),
      (∀ md ∈ mods, mapGet md.exportedSymbols name = none) →
      ∀ (fuel : Nat) (m : AstModuleId) (visited : List AstModuleId)
        (p : Option AstSymbolId × List AstModuleId),
        tryGetExportOfAstModule mods name fuel m visited = some p →
        p.1 = none) := by
  refine ⟨?_, ?_, ?_⟩
  · intro mods name fuel m visited hmem
    simp [tryGetExportOfAstModule, hmem]
  · intro mods name fuel m visited hp
    exact (tryGetExport_fuel_sufficient mods name fuel).1 m visited hp
  · intro mods name habs fuel m visited p h
    exact (tryGetExport_none_of_absent mods name habs fuel).1 m visited p h

/-- Two local modules that wildcard-re-export each other. -/
def cycleMods : List AstModuleRec :=
  [ { sourceFile := 0, externalModulePath := none, exportedSymbols := [],
      starExportedModules := [1] },
    { sourceFile := 1, externalModulePath := none, exportedSymbols := [],
      starExportedModules := [0] } ]

/-- Witness for C2: on the two-module wildcard cycle, a revisit returns "not
found" at once, ample fuel never runs out, and looking up a name neither
module exports terminates with "not found". -/
theorem c2_witness :
    tryGetExportOfAstModule cycleMods "missing" 5 0 [0] = some (none, [0]) ∧
    (tryGetExportOfAstModule cycleMods "missing" 9 0 []).isSome = true ∧
    tryGetExportOfAstModule cycleMods "missing" 9 0 [] = some (none, [1, 0]) := by
  refine ⟨c2_wildcard_cycle_termination.1 cycleMods "missing" 4 0 [0] (by decide),
    c2_wildcard_cycle_termination.2.1 cycleMods "missing" 9 0 [] (by decide),
    by decide⟩

/-! ### Module-map monotonicity across the module-resolution layer -/

/-- Entries of the source-file-to-module cache are never lost or rebound. -/
def ModMapLe (st st' : TableState) : Prop :=
  ∀ f v, mapGet st.astModulesBySourceFile f = some v →
    mapGet st'.astModulesBySourceFile f = some v

theorem modMapLe_refl (st : TableState) : ModMapLe st st := fun _ _ h => h

theorem modMapLe_trans {st₁ st₂ st₃ : TableState} (h₁ : ModMapLe st₁ st₂)
    (h₂ : ModMapLe st₂ st₃) : ModMapLe st₁ st₃ :=
  fun f v h => h₂ f v (h₁ f v h)

theorem modMapLe_of_eq {st st' : TableState}
    (h : st'.astModulesBySourceFile = st.astModulesBySourceFile) :
    ModMapLe st st' := fun _ _ hv => h ▸ hv

/-- The state carried by a declaration-scan outcome. -/
def scanState : CollectScan → TableState
  | .handled st => st
  | .notHandled st => st

/-- Across the whole module-resolution layer, registered module entries are
permanent: every operation only adds bindings for source files that were not
yet registered. -/
theorem moduleLayer_modMapLe (o : Oracle) : ∀ fuel : Nat,
    (∀ st file ms p, fetchAstModuleBySourceFile o fuel st file ms = .ok p →
      ModMapLe st p.2) ∧
    (∀ st m mp syms st', externalExportsLoop o fuel st m mp syms = .ok st' →
      ModMapLe st st') ∧
    (∀ st m syms st', localExportsLoop o fuel st m syms = .ok st' →
      ModMapLe st st') ∧
    (∀ st m ds st', starDeclarationsLoop o fuel st m ds = .ok st' →
      ModMapLe st st') ∧
    (∀ st m d st', collectExportsFromExportStar o fuel st m d = .ok st' →
      ModMapLe st st') ∧
    (∀ st d p, fetchSpecifierAstModule o fuel st d = .ok p → ModMapLe st p.2) ∧
    (∀ st m e st', collectExportForAstModule o fuel st m e = .ok st' →
      ModMapLe st st') ∧
    (∀ st m e cur st', collectAliasLoop o fuel st m e cur = .ok st' →
      ModMapLe st st') ∧
    (∀ st m e ds res, collectDeclScan o fuel st m e ds = .ok res →
      ModMapLe st (scanState res)) := by
  intro fuel
  induction fuel with
  | zero =>
    refine ⟨?_, ?_, ?_, ?_, ?_, ?_, ?_, ?_, ?_⟩ <;>
      (intros
       simp_all [fetchAstModuleBySourceFile, externalExportsLoop,
         localExportsLoop, starDeclarationsLoop, collectExportsFromExportStar,
         fetchSpecifierAstModule, collectExportForAstModule, collectAliasLoop,
         collectDeclScan])
  | succ n ih =>
    obtain ⟨ihFetchMod, ihExt, ihLocal, ihStarDecls, ihStar, ihSpec, ihCollect,
      ihAlias, ihScan⟩ := ih
    have hFetchMod : ∀ st file ms p,
        fetchAstModuleBySourceFile o (Nat.succ n) st file ms = .ok p →
        ModMapLe st p.2 := by
      intro st file ms p h
      simp only [fetchAstModuleBySourceFile] at h
      split at h
      · injection h with h
        subst h
        exact modMapLe_refl st
      · next hmiss =>
        have hreg : ModMapLe st
            { st with
              astModules := st.astModules ++
                [{ sourceFile := file, externalModulePath := none,
                   exportedSymbols := [], starExportedModules := [] }],
              astModulesBySourceFile :=
                mapSet st.astModulesBySourceFile file st.astModules.length } := by
          intro f v hv
          have hne : f ≠ file := by
            intro he
            rw [he, hmiss] at hv
            exact absurd hv (by simp)
          show mapGet (mapSet st.astModulesBySourceFile file st.astModules.length)
            f = some v
          rw [mapGet_mapSet_ne _ _ _ _ (Ne.symm hne)]
          exact hv
        split at h
        · split at h
          · split at h
            · exact absurd h (by simp)
            · next hloop =>
              injection h with h
              subst h
              exact modMapLe_trans hreg (ihLocal _ _ _ _ hloop)
          · split at h
            · exact absurd h (by simp)
            · next hloop =>
              injection h with h
              subst h
              have h2 := ihExt _ _ _ _ _ hloop
              refine modMapLe_trans hreg (modMapLe_trans ?_ h2)
              exact modMapLe_of_eq rfl
        · split at h
          · exact absurd h (by simp)
          · next hloop =>
            injection h with h
            subst h
            exact modMapLe_trans hreg (ihLocal _ _ _ _ hloop)
    have hExt : ∀ st m mp syms st',
        externalExportsLoop o (Nat.succ n) st m mp syms = .ok st' →
        ModMapLe st st' := by
      intro st m mp syms st' h
      cases syms with
      | nil =>
        simp only [externalExportsLoop] at h
        injection h with h
        subst h
        exact modMapLe_refl _
      | cons e rest =>
        simp only [externalExportsLoop] at h
        split at h
        · exact absurd h (by simp)
        · exact absurd h (by simp)
        · next a st1 hfetch =>
          have h1 : ModMapLe st st1 :=
            modMapLe_of_eq (fetchAstSymbol_facts hfetch).2.2.2.1
          have h2 : ModMapLe st1 (setModuleExport st1 m (o.symName e) a) :=
            modMapLe_of_eq rfl
          exact modMapLe_trans (modMapLe_trans h1 h2) (ihExt _ _ _ _ _ h)
    have hStar : ∀ st m d st',
        collectExportsFromExportStar o (Nat.succ n) st m d = .ok st' →
        ModMapLe st st' := by
      intro st m d st' h
      simp only [collectExportsFromExportStar] at h
      split at h
      · split at h
        · exact absurd h (by simp)
        · next st1 hspec =>
          injection h with h
          subst h
          exact ihSpec _ _ _ hspec
        · next sm st1 hspec =>
          injection h with h
          subst h
          exact modMapLe_trans (ihSpec _ _ _ hspec) (modMapLe_of_eq rfl)
      · injection h with h
        subst h
        exact modMapLe_refl _
    have hStarDecls : ∀ st m ds st',
        starDeclarationsLoop o (Nat.succ n) st m ds = .ok st' →
        ModMapLe st st' := by
      intro st m ds st' h
      cases ds with
      | nil =>
        simp only [starDeclarationsLoop] at h
        injection h with h
        subst h
        exact modMapLe_refl _
      | cons d rest =>
        simp only [starDeclarationsLoop] at h
        split at h
        · exact absurd h (by simp)
        · next st1 hone =>
          exact modMapLe_trans (ihStar _ _ _ _ hone) (ihStarDecls _ _ _ _ h)
    have hLocal : ∀ st m syms st',
        localExportsLoop o (Nat.succ n) st m syms = .ok st' →
        ModMapLe st st' := by
      intro st m syms st' h
      cases syms with
      | nil =>
        simp only [localExportsLoop] at h
        injection h with h
        subst h
        exact modMapLe_refl _
      | cons e rest =>
        simp only [localExportsLoop] at h
        split at h
        · split at h
          · exact absurd h (by simp)
          · next st1 hone =>
            exact modMapLe_trans (ihStarDecls _ _ _ _ hone) (ihLocal _ _ _ _ h)
        · split at h
          · exact absurd h (by simp)
          · next st1 hone =>
            exact modMapLe_trans (ihCollect _ _ _ _ hone) (ihLocal _ _ _ _ h)
    have hSpec : ∀ st d p,
        fetchSpecifierAstModule o (Nat.succ n) st d = .ok p → ModMapLe st p.2 := by
      intro st d p h
      simp only [fetchSpecifierAstModule] at h
      split at h
      · injection h with h
        subst h
        exact modMapLe_refl _
      · split at h
        · exact absurd h (by simp)
        · split at h
          · exact absurd h (by simp)
          · split at h
            · exact absurd h (by simp)
            · next mid st1 hmod =>
              injection h with h
              subst h
              exact ihFetchMod _ _ _ _ hmod
    have hScan : ∀ st m e ds res,
        collectDeclScan o (Nat.succ n) st m e ds = .ok res →
        ModMapLe st (scanState res) := by
      intro st m e ds res h
      cases ds with
      | nil =>
        simp only [collectDeclScan] at h
        injection h with h
        subst h
        exact modMapLe_refl st
      | cons d rest =>
        simp only [collectDeclScan] at h
        split at h
        · exact ihScan _ _ _ _ _ h
        · split at h
          · split at h
            · exact absurd h (by simp)
            · next st1 hspec =>
              exact modMapLe_trans (ihSpec _ _ _ hspec) (ihScan _ _ _ _ _ h)
            · next sm st1 hspec =>
              split at h
              · exact absurd h (by simp)
              · injection h with h
                subst h
                exact modMapLe_trans (ihSpec _ _ _ hspec) (modMapLe_of_eq rfl)
          · exact absurd h (by simp)
    have hAlias : ∀ st m e cur st',
        collectAliasLoop o (Nat.succ n) st m e cur = .ok st' →
        ModMapLe st st' := by
      intro st m e cur st' h
      simp only [collectAliasLoop] at h
      split at h
      · exact absurd h (by simp)
      · next st1 hscan =>
        injection h with h
        subst h
        exact ihScan _ _ _ _ _ hscan
      · next st1 hscan =>
        have h1 : ModMapLe st st1 := ihScan _ _ _ _ _ hscan
        split at h
        · exact modMapLe_trans h1 (ihAlias _ _ _ _ _ h)
        · split at h
          · exact absurd h (by simp)
          · next st2 hfetch =>
            injection h with h
            subst h
            exact modMapLe_trans h1 (modMapLe_of_eq (fetchAstSymbol_facts hfetch).2.2.2.1)
          · next a st2 hfetch =>
            injection h with h
            subst h
            exact modMapLe_trans (modMapLe_trans h1
              (modMapLe_of_eq (fetchAstSymbol_facts hfetch).2.2.2.1))
              (modMapLe_of_eq rfl)
    have hCollect : ∀ st m e st',
        collectExportForAstModule o (Nat.succ n) st m e = .ok st' →
        ModMapLe st st' := by
      intro st m e st' h
      simp only [collectExportForAstModule] at h
      exact ihAlias _ _ _ _ _ h
    exact ⟨hFetchMod, hExt, hLocal, hStarDecls, hStar, hSpec, hCollect,
      hAlias, hScan⟩

/-- A fetched module entry is registered in the source-file cache of the
resulting state. -/
theorem fetchAstModuleBySourceFile_registers {o : Oracle} {fuel : Nat}
    {st st' : TableState} {file : FileId} {ms : Option String} {mid : AstModuleId}
    (h : fetchAstModuleBySourceFile o fuel st file ms = .ok (mid, st')) :
    mapGet st'.astModulesBySourceFile file = some mid := by
  cases fuel with
  | zero => exact absurd h (by simp [fetchAstModuleBySourceFile])
  | succ n =>
    simp only [fetchAstModuleBySourceFile] at h
    split at h
    · next c hc =>
      injection h with h
      injection h with h1 h2
      subst h2
      exact h1 ▸ hc
    · next hmiss =>
      have hreg1 : mapGet
          (mapSet st.astModulesBySourceFile file st.astModules.length) file =
          some st.astModules.length := mapGet_mapSet_self _ _ _
      split at h
      · split at h
        · split at h
          · exact absurd h (by simp)
          · next hloop =>
            injection h with h
            injection h with h1 h2
            subst h2
            have hle := (moduleLayer_modMapLe o n).2.2.1 _ _ _ _ hloop
            exact h1 ▸ hle file _ hreg1
        · split at h
          · exact absurd h (by simp)
          · next hloop =>
            injection h with h
            injection h with h1 h2
            subst h2
            have hle := (moduleLayer_modMapLe o n).2.1 _ _ _ _ _ hloop
            exact h1 ▸ hle file _ hreg1
      · split at h
        · exact absurd h (by simp)
        · next hloop =>
          injection h with h
          injection h with h1 h2
          subst h2
          have hle := (moduleLayer_modMapLe o n).2.2.1 _ _ _ _ hloop
          exact h1 ▸ hle file _ hreg1

/-! ### C3 — wildcard-re-export targets are resolved eagerly, not lazily -/

/-- Oracle for a local module (file 0) with `export * from "./B"`, where
`./B` resolves to file 1, an empty local module. -/
def starOracle : Oracle :=
  { symName := fun _ => "s",
    symFlagsFiltered := fun _ => false,
    symIsAmbient := fun _ => false,
    symDeclarations := fun s => if s = 45 then [400] else [],
    symAliasFlag := fun _ => false,
    symImmediateAlias := fun _ => none,
    symFollowAliases := fun s => s,
    symIsExportStar := fun s => decide (s = 45),
    nodeKind := fun n =>
      if n = 400 then TsKind.exportDeclarationKind else TsKind.declarationKind,
    nodeAncestors := fun _ => [],
    nodeChildren := fun _ => [],
    nodeSourceFile := fun _ => 0,
    symbolForDeclaration := fun _ => none,
    symbolAtLocation := fun _ => none,
    firstIdentifier := fun _ => none,
    exportSpecifierPropertyName := fun _ => none,
    exportSpecifierName := fun _ => "",
    findExportDeclarationParent := fun _ => none,
    moduleSpecifierOf := fun n => if n = 400 then some "./B" else none,
    getResolvedModule := fun f sp =>
      if f = 0 ∧ sp = "./B" then some "B.ts" else none,
    getSourceFileByName := fun nm => if nm = "B.ts" then some 1 else none,
    isAedocSupported := fun _ => true,
    moduleSymbolOf := fun f => if f = 0 then 40 else 41,
    getExportsOfModule := fun _ => [],
    moduleExportsTable := fun s => if s = 40 then [45] else [],
    isExternalModuleNameRelative := fun _ => true }

/-- Extracts the state of a module-resolution result. -/
def moduleStateAfter (r : Except TError (AstModuleId × TableState)) : TableState :=
  match r with
  | .ok p => p.2
  | .error _ => emptyTableState

/-- Extracts the state of a state-valued table operation. -/
def stStateAfter (r : Except TError TableState) : TableState :=
  match r with
  | .ok st => st
  | .error _ => emptyTableState

/-- The state produced by resolving the star-exporting module of
`starOracle`. -/
def c3RunState : TableState :=
  moduleStateAfter (fetchAstModuleBySourceFile starOracle 9 emptyTableState 0 none)

/-- Counterexample to C3 as stated: after `fetchAstModuleBySourceFile` returns
for a local module with `export * from "./B"`, the wildcard target (file 1)
HAS already been resolved into a Module Registry Entry — it sits in the
source-file cache and in the module arena, and is recorded as a star-exported
module of the entry. -/
theorem c3_counterexample :
    fetchAstModuleBySourceFile starOracle 9 emptyTableState 0 none =
      .ok (0, c3RunState) ∧
    mapGet c3RunState.astModulesBySourceFile 1 = some 1 ∧
    (getModRec c3RunState 1).isSome = true ∧
    (getModRec c3RunState 0).map (fun r => r.starExportedModules) = some [1] := by
  decide

/-- C3 as amended: direct exports are resolved eagerly at construction, and
wildcard-re-export targets are ALSO resolved eagerly — `resolveModule`
registers the entry it returns, and processing one `export * from` declaration
leaves the resolved target module registered in the table before
`resolveModule` returns; only name lookups across `starExportedModules` are
performed lazily. -/
theorem c3_eager_star_resolution (o : Oracle) :
    (∀ (fuel : Nat) (st st' : TableState) (file : FileId) (ms : Option String)
      (mid : AstModuleId),
      fetchAstModuleBySourceFile o fuel st file ms = .ok (mid, st') →
      mapGet st'.astModulesBySourceFile file = some mid) ∧
    (∀ (fuel : Nat) (st st' : TableState) (m : AstModuleId) (ed : NodeId)
      (sp fn : String) (tf : FileId),
      o.nodeKind ed = TsKind.exportDeclarationKind →
      o.moduleSpecifierOf ed = some sp →
      o.getResolvedModule (o.nodeSourceFile ed) sp = some fn →
      o.getSourceFileByName fn = some tf →
      collectExportsFromExportStar o (Nat.succ (Nat.succ fuel)) st m ed = .ok st' →
      ∃ mid, mapGet st'.astModulesBySourceFile tf = some mid) := by
  constructor
  · intro fuel st st' file ms mid h
    exact fetchAstModuleBySourceFile_registers h
  · intro fuel st st' m ed sp fn tf hk hsp hrm hsf h
    simp only [collectExportsFromExportStar, fetchSpecifierAstModule, hk, hsp,
      hrm, hsf, if_pos] at h
    cases hmod : fetchAstModuleBySourceFile o fuel st tf (some sp) with
    | error e =>
      rw [hmod] at h
      exact absurd h (by simp)
    | ok p =>
      obtain ⟨mid, st1⟩ := p
      rw [hmod] at h
      simp only [] at h
      have h' : addStarExportedModule st1 m mid = st' := by
        simpa using h
      subst h'
      refine ⟨mid, ?_⟩
      show mapGet st1.astModulesBySourceFile tf = some mid
      exact fetchAstModuleBySourceFile_registers hmod
/-- State in which the star-exporting module of `starOracle` (file 0) is
registered but not yet populated. -/
def c3PreState : TableState :=
  { emptyTableState with
    astModules := [{ sourceFile := 0, externalModulePath := none,
                     exportedSymbols := [], starExportedModules := [] }],
    astModulesBySourceFile := [(0, 0)] }

/-- Witness for C3 (amended): processing the `export * from "./B"` declaration
of `starOracle` leaves file 1 registered as a Module Registry Entry. -/
theorem c3_witness :
    ∃ mid, mapGet (stStateAfter
      (collectExportsFromExportStar starOracle 6 c3PreState 0 400)).astModulesBySourceFile
      1 = some mid := by
  exact (c3_eager_star_resolution starOracle).2 4 c3PreState
    (stStateAfter (collectExportsFromExportStar starOracle 6 c3PreState 0 400))
    0 400 "./B" "B.ts" 1 (by decide) (by decide) (by decide) (by decide) (by decide)

/-! ### C5 — re-export resolution uses the original (property) name -/

/-- C5: for `export { X as Y } from "./m"` (a declaration that is an export
specifier with property name X under an export declaration), single-export
resolution resolves the specifier's target module, looks up X — the original
name, not the local alias — in that module's export surface, and binds the
exported name Y to exactly the Symbol Node that the direct lookup of X in the
target module produces. -/
theorem c5_reexport_uses_property_name {o : Oracle} {fuel : Nat}
    {st st1 : TableState} {m : AstModuleId} {e : SymbolId}
    (d ed : NodeId) (px : String) (tm : AstModuleId) {a : AstSymbolId}
    (hd : o.symDeclarations e = [d])
    (hpar : o.findExportDeclarationParent d = some ed)
    (hkind : o.nodeKind d = TsKind.exportSpecifier)
    (hprop : o.exportSpecifierPropertyName d = some px)
    (hfetch : fetchSpecifierAstModule o fuel st ed = .ok (some tm, st1))
    (hget : getExportOfAstModule st1 px tm = .ok a) :
    collectExportForAstModule o (Nat.succ (Nat.succ (Nat.succ fuel))) st m e =
      .ok (setModuleExport st1 m (o.symName e) a) := by
  simp only [collectExportForAstModule, collectAliasLoop, collectDeclScan, hd,
    hpar, hkind, hprop, hfetch, hget, if_pos, Option.getD_some]

/-- Oracle for `export { X as Y } from "./m"`: symbol 20 is the exported
alias Y declared by export specifier 200 (property name "X") inside export
declaration 210; `./m` resolves to file 1, whose module exports the plain
symbol 31 under the name "X". -/
def reexportOracle : Oracle :=
  { symName := fun s => if s = 20 then "Y" else if s = 31 then "X" else "s",
    symFlagsFiltered := fun _ => false,
    symIsAmbient := fun _ => false,
    symDeclarations := fun s =>
      if s = 20 then [200] else if s = 31 then [310] else [],
    symAliasFlag := fun _ => false,
    symImmediateAlias := fun _ => none,
    symFollowAliases := fun s => s,
    symIsExportStar := fun _ => false,
    nodeKind := fun n =>
      if n = 200 then TsKind.exportSpecifier
      else if n = 210 then TsKind.exportDeclarationKind
      else TsKind.declarationKind,
    nodeAncestors := fun _ => [],
    nodeChildren := fun _ => [],
    nodeSourceFile := fun _ => 0,
    symbolForDeclaration := fun _ => none,
    symbolAtLocation := fun _ => none,
    firstIdentifier := fun _ => none,
    exportSpecifierPropertyName := fun n => if n = 200 then some "X" else none,
    exportSpecifierName := fun n => if n = 200 then "Y" else "",
    findExportDeclarationParent := fun n => if n = 200 then some 210 else none,
    moduleSpecifierOf := fun n => if n = 210 then some "./m" else none,
    getResolvedModule := fun f sp =>
      if f = 0 ∧ sp = "./m" then some "m.ts" else none,
    getSourceFileByName := fun nm => if nm = "m.ts" then some 1 else none,
    isAedocSupported := fun _ => true,
    moduleSymbolOf := fun f => if f = 1 then 30 else 29,
    getExportsOfModule := fun _ => [],
    moduleExportsTable := fun s => if s = 30 then [31] else [],
    isExternalModuleNameRelative := fun _ => true }

/-- State in which the re-exporting module of `reexportOracle` (file 0) is
registered but not yet populated. -/
def c5PreState : TableState :=
  { emptyTableState with
    astModules := [{ sourceFile := 0, externalModulePath := none,
                     exportedSymbols := [], starExportedModules := [] }],
    astModulesBySourceFile := [(0, 0)] }

/-- Witness for C5: collecting the export `Y` of `reexportOracle` resolves
`./m`, looks up the original name "X" there and binds "Y" to the node found
for "X" (node 0). -/
theorem c5_witness :
    collectExportForAstModule reexportOracle 12 c5PreState 0 20 =
      .ok (setModuleExport
        (stateAfter (fetchSpecifierAstModule reexportOracle 9 c5PreState 210))
        0 "Y" 0) := by
  exact c5_reexport_uses_property_name 200 210 "X" 1 (by decide) (by decide)
    (by decide) (by decide) (by decide) (by decide)

/-! ### C10 — filtered exports: silent omission locally, fatal externally -/

/-- The state of a module-resolution cache miss after registering the new
entry and its external path — the state in which the external-exports loop
starts (lines 76-86). -/
def registerExternalModule (st : TableState) (file : FileId) (sp : String) :
    TableState :=
  setExternalModulePath
    { st with
      astModules := st.astModules ++
        [{ sourceFile := file, externalModulePath := none,
           exportedSymbols := [], starExportedModules := [] }],
      astModulesBySourceFile :=
        mapSet st.astModulesBySourceFile file st.astModules.length }
    st.astModules.length sp

/-- A declaration scan over declarations that sit under no export declaration
falls through without touching the state. -/
theorem collectDeclScan_skips {o : Oracle} (st : TableState) (m : AstModuleId)
    (e : SymbolId) :
    ∀ (fuel : Nat) (ds : List NodeId),
      (∀ d ∈ ds, o.findExportDeclarationParent d = none) →
      ds.length < fuel →
      collectDeclScan o fuel st m e ds = .ok (CollectScan.notHandled st) := by
  intro fuel
  induction fuel with
  | zero => intro ds _ hlen; exact absurd hlen (Nat.not_lt_zero _)
  | succ n ih =>
    intro ds hall hlen
    cases ds with
    | nil => simp [collectDeclScan]
    | cons d rest =>
      simp only [collectDeclScan, hall d (by simp)]
      exact ih rest (fun x hx => hall x (by simp [hx])) (by simpa using hlen)

/-- C10: (1) in a local module, an exported name whose terminal
alias-followed identity is filtered out (the fetch returns no Symbol Node) is
silently omitted — `_collectExportForAstModule` succeeds without recording the
name and without touching the module arena; (2) in the external entry-point
case the very same failure is fatal: `fetchAstModuleBySourceFile` throws
`Unsupported export` with the offending name. -/
theorem c10_filtered_export_handling (o : Oracle) :
    (∀ (fuel : Nat) (st stf : TableState) (m : AstModuleId) (e : SymbolId),
      (∀ d ∈ o.symDeclarations e, o.findExportDeclarationParent d = none) →
      o.symAliasFlag e = false →
      (o.symDeclarations e).length < fuel →
      fetchAstSymbol o fuel st e true none = .ok (none, stf) →
      collectExportForAstModule o (Nat.succ (Nat.succ fuel)) st m e = .ok stf ∧
        stf.astModules = st.astModules) ∧
    (∀ (fuel : Nat) (st stf : TableState) (file : FileId) (sp : String)
      (es : SymbolId) (rest : List SymbolId),
      mapGet st.astModulesBySourceFile file = none →
      o.isExternalModuleNameRelative sp = false →
      o.getExportsOfModule (o.moduleSymbolOf file) = es :: rest →
      fetchAstSymbol o fuel (registerExternalModule st file sp)
        (o.symFollowAliases es) true
        (some { exportName := o.symName es, modulePath := sp }) =
        .ok (none, stf) →
      fetchAstModuleBySourceFile o (Nat.succ (Nat.succ fuel)) st file (some sp) =
        .error (.unsupportedExport (o.symName es))) := by
  constructor
  · intro fuel st stf m e hall halias hlen hfetch
    have hscan := collectDeclScan_skips st m e fuel (o.symDeclarations e) hall hlen
    constructor
    · simp only [collectExportForAstModule, collectAliasLoop, hscan, halias,
        hfetch, Bool.not_false]
      simp
    · exact (fetchAstSymbol_facts hfetch).2.2.1
  · intro fuel st stf file sp es rest hmiss hrel hexp hfetch
    simp only [registerExternalModule, setExternalModulePath] at hfetch
    simp only [fetchAstModuleBySourceFile, hmiss, hrel, hexp,
      externalExportsLoop, setExternalModulePath, Bool.false_eq_true, if_false,
      hfetch]

/-- Oracle in which symbol 70 is filtered out (a transient-flagged
construct); file 0 exports it as a local module, file 2 exports it as an
external entry point. -/
def c10Oracle : Oracle :=
  { symName := fun _ => "F",
    symFlagsFiltered := fun s => decide (s = 70),
    symIsAmbient := fun _ => false,
    symDeclarations := fun _ => [],
    symAliasFlag := fun _ => false,
    symImmediateAlias := fun _ => none,
    symFollowAliases := fun s => s,
    symIsExportStar := fun _ => false,
    nodeKind := fun _ => TsKind.declarationKind,
    nodeAncestors := fun _ => [],
    nodeChildren := fun _ => [],
    nodeSourceFile := fun _ => 0,
    symbolForDeclaration := fun _ => none,
    symbolAtLocation := fun _ => none,
    firstIdentifier := fun _ => none,
    exportSpecifierPropertyName := fun _ => none,
    exportSpecifierName := fun _ => "",
    findExportDeclarationParent := fun _ => none,
    moduleSpecifierOf := fun _ => none,
    getResolvedModule := fun _ _ => none,
    getSourceFileByName := fun _ => none,
    isAedocSupported := fun _ => true,
    moduleSymbolOf := fun f => if f = 0 then 80 else 81,
    getExportsOfModule := fun s => if s = 81 then [70] else [],
    moduleExportsTable := fun s => if s = 80 then [70] else [],
    isExternalModuleNameRelative := fun _ => false }

/-- Witness for C10: collecting the filtered symbol 70 from a local module
succeeds silently with the state untouched, while resolving file 2 as an
external entry point with the same symbol dies with `Unsupported export`. -/
theorem c10_witness :
    collectExportForAstModule c10Oracle 3 emptyTableState 0 70 =
      .ok emptyTableState ∧
    fetchAstModuleBySourceFile c10Oracle 3 emptyTableState 2 (some "pkg") =
      .error (.unsupportedExport "F") := by
  constructor
  · exact ((c10_filtered_export_handling c10Oracle).1 1 emptyTableState
      emptyTableState 0 70 (by decide) (by decide) (by decide) (by decide)).1
  · exact (c10_filtered_export_handling c10Oracle).2 1 emptyTableState
      (registerExternalModule emptyTableState 2 "pkg") 2 "pkg" 70 []
      (by decide) (by decide) (by decide) (by decide)

/-! ### C7 — idempotence of `analyze` -/

/-- The symbol arena only grows and existing records are untouched. -/
def SymsStable (st st' : TableState) : Prop :=
  st.astSymbols.length ≤ st'.astSymbols.length ∧
  ∀ i, i < st.astSymbols.length → st'.astSymbols[i]? = st.astSymbols[i]?

theorem symsStable_refl (st : TableState) : SymsStable st st :=
  ⟨Nat.le_refl _, fun _ _ => rfl⟩

theorem symsStable_trans {st₁ st₂ st₃ : TableState} (h₁ : SymsStable st₁ st₂)
    (h₂ : SymsStable st₂ st₃) : SymsStable st₁ st₃ :=
  ⟨Nat.le_trans h₁.1 h₂.1,
    fun i hi => (h₂.2 i (Nat.lt_of_lt_of_le hi h₁.1)).trans (h₁.2 i hi)⟩

theorem symsStable_of_eq {st st' : TableState}
    (h : st'.astSymbols = st.astSymbols) : SymsStable st st' :=
  ⟨h ▸ Nat.le_refl _, fun i _ => by rw [h]⟩

theorem fetchAstSymbol_symsStable {o : Oracle} {fuel : Nat}
    {st st' : TableState} {s : SymbolId} {b : Bool} {imp : Option AstImport}
    {r : Option AstSymbolId} (h : fetchAstSymbol o fuel st s b imp = .ok (r, st')) :
    SymsStable st st' :=
  ⟨(fetchAstSymbol_facts h).1, (fetchAstSymbol_facts h).2.1⟩

/-- The governing walk of `_analyzeChildTree` never modifies an existing
symbol record. -/
theorem analyzeChildTree_symsStable (o : Oracle) : ∀ fuel : Nat,
    (∀ st node gov st', analyzeChildTree o fuel st node gov = .ok st' →
      SymsStable st st') ∧
    (∀ st ns gov st', analyzeChildrenLoop o fuel st ns gov = .ok st' →
      SymsStable st st') := by
  intro fuel
  induction fuel with
  | zero =>
    constructor <;> intro st x gov st' h <;>
      exact absurd h (by simp [analyzeChildTree, analyzeChildrenLoop])
  | succ n ih =>
    have hdecl : ∀ st node r st',
        fetchAstDeclaration o n st node = .ok (r, st') → SymsStable st st' := by
      intro st node r st' h
      unfold fetchAstDeclaration at h
      cases hfsn : fetchAstSymbolForNode o n st node with
      | error e =>
        rw [hfsn] at h
        exact absurd h (by simp)
      | ok p =>
        obtain ⟨ropt, st1⟩ := p
        rw [hfsn] at h
        have hs1 : SymsStable st st1 := by
          unfold fetchAstSymbolForNode at hfsn
          split at hfsn
          · injection hfsn with hfsn
            injection hfsn with e1 e2
            subst e2
            exact symsStable_refl _
          · split at hfsn
            · exact absurd hfsn (by simp)
            · exact fetchAstSymbol_symsStable hfsn
        cases ropt with
        | none =>
          have h' : (Except.ok (none, st1) :
              Except TError (Option AstDeclId × TableState)) = .ok (r, st') := h
          injection h' with h'
          injection h' with h1 h2
          subst h2
          exact hs1
        | some x =>
          have h' : (match mapGet st1.astDeclarationsByDeclaration node with
              | none => (Except.error
                  (TError.internalError "Unable to find constructed AstDeclaration") :
                  Except TError (Option AstDeclId × TableState))
              | some astDeclaration => Except.ok (some astDeclaration, st1)) =
              .ok (r, st') := h
          cases hmap : mapGet st1.astDeclarationsByDeclaration node with
          | none =>
            rw [hmap] at h'
            exact absurd h' (by simp)
          | some d =>
            rw [hmap] at h'
            injection h' with h'
            injection h' with h1 h2
            subst h2
            exact hs1
    constructor
    · intro st node gov st' h
      simp only [analyzeChildTree] at h
      split at h
      · injection h with h
        subst h
        exact symsStable_refl _
      · split at h
        · exact absurd h (by simp)
        · next st1 heq =>
          have hs1 : SymsStable st st1 := by
            split at heq
            · split at heq
              · injection heq with heq
                subst heq
                exact symsStable_refl _
              · split at heq
                · exact absurd heq (by simp)
                · split at heq
                  · exact absurd heq (by simp)
                  · next st2 hfetch =>
                    injection heq with heq
                    subst heq
                    exact fetchAstSymbol_symsStable hfetch
                  · next a st2 hfetch =>
                    injection heq with heq
                    subst heq
                    exact symsStable_trans (fetchAstSymbol_symsStable hfetch)
                      (symsStable_of_eq rfl)
            · injection heq with heq
              subst heq
              exact symsStable_refl _
          cases hfd : fetchAstDeclaration o n st1 node with
          | error e =>
            rw [hfd] at h
            exact absurd h (by simp)
          | ok q =>
            obtain ⟨ng, st2⟩ := q
            rw [hfd] at h
            exact symsStable_trans (symsStable_trans hs1 (hdecl _ _ _ _ hfd)) (ih.2 _ _ _ _ h)
    · intro st ns gov st' h
      cases ns with
      | nil =>
        simp only [analyzeChildrenLoop] at h
        injection h with h
        subst h
        exact symsStable_refl _
      | cons c rest =>
        simp only [analyzeChildrenLoop] at h
        split at h
        · exact absurd h (by simp)
        · next st1 hone =>
          exact symsStable_trans (ih.1 _ _ _ _ hone) (ih.2 _ _ _ _ h)

/-- The root-declarations walk never modifies an existing symbol record. -/
theorem analyzeRootDeclsLoop_symsStable {o : Oracle} : ∀ (fuel : Nat)
    (st : TableState) (ds : List AstDeclId) (st' : TableState),
    analyzeRootDeclsLoop o fuel st ds = .ok st' → SymsStable st st' := by
  intro fuel
  induction fuel with
  | zero => intro st ds st' h; exact absurd h (by simp [analyzeRootDeclsLoop])
  | succ n ih =>
    intro st ds st' h
    cases ds with
    | nil =>
      simp only [analyzeRootDeclsLoop] at h
      injection h with h
      subst h
      exact symsStable_refl _
    | cons d rest =>
      simp only [analyzeRootDeclsLoop] at h
      split at h
      · exact absurd h (by simp)
      · split at h
        · exact absurd h (by simp)
        · next st1 hone =>
          exact symsStable_trans ((analyzeChildTree_symsStable o n).1 _ _ _ _ hone)
            (ih _ _ _ h)

/-- Marking a family analyzed marks every symbol whose root matches. -/
theorem analyzedOf_notifyAnalyzed_of_root {st : TableState} {x y : AstSymbolId}
    {r : AstSymbolRec} (hy : st.astSymbols[y]? = some r)
    (hroot : r.rootAstSymbol = rootOfId st x) :
    analyzedOf (notifyAnalyzed st x) y = true := by
  simp [notifyAnalyzed, analyzedOf, getSymRec, List.getElem?_map, hy, hroot]

/-- Marking never clears the analyzed flag. -/
theorem analyzedOf_notifyAnalyzed_mono {st : TableState} {x y : AstSymbolId}
    (h : analyzedOf st y = true) :
    analyzedOf (notifyAnalyzed st x) y = true := by
  unfold analyzedOf getSymRec at h
  cases hy : st.astSymbols[y]? with
  | none => rw [hy] at h; exact absurd h (by simp)
  | some r =>
    rw [hy] at h
    have h' : r.analyzed = true := h
    by_cases hr : r.rootAstSymbol = rootOfId st x
    · exact analyzedOf_notifyAnalyzed_of_root hy hr
    · simp [notifyAnalyzed, analyzedOf, getSymRec, List.getElem?_map, hy, hr, h']

/-- Analyzed flags are never cleared. -/
def AnalyzedMono (st st' : TableState) : Prop :=
  ∀ i, analyzedOf st i = true → analyzedOf st' i = true

theorem analyzedMono_refl (st : TableState) : AnalyzedMono st st := fun _ h => h

theorem analyzedMono_trans {st₁ st₂ st₃ : TableState} (h₁ : AnalyzedMono st₁ st₂)
    (h₂ : AnalyzedMono st₂ st₃) : AnalyzedMono st₁ st₃ :=
  fun i h => h₂ i (h₁ i h)

theorem analyzedMono_of_symsStable {st st' : TableState} (h : SymsStable st st') :
    AnalyzedMono st st' := by
  intro i hi
  unfold analyzedOf getSymRec at hi ⊢
  cases hy : st.astSymbols[i]? with
  | none => rw [hy] at hi; exact absurd hi (by simp)
  | some r =>
    rw [hy] at hi
    have hlt : i < st.astSymbols.length := by
      by_contra hge
      rw [List.getElem?_eq_none (Nat.le_of_not_lt hge)] at hy
      exact absurd hy (by simp)
    rw [h.2 i hlt, hy]
    exact hi

theorem analyzedMono_notifyAnalyzed (st : TableState) (x : AstSymbolId) :
    AnalyzedMono st (notifyAnalyzed st x) :=
  fun _ h => analyzedOf_notifyAnalyzed_mono h

/-- Across `analyze` and the recursive-expansion traversal, analyzed flags
are monotone. -/
theorem analyze_analyzedMono (o : Oracle) : ∀ fuel : Nat,
    (∀ st a st', analyze o fuel st a = .ok st' → AnalyzedMono st st') ∧
    (∀ st ds st', phase2TopLoop o fuel st ds = .ok st' → AnalyzedMono st st') ∧
    (∀ st d st', phase2Visit o fuel st d = .ok st' → AnalyzedMono st st') ∧
    (∀ st d i st', phase2RefsLoop o fuel st d i = .ok st' → AnalyzedMono st st') ∧
    (∀ st d i st', phase2ChildrenLoop o fuel st d i = .ok st' →
      AnalyzedMono st st') := by
  intro fuel
  induction fuel with
  | zero =>
    refine ⟨?_, ?_, ?_, ?_, ?_⟩ <;> intro st x st' h <;> try intro h
    all_goals
      exact absurd (by assumption) (by simp [analyze, phase2TopLoop, phase2Visit,
        phase2RefsLoop, phase2ChildrenLoop])
  | succ n ih =>
    obtain ⟨ihA, ihT, ihV, ihR, ihC⟩ := ih
    have hA : ∀ st a st', analyze o (Nat.succ n) st a = .ok st' →
        AnalyzedMono st st' := by
      intro st a st' h
      simp only [analyze] at h
      split at h
      · injection h with h
        subst h
        exact analyzedMono_refl _
      · split at h
        · injection h with h
          subst h
          exact analyzedMono_notifyAnalyzed _ _
        · split at h
          · exact absurd h (by simp)
          · next st1 hwalk =>
            have h1 : AnalyzedMono st st1 :=
              analyzedMono_of_symsStable
                (analyzeRootDeclsLoop_symsStable n st _ st1 hwalk)
            have h2 : AnalyzedMono st1 (notifyAnalyzed st1 (rootOfId st a)) :=
              analyzedMono_notifyAnalyzed _ _
            split at h
            · injection h with h
              subst h
              exact analyzedMono_trans h1 h2
            · exact analyzedMono_trans (analyzedMono_trans h1 h2) (ihT _ _ _ h)
    have hT : ∀ st ds st', phase2TopLoop o (Nat.succ n) st ds = .ok st' →
        AnalyzedMono st st' := by
      intro st ds st' h
      cases ds with
      | nil =>
        simp only [phase2TopLoop] at h
        injection h with h
        subst h
        exact analyzedMono_refl _
      | cons d rest =>
        simp only [phase2TopLoop] at h
        split at h
        · exact absurd h (by simp)
        · next st1 hone =>
          exact analyzedMono_trans (ihV _ _ _ hone) (ihT _ _ _ h)
    have hV : ∀ st d st', phase2Visit o (Nat.succ n) st d = .ok st' →
        AnalyzedMono st st' := by
      intro st d st' h
      simp only [phase2Visit] at h
      split at h
      · exact absurd h (by simp)
      · next st1 hrefs =>
        exact analyzedMono_trans (ihR _ _ _ _ hrefs) (ihC _ _ _ _ h)
    have hR : ∀ st d i st', phase2RefsLoop o (Nat.succ n) st d i = .ok st' →
        AnalyzedMono st st' := by
      intro st d i st' h
      simp only [phase2RefsLoop] at h
      split at h
      · injection h with h
        subst h
        exact analyzedMono_refl _
      · split at h
        · exact ihR _ _ _ _ h
        · split at h
          · exact absurd h (by simp)
          · next st1 hana =>
            exact analyzedMono_trans (ihA _ _ _ hana) (ihR _ _ _ _ h)
    have hC : ∀ st d i st', phase2ChildrenLoop o (Nat.succ n) st d i = .ok st' →
        AnalyzedMono st st' := by
      intro st d i st' h
      simp only [phase2ChildrenLoop] at h
      split at h
      · injection h with h
        subst h
        exact analyzedMono_refl _
      · split at h
        · exact absurd h (by simp)
        · next st1 hone =>
          exact analyzedMono_trans (ihV _ _ _ hone) (ihC _ _ _ _ h)
    exact ⟨hA, hT, hV, hR, hC⟩

/-- Root pointers agree on records that agree. -/
theorem rootOfId_eq_of_getElem {st st' : TableState} {i : AstSymbolId}
    (h : st'.astSymbols[i]? = st.astSymbols[i]?) :
    rootOfId st' i = rootOfId st i := by
  unfold rootOfId getSymRec
  rw [h]

/-- The root pointer of a valid record is its `rootAstSymbol` field. -/
theorem rootOfId_of_rec {st : TableState} {i : AstSymbolId} {r : AstSymbolRec}
    (h : st.astSymbols[i]? = some r) : rootOfId st i = r.rootAstSymbol := by
  unfold rootOfId getSymRec
  rw [h]

/-- A successful `analyze` leaves its argument marked analyzed (given a
well-formed root pointer). -/
theorem analyze_sets_analyzed {o : Oracle} {fuel : Nat} {st st' : TableState}
    {a : AstSymbolId} (h : analyze o fuel st a = .ok st')
    (hR : rootOfId st a < st.astSymbols.length)
    (hRR : rootOfId st (rootOfId st a) = rootOfId st a) :
    analyzedOf st' a = true := by
  cases fuel with
  | zero => exact absurd h (by simp [analyze])
  | succ n =>
    simp only [analyze] at h
    split at h
    · next hana =>
      injection h with h
      subst h
      exact hana
    · split at h
      · next hnom =>
        injection h with h
        subst h
        have hy : ∃ r, st.astSymbols[a]? = some r := by
          unfold nominalOf getSymRec at hnom
          cases hy : st.astSymbols[a]? with
          | none => rw [hy] at hnom; exact absurd hnom (by simp)
          | some r => exact ⟨r, rfl⟩
        obtain ⟨r, hr⟩ := hy
        refine analyzedOf_notifyAnalyzed_of_root hr ?_
        unfold rootOfId getSymRec
        rw [hr]
      · split at h
        · exact absurd h (by simp)
        · next st1 hwalk =>
          have hstable := analyzeRootDeclsLoop_symsStable n st _ st1 hwalk
          have hra : ∃ r, st.astSymbols[a]? = some r := by
            cases hy : st.astSymbols[a]? with
            | none =>
              exfalso
              have hroota : rootOfId st a = a := by
                unfold rootOfId getSymRec
                rw [hy]
              rw [hroota] at hR
              have hle : st.astSymbols.length ≤ a :=
                List.getElem?_eq_none_iff.mp hy
              exact absurd hR (Nat.not_lt.mpr hle)
            | some r => exact ⟨r, rfl⟩
          obtain ⟨ra, hra⟩ := hra
          have halt : a < st.astSymbols.length := by
            by_contra hge
            rw [List.getElem?_eq_none (Nat.le_of_not_lt hge)] at hra
            exact absurd hra (by simp)
          have ha1 : st1.astSymbols[a]? = some ra := by
            rw [hstable.2 a halt]; exact hra
          have hroot1 : ra.rootAstSymbol = rootOfId st1 (rootOfId st a) := by
            have hRst : rootOfId st1 (rootOfId st a) = rootOfId st a :=
              (rootOfId_eq_of_getElem (hstable.2 _ hR)).trans hRR
            rw [hRst, rootOfId_of_rec hra]
          have hmark : analyzedOf (notifyAnalyzed st1 (rootOfId st a)) a = true :=
            analyzedOf_notifyAnalyzed_of_root ha1 hroot1
          split at h
          · injection h with h
            subst h
            exact hmark
          · exact (analyze_analyzedMono o n).2.1 _ _ _ h a hmark

/-- C7: `analyze` is idempotent per Symbol Node — after a successful call, a
second call on the very same node is a no-op short-circuited by the
`analyzed` flag, returning the state unchanged (hence no duplicate
Declaration Nodes and no duplicate referenced-symbol entries can arise). -/
theorem c7_analyze_idempotent {o : Oracle} {fuel : Nat} {st st' : TableState}
    {a : AstSymbolId} (h : analyze o fuel st a = .ok st')
    (hR : rootOfId st a < st.astSymbols.length)
    (hRR : rootOfId st (rootOfId st a) = rootOfId st a) (fuel2 : Nat) :
    analyze o (Nat.succ fuel2) st' a = .ok st' := by
  have ha := analyze_sets_analyzed h hR hRR
  simp [analyze, ha]

/-- State of the concrete `analyze` run used as the C7 witness. -/
def c7MarkedState : TableState := stStateAfter (analyze wOracle 9 wStatePlain 0)

/-- Witness for C7: analyzing node 0 a second time returns the identical
state. -/
theorem c7_witness :
    analyze wOracle 9 wStatePlain 0 = .ok c7MarkedState ∧
    analyze wOracle 9 c7MarkedState 0 = .ok c7MarkedState := by
  have h : analyze wOracle 9 wStatePlain 0 = .ok c7MarkedState := by decide
  exact ⟨h, c7_analyze_idempotent h (by decide) (by decide) 8⟩

/-! ### C8 — recursive expansion of non-imported referenced symbols

The claim is settled in a "flat" well-formed world: every symbol is
top-level (no declaration has a declaration-bearing ancestor), children of a
node are never declaration-bearing, declaration lists of distinct symbols are
disjoint, and `getSymbolForDeclaration` is consistent with them.  These are
exactly the assumptions the source itself documents as oracle invariants
(its "key assumptions behind this squirrely logic" comment), specialised to
top-level symbols. -/

/-- Well-formedness of the oracle for the flat world. -/
structure FlatOracle (o : Oracle) : Prop where
  flatDecls : ∀ s, ∀ d ∈ o.symDeclarations s,
    tryFindFirstAstDeclarationParent o d = none
  childrenNotDecl : ∀ n m, m ∈ o.nodeChildren n →
    isAstDeclaration (o.nodeKind m) = false
  declsDisj : ∀ s1 s2 d, d ∈ o.symDeclarations s1 → d ∈ o.symDeclarations s2 →
    s1 = s2
  symForDecl : ∀ s, ∀ d ∈ o.symDeclarations s,
    o.symbolForDeclaration d = some s

/-- Well-formedness of the table state in the flat world. -/
structure FlatInv (o : Oracle) (st : TableState) : Prop where
  flat : ∀ (i : AstSymbolId) (r : AstSymbolRec), st.astSymbols[i]? = some r →
    r.parentAstSymbol = none ∧ r.rootAstSymbol = i
  byS : ∀ (i : AstSymbolId) (r : AstSymbolRec), st.astSymbols[i]? = some r →
    mapGet st.astSymbolsBySymbol r.followedSymbol = some i
  bySCorrect : ∀ (k : SymbolId) (v : AstSymbolId),
    mapGet st.astSymbolsBySymbol k = some v →
    ∃ rv : AstSymbolRec, st.astSymbols[v]? = some rv ∧ rv.followedSymbol = k
  childrenEmpty : ∀ (j : AstDeclId) (r : AstDeclarationRec),
    st.astDeclarations[j]? = some r → r.children = []
  declOwn : ∀ (j : AstDeclId) (r : AstDeclarationRec),
    st.astDeclarations[j]? = some r →
    ∃ sr : AstSymbolRec, st.astSymbols[r.astSymbol]? = some sr ∧
      r.declaration ∈ o.symDeclarations sr.followedSymbol
  declMapCons : ∀ (nd : NodeId) (j : AstDeclId),
    mapGet st.astDeclarationsByDeclaration nd = some j →
    ∃ r : AstDeclarationRec, st.astDeclarations[j]? = some r ∧
      r.declaration = nd
  refsValid : ∀ (j : AstDeclId) (r : AstDeclarationRec),
    st.astDeclarations[j]? = some r →
    ∀ x ∈ r.referencedAstSymbols, x < st.astSymbols.length
  ownedDecls : ∀ (i : AstSymbolId) (r : AstSymbolRec),
    st.astSymbols[i]? = some r →
    ∀ dj ∈ r.astDeclarations,
      ∃ dr : AstDeclarationRec, st.astDeclarations[dj]? = some dr ∧
        dr.astSymbol = i

/-- In the flat world every root pointer is the identity. -/
theorem rootOfId_flat {o : Oracle} {st : TableState} (hinv : FlatInv o st)
    (a : AstSymbolId) : rootOfId st a = a := by
  unfold rootOfId getSymRec
  cases ha : st.astSymbols[a]? with
  | none => rfl
  | some r => exact (hinv.flat a r ha).2

/-- Marking does not change any field other than `analyzed`. -/
theorem notifyAnalyzed_fields (st : TableState) (x : AstSymbolId) :
    (notifyAnalyzed st x).astDeclarations = st.astDeclarations ∧
    (notifyAnalyzed st x).astModules = st.astModules ∧
    (notifyAnalyzed st x).astSymbolsBySymbol = st.astSymbolsBySymbol ∧
    (notifyAnalyzed st x).astSymbolsByImportKey = st.astSymbolsByImportKey ∧
    (notifyAnalyzed st x).astDeclarationsByDeclaration =
      st.astDeclarationsByDeclaration ∧
    (notifyAnalyzed st x).astModulesBySourceFile = st.astModulesBySourceFile ∧
    (notifyAnalyzed st x).astSymbols.length = st.astSymbols.length ∧
    (∀ (i : AstSymbolId) (r : AstSymbolRec), st.astSymbols[i]? = some r →
      ∃ r' : AstSymbolRec, (notifyAnalyzed st x).astSymbols[i]? = some r' ∧
        r'.localName = r.localName ∧ r'.followedSymbol = r.followedSymbol ∧
        r'.astImport = r.astImport ∧ r'.parentAstSymbol = r.parentAstSymbol ∧
        r'.rootAstSymbol = r.rootAstSymbol ∧ r'.nominal = r.nominal ∧
        r'.astDeclarations = r.astDeclarations) := by
  refine ⟨rfl, rfl, rfl, rfl, rfl, rfl, by simp [notifyAnalyzed], ?_⟩
  intro i r hr
  refine ⟨if r.rootAstSymbol = rootOfId st x then { r with analyzed := true }
    else r, ?_, ?_⟩
  · simp [notifyAnalyzed, List.getElem?_map, hr]
  · split <;> simp

/-- Marking preserves the flat invariant. -/
theorem notifyAnalyzed_inv {o : Oracle} {st : TableState} (hinv : FlatInv o st)
    (x : AstSymbolId) : FlatInv o (notifyAnalyzed st x) := by
  obtain ⟨e1, e2, e3, e4, e5, e6, e7, e8⟩ := notifyAnalyzed_fields st x
  have hback : ∀ (i : AstSymbolId) (r' : AstSymbolRec),
      (notifyAnalyzed st x).astSymbols[i]? = some r' →
      ∃ r : AstSymbolRec, st.astSymbols[i]? = some r ∧
        r'.followedSymbol = r.followedSymbol ∧ r'.astImport = r.astImport ∧
        r'.parentAstSymbol = r.parentAstSymbol ∧
        r'.rootAstSymbol = r.rootAstSymbol ∧
        r'.astDeclarations = r.astDeclarations := by
    intro i r' hr'
    cases hr : st.astSymbols[i]? with
    | none =>
      have hnone : (notifyAnalyzed st x).astSymbols[i]? = none := by
        refine List.getElem?_eq_none ?_
        rw [e7]
        exact List.getElem?_eq_none_iff.mp hr
      rw [hnone] at hr'
      exact absurd hr' (by simp)
    | some r =>
      obtain ⟨r'', hr'', hf⟩ := e8 i r hr
      rw [hr''] at hr'
      injection hr' with hr'
      subst hr'
      exact ⟨r, rfl, hf.2.1, hf.2.2.1, hf.2.2.2.1, hf.2.2.2.2.1, hf.2.2.2.2.2.2⟩
  constructor
  · intro i r' hr'
    obtain ⟨r, hr, hf⟩ := hback i r' hr'
    obtain ⟨p1, p2⟩ := hinv.flat i r hr
    exact ⟨hf.2.2.1.trans p1, hf.2.2.2.1.trans p2⟩
  · intro i r' hr'
    obtain ⟨r, hr, hf⟩ := hback i r' hr'
    rw [e3, hf.1]
    exact hinv.byS i r hr
  · intro k v hkv
    rw [e3] at hkv
    obtain ⟨rv, hrv, hfv⟩ := hinv.bySCorrect k v hkv
    obtain ⟨rv', hrv', hf⟩ := e8 v rv hrv
    exact ⟨rv', hrv', hf.2.1.trans hfv⟩
  · intro j r hr
    rw [e1] at hr
    exact hinv.childrenEmpty j r hr
  · intro j r hr
    rw [e1] at hr
    obtain ⟨sr, hsr, hmem⟩ := hinv.declOwn j r hr
    obtain ⟨sr', hsr', hf⟩ := e8 r.astSymbol sr hsr
    exact ⟨sr', hsr', hf.2.1 ▸ hmem⟩
  · intro nd j hnd
    rw [e5] at hnd
    obtain ⟨r, hr, hdecl⟩ := hinv.declMapCons nd j hnd
    exact ⟨r, e1 ▸ hr, hdecl⟩
  · intro j r hr
    rw [e1] at hr
    intro y hy
    rw [e7]
    exact hinv.refsValid j r hr y hy
  · intro i r' hr'
    obtain ⟨r, hr, hf⟩ := hback i r' hr'
    intro dj hdj
    rw [hf.2.2.2.2] at hdj
    obtain ⟨dr, hdr, ho⟩ := hinv.ownedDecls i r hr dj hdj
    exact ⟨dr, e1 ▸ hdr, ho⟩

/-- The facts one needs about a state transition of the phase-1 layer
(symbol fetches, reference recording): the flat invariant is maintained,
existing symbol records are untouched, declaration cores are immutable, and
referenced-symbol sets change only on Declaration Nodes owned by `R`. -/
structure FlatStep (o : Oracle) (st st' : TableState) (R : AstSymbolId) : Prop where
  inv : FlatInv o st'
  symLen : st.astSymbols.length ≤ st'.astSymbols.length
  symEq : ∀ i, i < st.astSymbols.length → st'.astSymbols[i]? = st.astSymbols[i]?
  declLen : st.astDeclarations.length ≤ st'.astDeclarations.length
  declCore : ∀ (j : AstDeclId) (r : AstDeclarationRec),
    st.astDeclarations[j]? = some r →
    ∃ r' : AstDeclarationRec, st'.astDeclarations[j]? = some r' ∧
      r'.declaration = r.declaration ∧ r'.astSymbol = r.astSymbol
  refsSep : ∀ (j : AstDeclId) (r' : AstDeclarationRec),
    st'.astDeclarations[j]? = some r' → r'.astSymbol ≠ R →
    refsOf st' j = refsOf st j
  impEq : ∀ x, importedOf st' x = importedOf st x
  anEq : ∀ x, analyzedOf st' x = analyzedOf st x

theorem flatStep_refl {o : Oracle} {st : TableState} (hinv : FlatInv o st)
    (R : AstSymbolId) : FlatStep o st st R :=
  ⟨hinv, Nat.le_refl _, fun _ _ => rfl, Nat.le_refl _,
    fun _ r hr => ⟨r, hr, rfl, rfl⟩, fun _ _ _ _ => rfl,
    fun _ => rfl, fun _ => rfl⟩

theorem flatStep_trans {o : Oracle} {st₁ st₂ st₃ : TableState} {R : AstSymbolId}
    (h₁ : FlatStep o st₁ st₂ R) (h₂ : FlatStep o st₂ st₃ R) :
    FlatStep o st₁ st₃ R := by
  refine ⟨h₂.inv, Nat.le_trans h₁.symLen h₂.symLen, ?_,
    Nat.le_trans h₁.declLen h₂.declLen, ?_, ?_,
    fun x => (h₂.impEq x).trans (h₁.impEq x),
    fun x => (h₂.anEq x).trans (h₁.anEq x)⟩
  · intro i hi
    exact (h₂.symEq i (Nat.lt_of_lt_of_le hi h₁.symLen)).trans (h₁.symEq i hi)
  · intro j r hr
    obtain ⟨r₂, hr₂, e₁, e₂⟩ := h₁.declCore j r hr
    obtain ⟨r₃, hr₃, f₁, f₂⟩ := h₂.declCore j r₂ hr₂
    exact ⟨r₃, hr₃, f₁.trans e₁, f₂.trans e₂⟩
  · intro j r₃ hr₃ hne
    refine (h₂.refsSep j r₃ hr₃ hne).trans ?_
    cases hr₂ : st₂.astDeclarations[j]? with
    | none =>
      have h₁none : st₁.astDeclarations[j]? = none := by
        cases hr₁ : st₁.astDeclarations[j]? with
        | none => rfl
        | some r₁ =>
          obtain ⟨r₂, hr₂', _, _⟩ := h₁.declCore j r₁ hr₁
          rw [hr₂'] at hr₂
          exact absurd hr₂ (by simp)
      simp [refsOf, getDeclRec, hr₂, h₁none]
    | some r₂ =>
      obtain ⟨r₃', hr₃', _, f₂⟩ := h₂.declCore j r₂ hr₂
      rw [hr₃'] at hr₃
      injection hr₃ with hr₃
      subst hr₃
      exact h₁.refsSep j r₂ hr₂ (f₂ ▸ hne)

/-- The effect of `_notifyReferencedAstSymbol` on each state component. -/
theorem notifyRef_fields (st : TableState) (g : AstDeclId) (x : AstSymbolId) :
    (notifyReferencedAstSymbol st g x).astSymbols = st.astSymbols ∧
    (notifyReferencedAstSymbol st g x).astModules = st.astModules ∧
    (notifyReferencedAstSymbol st g x).astSymbolsBySymbol =
      st.astSymbolsBySymbol ∧
    (notifyReferencedAstSymbol st g x).astSymbolsByImportKey =
      st.astSymbolsByImportKey ∧
    (notifyReferencedAstSymbol st g x).astDeclarationsByDeclaration =
      st.astDeclarationsByDeclaration ∧
    (notifyReferencedAstSymbol st g x).astModulesBySourceFile =
      st.astModulesBySourceFile ∧
    (notifyReferencedAstSymbol st g x).astDeclarations.length =
      st.astDeclarations.length ∧
    (∀ j, j ≠ g → (notifyReferencedAstSymbol st g x).astDeclarations[j]? =
      st.astDeclarations[j]?) ∧
    (∀ r : AstDeclarationRec, st.astDeclarations[g]? = some r →
      ∃ r' : AstDeclarationRec,
        (notifyReferencedAstSymbol st g x).astDeclarations[g]? = some r' ∧
        r'.declaration = r.declaration ∧ r'.astSymbol = r.astSymbol ∧
        r'.parent = r.parent ∧ r'.children = r.children ∧
        (∀ y ∈ r'.referencedAstSymbols,
          y ∈ r.referencedAstSymbols ∨ y = x)) := by
  refine ⟨rfl, rfl, rfl, rfl, rfl, rfl,
    by simp [notifyReferencedAstSymbol, listModify_length], ?_, ?_⟩
  · intro j hj
    simp [notifyReferencedAstSymbol, listModify_getElem?_ne _ _ _ _ hj]
  · intro r hr
    refine ⟨if x ∈ r.referencedAstSymbols then r
      else { r with referencedAstSymbols := r.referencedAstSymbols ++ [x] },
      ?_, ?_⟩
    · simp only [notifyReferencedAstSymbol]
      rw [listModify_getElem?_self, hr]
      rfl
    · split <;> simp_all
/-- Recording a referenced symbol preserves the flat invariant when the
referenced node is valid. -/
theorem notifyRef_inv {o : Oracle} {st : TableState} (hinv : FlatInv o st)
    {g : AstDeclId} {x : AstSymbolId} (hx : x < st.astSymbols.length) :
    FlatInv o (notifyReferencedAstSymbol st g x) := by
  obtain ⟨e1, e2, e3, e4, e5, e6, e7, e8, e9⟩ := notifyRef_fields st g x
  have hcore : ∀ (j : AstDeclId) (r' : AstDeclarationRec),
      (notifyReferencedAstSymbol st g x).astDeclarations[j]? = some r' →
      ∃ r : AstDeclarationRec, st.astDeclarations[j]? = some r ∧
        r'.declaration = r.declaration ∧ r'.astSymbol = r.astSymbol ∧
        r'.children = r.children ∧
        (∀ y ∈ r'.referencedAstSymbols, y ∈ r.referencedAstSymbols ∨ y = x) := by
    intro j r' hr'
    by_cases hj : j = g
    · subst hj
      cases hr : st.astDeclarations[j]? with
      | none =>
        rw [show (notifyReferencedAstSymbol st j x).astDeclarations[j]? = none
          from by
            simp only [notifyReferencedAstSymbol]
            rw [listModify_getElem?_self, hr]
            rfl] at hr'
        exact absurd hr' (by simp)
      | some r =>
        obtain ⟨r'', hr'', f1, f2, f3, f4, f5⟩ := e9 r hr
        rw [hr''] at hr'
        injection hr' with hr'
        subst hr'
        exact ⟨r, rfl, f1, f2, f4, f5⟩
    · rw [e8 j hj] at hr'
      exact ⟨r', hr', rfl, rfl, rfl, fun y hy => Or.inl hy⟩
  have hfwd : ∀ (j : AstDeclId) (r : AstDeclarationRec),
      st.astDeclarations[j]? = some r →
      ∃ r' : AstDeclarationRec,
        (notifyReferencedAstSymbol st g x).astDeclarations[j]? = some r' ∧
        r'.declaration = r.declaration ∧ r'.astSymbol = r.astSymbol ∧
        r'.children = r.children := by
    intro j r hr
    by_cases hj : j = g
    · subst hj
      obtain ⟨r', hr', f1, f2, f3, f4, f5⟩ := e9 r hr
      exact ⟨r', hr', f1, f2, f4⟩
    · exact ⟨r, (e8 j hj).trans hr, rfl, rfl, rfl⟩
  constructor
  · intro i r hr
    rw [e1] at hr
    exact hinv.flat i r hr
  · intro i r hr
    rw [e1] at hr
    rw [e3]
    exact hinv.byS i r hr
  · intro k v hkv
    rw [e3] at hkv
    obtain ⟨rv, hrv, hf⟩ := hinv.bySCorrect k v hkv
    exact ⟨rv, e1 ▸ hrv, hf⟩
  · intro j r' hr'
    obtain ⟨r, hr, _, _, f3, _⟩ := hcore j r' hr'
    rw [f3]
    exact hinv.childrenEmpty j r hr
  · intro j r' hr'
    obtain ⟨r, hr, f1, f2, _, _⟩ := hcore j r' hr'
    obtain ⟨sr, hsr, hmem⟩ := hinv.declOwn j r hr
    exact ⟨sr, f2 ▸ e1 ▸ hsr, f1 ▸ hmem⟩
  · intro nd j hnd
    rw [e5] at hnd
    obtain ⟨r, hr, hdecl⟩ := hinv.declMapCons nd j hnd
    obtain ⟨r', hr', f1, _, _⟩ := hfwd j r hr
    exact ⟨r', hr', f1.trans hdecl⟩
  · intro j r' hr' y hy
    obtain ⟨r, hr, _, _, _, f5⟩ := hcore j r' hr'
    rw [e1]
    rcases f5 y hy with hmem | hx'
    · exact hinv.refsValid j r hr y hmem
    · exact hx' ▸ hx
  · intro i r hr dj hdj
    rw [e1] at hr
    obtain ⟨dr, hdr, ho⟩ := hinv.ownedDecls i r hr dj hdj
    obtain ⟨dr', hdr', _, f2, _⟩ := hfwd dj dr hdr
    exact ⟨dr', hdr', f2.trans ho⟩

/-- Recording a referenced symbol is a flat phase-1 step relative to the
owner of the governing Declaration Node. -/
theorem notifyRef_flatStep {o : Oracle} {st : TableState} (hinv : FlatInv o st)
    {g : AstDeclId} {x : AstSymbolId} (hx : x < st.astSymbols.length)
    {R : AstSymbolId} (hg : ownerOf st g = R) :
    FlatStep o st (notifyReferencedAstSymbol st g x) R := by
  obtain ⟨e1, e2, e3, e4, e5, e6, e7, e8, e9⟩ := notifyRef_fields st g x
  refine ⟨notifyRef_inv hinv hx, e1 ▸ Nat.le_refl _, fun i _ => by rw [e1],
    e7 ▸ Nat.le_refl _, ?_, ?_, fun y => by simp [importedOf, getSymRec, e1],
    fun y => by simp [analyzedOf, getSymRec, e1]⟩
  · intro j r hr
    by_cases hj : j = g
    · subst hj
      obtain ⟨r', hr', f1, f2, _, _, _⟩ := e9 r hr
      exact ⟨r', hr', f1, f2⟩
    · exact ⟨r, (e8 j hj).trans hr, rfl, rfl⟩
  · intro j r' hr' hne
    have hj : j ≠ g := by
      intro hj
      subst hj
      cases hrg : st.astDeclarations[j]? with
      | none =>
        rw [show (notifyReferencedAstSymbol st j x).astDeclarations[j]? = none
          from by
            simp only [notifyReferencedAstSymbol]
            rw [listModify_getElem?_self, hrg]
            rfl] at hr'
        exact absurd hr' (by simp)
      | some rg =>
        obtain ⟨r'', hr'', _, f2, _, _, _⟩ := e9 rg hrg
        rw [hr''] at hr'
        injection hr' with hr'
        subst hr'
        apply hne
        rw [f2, ← hg]
        simp [ownerOf, getDeclRec, hrg]
    simp [refsOf, getDeclRec, e8 j hj]
/-- The record a parentless `createOneDeclaration` step appends. -/
def mkDeclRec (d : NodeId) (n : AstSymbolId) : AstDeclarationRec :=
  { declaration := d, astSymbol := n, parent := none, children := [],
    referencedAstSymbols := [] }

/-- Creating one parentless Declaration Node for a declaration of the
symbol owning `n` preserves the flat invariant, changes no import or
analyzed flag, and adds no referenced symbol. -/
theorem createOne_none_flat {o : Oracle} {st : TableState} {n : AstSymbolId}
    {d : NodeId} {rn : AstSymbolRec} (hinv : FlatInv o st)
    (hn : st.astSymbols[n]? = some rn)
    (hmem : d ∈ o.symDeclarations rn.followedSymbol) :
    FlatInv o (createOneDeclaration st n none d) ∧
    (∀ x, importedOf (createOneDeclaration st n none d) x = importedOf st x) ∧
    (∀ x, analyzedOf (createOneDeclaration st n none d) x = analyzedOf st x) ∧
    (∀ j, refsOf (createOneDeclaration st n none d) j = refsOf st j) ∧
    (∃ rn' : AstSymbolRec,
      (createOneDeclaration st n none d).astSymbols[n]? = some rn' ∧
      rn'.followedSymbol = rn.followedSymbol) := by
  have hA : (createOneDeclaration st n none d).astSymbols =
      listModify st.astSymbols n
        (fun r => { r with
          astDeclarations := r.astDeclarations ++ [st.astDeclarations.length] }) :=
    rfl
  have hD : (createOneDeclaration st n none d).astDeclarations =
      st.astDeclarations ++ [mkDeclRec d n] := rfl
  have hM : (createOneDeclaration st n none d).astDeclarationsByDeclaration =
      mapSet st.astDeclarationsByDeclaration d st.astDeclarations.length := rfl
  have hB : (createOneDeclaration st n none d).astSymbolsBySymbol =
      st.astSymbolsBySymbol := rfl
  have hsymsAt : ∀ i, i ≠ n →
      (createOneDeclaration st n none d).astSymbols[i]? = st.astSymbols[i]? := by
    intro i hi
    rw [hA, listModify_getElem?_ne _ _ _ _ hi]
  have hsymsN : (createOneDeclaration st n none d).astSymbols[n]? =
      some { rn with
        astDeclarations := rn.astDeclarations ++ [st.astDeclarations.length] } := by
    rw [hA, listModify_getElem?_self, hn]
    rfl
  have hsymCore : ∀ (i : AstSymbolId) (r' : AstSymbolRec),
      (createOneDeclaration st n none d).astSymbols[i]? = some r' →
      ∃ r : AstSymbolRec, st.astSymbols[i]? = some r ∧
        r'.followedSymbol = r.followedSymbol ∧ r'.astImport = r.astImport ∧
        r'.parentAstSymbol = r.parentAstSymbol ∧
        r'.rootAstSymbol = r.rootAstSymbol ∧ r'.analyzed = r.analyzed := by
    intro i r' hr'
    by_cases hi : i = n
    · subst hi
      rw [hsymsN] at hr'
      injection hr' with hr'
      subst hr'
      exact ⟨rn, hn, rfl, rfl, rfl, rfl, rfl⟩
    · rw [hsymsAt i hi] at hr'
      exact ⟨r', hr', rfl, rfl, rfl, rfl, rfl⟩
  have hsymFwd : ∀ (i : AstSymbolId) (r : AstSymbolRec),
      st.astSymbols[i]? = some r →
      ∃ r' : AstSymbolRec,
        (createOneDeclaration st n none d).astSymbols[i]? = some r' ∧
        r'.followedSymbol = r.followedSymbol := by
    intro i r hr
    by_cases hi : i = n
    · subst hi
      rw [hn] at hr
      injection hr with hr
      subst hr
      exact ⟨_, hsymsN, rfl⟩
    · exact ⟨r, (hsymsAt i hi).trans hr, rfl⟩
  have hdeclsOld : ∀ j, j < st.astDeclarations.length →
      (createOneDeclaration st n none d).astDeclarations[j]? =
        st.astDeclarations[j]? := by
    intro j hj
    rw [hD, getElem?_append_left_of_lt _ _ _ hj]
  have hdeclsNew :
      (createOneDeclaration st n none d).astDeclarations[st.astDeclarations.length]? =
      some (mkDeclRec d n) := by
    rw [hD]
    exact getElem?_append_length _ _
  have hdeclCase : ∀ (j : AstDeclId) (r' : AstDeclarationRec),
      (createOneDeclaration st n none d).astDeclarations[j]? = some r' →
      st.astDeclarations[j]? = some r' ∨
      (j = st.astDeclarations.length ∧ r' = mkDeclRec d n) := by
    intro j r' hr'
    rcases Nat.lt_trichotomy j st.astDeclarations.length with hj | hj | hj
    · rw [hdeclsOld j hj] at hr'
      exact Or.inl hr'
    · subst hj
      rw [hdeclsNew] at hr'
      injection hr' with hr'
      exact Or.inr ⟨rfl, hr'.symm⟩
    · rw [hD, List.getElem?_eq_none (by simp; omega)] at hr'
      exact absurd hr' (by simp)
  have hlen : (createOneDeclaration st n none d).astSymbols.length =
      st.astSymbols.length := by
    rw [hA, listModify_length]
  refine ⟨?_, ?_, ?_, ?_, _, hsymsN, rfl⟩
  · constructor
    · intro i r' hr'
      obtain ⟨r, hr, _, _, f3, f4, _⟩ := hsymCore i r' hr'
      obtain ⟨p1, p2⟩ := hinv.flat i r hr
      exact ⟨f3.trans p1, f4.trans p2⟩
    · intro i r' hr'
      obtain ⟨r, hr, f1, _, _, _, _⟩ := hsymCore i r' hr'
      rw [hB, f1]
      exact hinv.byS i r hr
    · intro k v hkv
      rw [hB] at hkv
      obtain ⟨rv, hrv, hf⟩ := hinv.bySCorrect k v hkv
      obtain ⟨rv', hrv', f1⟩ := hsymFwd v rv hrv
      exact ⟨rv', hrv', f1.trans hf⟩
    · intro j r' hr'
      rcases hdeclCase j r' hr' with hold | ⟨hj, hrec⟩
      · exact hinv.childrenEmpty j r' hold
      · rw [hrec]
        rfl
    · intro j r' hr'
      rcases hdeclCase j r' hr' with hold | ⟨hj, hrec⟩
      · obtain ⟨sr, hsr, hm⟩ := hinv.declOwn j r' hold
        obtain ⟨sr', hsr', f1⟩ := hsymFwd _ sr hsr
        exact ⟨sr', hsr', f1 ▸ hm⟩
      · subst hrec
        refine ⟨_, hsymsN, ?_⟩
        exact hmem
    · intro nd j hnd
      rw [hM] at hnd
      by_cases hk : nd = d
      · subst hk
        rw [mapGet_mapSet_self] at hnd
        injection hnd with hnd
        subst hnd
        exact ⟨_, hdeclsNew, rfl⟩
      · rw [mapGet_mapSet_ne _ _ _ _ (fun h => hk h.symm)] at hnd
        obtain ⟨r, hr, hdecl⟩ := hinv.declMapCons nd j hnd
        have hj : j < st.astDeclarations.length := by
          by_contra hge
          rw [List.getElem?_eq_none (Nat.le_of_not_lt hge)] at hr
          exact absurd hr (by simp)
        exact ⟨r, (hdeclsOld j hj).trans hr, hdecl⟩
    · intro j r' hr' y hy
      rw [hlen]
      rcases hdeclCase j r' hr' with hold | ⟨hj, hrec⟩
      · exact hinv.refsValid j r' hold y hy
      · subst hrec
        exact absurd hy (by simp [mkDeclRec])
    · intro i r' hr' dj hdj
      by_cases hi : i = n
      · subst hi
        rw [hsymsN] at hr'
        injection hr' with hr'
        subst hr'
        simp only [List.mem_append, List.mem_singleton] at hdj
        rcases hdj with hdjold | hdjnew
        · obtain ⟨dr, hdr, ho⟩ := hinv.ownedDecls _ rn hn dj hdjold
          have hj : dj < st.astDeclarations.length := by
            by_contra hge
            rw [List.getElem?_eq_none (Nat.le_of_not_lt hge)] at hdr
            exact absurd hdr (by simp)
          exact ⟨dr, (hdeclsOld dj hj).trans hdr, ho⟩
        · subst hdjnew
          exact ⟨_, hdeclsNew, rfl⟩
      · rw [hsymsAt i hi] at hr'
        obtain ⟨dr, hdr, ho⟩ := hinv.ownedDecls i r' hr' dj hdj
        have hj : dj < st.astDeclarations.length := by
          by_contra hge
          rw [List.getElem?_eq_none (Nat.le_of_not_lt hge)] at hdr
          exact absurd hdr (by simp)
        exact ⟨dr, (hdeclsOld dj hj).trans hdr, ho⟩
  · intro x
    unfold importedOf getSymRec
    cases hx : st.astSymbols[x]? with
    | none =>
      rw [show (createOneDeclaration st n none d).astSymbols[x]? = none from by
        by_cases hxn : x = n
        · subst hxn; rw [hx] at hn; exact absurd hn (by simp)
        · rw [hsymsAt x hxn]; exact hx]
    | some r =>
      obtain ⟨r', hr', f1⟩ := hsymFwd x r hx
      obtain ⟨r₀, hr₀, _, f2, _, _, _⟩ := hsymCore x r' hr'
      rw [hx] at hr₀
      injection hr₀ with hr₀
      subst hr₀
      simp [hr', f2]
  · intro x
    unfold analyzedOf getSymRec
    cases hx : st.astSymbols[x]? with
    | none =>
      rw [show (createOneDeclaration st n none d).astSymbols[x]? = none from by
        by_cases hxn : x = n
        · subst hxn; rw [hx] at hn; exact absurd hn (by simp)
        · rw [hsymsAt x hxn]; exact hx]
    | some r =>
      obtain ⟨r', hr', f1⟩ := hsymFwd x r hx
      obtain ⟨r₀, hr₀, _, _, _, _, f5⟩ := hsymCore x r' hr'
      rw [hx] at hr₀
      injection hr₀ with hr₀
      subst hr₀
      simp [hr', f5]
  · intro j
    unfold refsOf getDeclRec
    rcases Nat.lt_trichotomy j st.astDeclarations.length with hj | hj | hj
    · rw [hdeclsOld j hj]
    · subst hj
      rw [hdeclsNew, List.getElem?_eq_none (Nat.le_refl _)]
      rfl
    · have h1 : st.astDeclarations[j]? = none :=
        List.getElem?_eq_none (Nat.le_of_lt hj)
      have h2 : (createOneDeclaration st n none d).astDeclarations[j]? = none := by
        rw [hD]
        refine List.getElem?_eq_none ?_
        simp only [List.length_append, List.length_singleton]
        omega
      rw [h1, h2]
/-- The fresh Symbol Node record built by the construction path of
`_fetchAstSymbol` when no Import Identity context is supplied. -/
def constructRec (o : Oracle) (s : SymbolId) (newId : AstSymbolId)
    (nom : Bool) : AstSymbolRec :=
  { localName := o.symName s, followedSymbol := s, astImport := none,
    parentAstSymbol := none, rootAstSymbol := newId, nominal := nom,
    astDeclarations := [], analyzed := false }

/-- The state after appending a fresh symbol record and binding its followed
symbol in the identity cache. -/
def constructState (st : TableState) (s : SymbolId) (newRec : AstSymbolRec)
    (byK : List (AstImport × AstSymbolId)) : TableState :=
  { st with
    astSymbols := st.astSymbols ++ [newRec],
    astSymbolsBySymbol := mapSet st.astSymbolsBySymbol s st.astSymbols.length,
    astSymbolsByImportKey := byK }

/-- The fresh record sits at the old arena length in the constructed state. -/
theorem hsymsNewHelper (st : TableState) (s : SymbolId) (newRec : AstSymbolRec)
    (byK : List (AstImport × AstSymbolId)) :
    (constructState st s newRec byK).astSymbols[st.astSymbols.length]? =
      some newRec := by
  show (st.astSymbols ++ [newRec])[st.astSymbols.length]? = some newRec
  exact getElem?_append_length _ _

/-- Appending a fresh flat, parentless, import-free symbol record and binding
its followed symbol in the identity cache preserves the flat invariant. -/
theorem construct_flat {o : Oracle} {st : TableState} {s : SymbolId}
    (hinv : FlatInv o st) (hmiss : mapGet st.astSymbolsBySymbol s = none)
    (nom : Bool) (byK : List (AstImport × AstSymbolId)) :
    FlatInv o (constructState st s
      (constructRec o s st.astSymbols.length nom) byK) ∧
    (∀ x, importedOf (constructState st s
      (constructRec o s st.astSymbols.length nom) byK) x = importedOf st x) ∧
    (∀ x, analyzedOf (constructState st s
      (constructRec o s st.astSymbols.length nom) byK) x = analyzedOf st x) ∧
    (∀ j, refsOf (constructState st s
      (constructRec o s st.astSymbols.length nom) byK) j = refsOf st j) := by
  set newRec := constructRec o s st.astSymbols.length nom with hnewRec
  set stx := constructState st s newRec byK with hstx
  have hsymsAt : ∀ i, i < st.astSymbols.length →
      stx.astSymbols[i]? = st.astSymbols[i]? := by
    intro i hi
    show (st.astSymbols ++ [newRec])[i]? = st.astSymbols[i]?
    exact getElem?_append_left_of_lt _ _ _ hi
  have hsymsNew : stx.astSymbols[st.astSymbols.length]? = some newRec := by
    show (st.astSymbols ++ [newRec])[st.astSymbols.length]? = some newRec
    exact getElem?_append_length _ _
  have hsymsCase : ∀ (i : AstSymbolId) (r' : AstSymbolRec),
      stx.astSymbols[i]? = some r' →
      st.astSymbols[i]? = some r' ∨
        (i = st.astSymbols.length ∧ r' = newRec) := by
    intro i r' hr'
    rcases Nat.lt_trichotomy i st.astSymbols.length with hi | hi | hi
    · rw [hsymsAt i hi] at hr'
      exact Or.inl hr'
    · subst hi
      rw [hsymsNew] at hr'
      injection hr' with hr'
      exact Or.inr ⟨rfl, hr'.symm⟩
    · rw [show stx.astSymbols[i]? = none from by
        show (st.astSymbols ++ [newRec])[i]? = none
        refine List.getElem?_eq_none ?_
        simp only [List.length_append, List.length_singleton]
        omega] at hr'
      exact absurd hr' (by simp)
  have hsymsNone : ∀ i, st.astSymbols.length < i → stx.astSymbols[i]? = none := by
    intro i hi
    show (st.astSymbols ++ [newRec])[i]? = none
    refine List.getElem?_eq_none ?_
    simp only [List.length_append, List.length_singleton]
    omega
  have hfolne : ∀ (i : AstSymbolId) (r : AstSymbolRec),
      st.astSymbols[i]? = some r → r.followedSymbol ≠ s := by
    intro i r hr hcon
    have hb := hinv.byS i r hr
    rw [hcon, hmiss] at hb
    exact absurd hb (by simp)
  have hmapx : stx.astSymbolsBySymbol =
      mapSet st.astSymbolsBySymbol s st.astSymbols.length := rfl
  have hdeclx : stx.astDeclarations = st.astDeclarations := rfl
  refine ⟨?_, ?_, ?_, fun _ => rfl⟩
  · constructor
    · intro i r' hr'
      rcases hsymsCase i r' hr' with hold | ⟨hi, hr⟩
      · exact hinv.flat i r' hold
      · subst hi
        subst hr
        exact ⟨rfl, rfl⟩
    · intro i r' hr'
      rw [hmapx]
      rcases hsymsCase i r' hr' with hold | ⟨hi, hr⟩
      · rw [mapGet_mapSet_ne _ _ _ _ (fun hc => hfolne i r' hold hc.symm)]
        exact hinv.byS i r' hold
      · subst hi
        subst hr
        exact mapGet_mapSet_self _ _ _
    · intro k v hkv
      rw [hmapx] at hkv
      by_cases hk : k = s
      · subst hk
        rw [mapGet_mapSet_self] at hkv
        injection hkv with hkv
        subst hkv
        exact ⟨newRec, hsymsNew, rfl⟩
      · rw [mapGet_mapSet_ne _ _ _ _ (fun hc => hk hc.symm)] at hkv
        obtain ⟨rv, hrv, hfv⟩ := hinv.bySCorrect k v hkv
        have hv : v < st.astSymbols.length := by
          by_contra hge
          rw [List.getElem?_eq_none (Nat.le_of_not_lt hge)] at hrv
          exact absurd hrv (by simp)
        exact ⟨rv, (hsymsAt v hv).trans hrv, hfv⟩
    · intro j r hr
      rw [hdeclx] at hr
      exact hinv.childrenEmpty j r hr
    · intro j r hr
      rw [hdeclx] at hr
      obtain ⟨sr, hsr, hm⟩ := hinv.declOwn j r hr
      have hv : r.astSymbol < st.astSymbols.length := by
        by_contra hge
        rw [List.getElem?_eq_none (Nat.le_of_not_lt hge)] at hsr
        exact absurd hsr (by simp)
      exact ⟨sr, (hsymsAt _ hv).trans hsr, hm⟩
    · intro nd j hnd
      obtain ⟨r, hr, hdecl⟩ := hinv.declMapCons nd j hnd
      exact ⟨r, hdeclx ▸ hr, hdecl⟩
    · intro j r hr y hy
      rw [hdeclx] at hr
      have := hinv.refsValid j r hr y hy
      show y < (st.astSymbols ++ [newRec]).length
      simp only [List.length_append, List.length_singleton]
      exact Nat.lt_succ_of_lt this
    · intro i r' hr' dj hdj
      rcases hsymsCase i r' hr' with hold | ⟨hi, hr⟩
      · obtain ⟨dr, hdr, ho'⟩ := hinv.ownedDecls i r' hold dj hdj
        exact ⟨dr, hdeclx ▸ hdr, ho'⟩
      · subst hr
        exact absurd hdj (by simp [hnewRec, constructRec])
  · intro x
    unfold importedOf getSymRec
    rcases Nat.lt_trichotomy x st.astSymbols.length with hxlt | hxeq | hxgt
    · rw [hsymsAt x hxlt]
    · subst hxeq
      rw [hsymsNew, List.getElem?_eq_none (Nat.le_refl _)]
      rfl
    · rw [hsymsNone x hxgt, List.getElem?_eq_none (Nat.le_of_lt hxgt)]
  · intro x
    unfold analyzedOf getSymRec
    rcases Nat.lt_trichotomy x st.astSymbols.length with hxlt | hxeq | hxgt
    · rw [hsymsAt x hxlt]
    · subst hxeq
      rw [hsymsNew, List.getElem?_eq_none (Nat.le_refl _)]
      rfl
    · rw [hsymsNone x hxgt, List.getElem?_eq_none (Nat.le_of_lt hxgt)]

/-- The declaration-creation loop for a parentless symbol preserves the flat
invariant and adds neither import flags, analyzed flags, nor referenced
symbols. -/
theorem createDeclarationsFor_none_flat {o : Oracle} {n : AstSymbolId}
    {s : SymbolId} :
    ∀ {ds : List NodeId} {st st' : TableState},
      createDeclarationsFor o st n none ds = .ok st' →
      FlatInv o st →
      (∃ rn : AstSymbolRec, st.astSymbols[n]? = some rn ∧
        rn.followedSymbol = s) →
      (∀ d ∈ ds, d ∈ o.symDeclarations s) →
      FlatInv o st' ∧
      (∀ x, importedOf st' x = importedOf st x) ∧
      (∀ x, analyzedOf st' x = analyzedOf st x) ∧
      (∀ j, refsOf st' j = refsOf st j) := by
  intro ds
  induction ds with
  | nil =>
    intro st st' h hinv _ _
    simp only [createDeclarationsFor] at h
    injection h with h
    subst h
    exact ⟨hinv, fun _ => rfl, fun _ => rfl, fun _ => rfl⟩
  | cons d rest ih =>
    intro st st' h hinv hrec hds
    obtain ⟨rn, hn, hfol⟩ := hrec
    simp only [createDeclarationsFor, resolveParentDeclaration] at h
    obtain ⟨hinv1, himp1, han1, hrefs1, rn', hn', hfol'⟩ :=
      createOne_none_flat hinv hn (hfol ▸ hds d (by simp))
    obtain ⟨hinv2, himp2, han2, hrefs2⟩ :=
      ih h hinv1 ⟨rn', hn', hfol'.trans hfol⟩ (fun d' hd' => hds d' (by simp [hd']))
    exact ⟨hinv2, fun x => (himp2 x).trans (himp1 x),
      fun x => (han2 x).trans (han1 x),
      fun j => (hrefs2 j).trans (hrefs1 j)⟩

/-- In the flat world, a symbol fetch without import context preserves the
flat invariant, changes no import or analyzed flag, records no referenced
symbol, and returns a node whose record follows the requested symbol. -/
theorem fetchNone_flat {o : Oracle} (ho : FlatOracle o) {fuel : Nat}
    {st st' : TableState} {s : SymbolId} {b : Bool} {r : Option AstSymbolId}
    (h : fetchAstSymbol o fuel st s b none = .ok (r, st'))
    (hinv : FlatInv o st) :
    FlatInv o st' ∧
    (∀ x, importedOf st' x = importedOf st x) ∧
    (∀ x, analyzedOf st' x = analyzedOf st x) ∧
    (∀ j, refsOf st' j = refsOf st j) ∧
    (∀ a, r = some a → ∃ ra : AstSymbolRec, st'.astSymbols[a]? = some ra ∧
      ra.followedSymbol = s) := by
  cases fuel with
  | zero => exact absurd h (by simp [fetchAstSymbol])
  | succ n =>
    simp only [fetchAstSymbol] at h
    split at h
    · injection h with h
      injection h with h1 h2
      subst h2
      exact ⟨hinv, fun _ => rfl, fun _ => rfl, fun _ => rfl,
        fun a ha => absurd (h1 ▸ ha) (by simp)⟩
    · split at h
      · injection h with h
        injection h with h1 h2
        subst h2
        exact ⟨hinv, fun _ => rfl, fun _ => rfl, fun _ => rfl,
          fun a ha => absurd (h1 ▸ ha) (by simp)⟩
      · split at h
        · next c hcache =>
          obtain ⟨hx, hy, _⟩ := finishFetch_ok h
          subst hy
          refine ⟨hinv, fun _ => rfl, fun _ => rfl, fun _ => rfl, ?_⟩
          intro a ha
          rw [hx] at ha
          injection ha with ha
          subst ha
          exact hinv.bySCorrect _ _ hcache
        · next hmiss =>
          split at h
          · exact absurd h (by simp)
          · next fd rds hdecls =>
            have hfd : fd ∈ o.symDeclarations s := by
              rw [hdecls]
              simp
            split at h
            · exact absurd h (by simp)
            · next parentOpt stBase hparent =>
              have hpar : parentOpt = none ∧ stBase = st := by
                split at hparent
                · injection hparent with hp
                  injection hp with hp1 hp2
                  exact ⟨hp1.symm, hp2.symm⟩
                · split at hparent
                  · exact absurd hparent (by simp)
                  · split at hparent
                    · injection hparent with hp
                      injection hp with hp1 hp2
                      exact ⟨hp1.symm, hp2.symm⟩
                    · next apd hsome =>
                      rw [ho.flatDecls s fd hfd] at hsome
                      exact absurd hsome (by simp)
              obtain ⟨hpo, hsb⟩ := hpar
              subst hpo
              subst hsb
              split at h
              · exact absurd h (by simp)
              · next st3 hcreate =>
                obtain ⟨hx, hy, _⟩ := finishFetch_ok h
                subst hy
                obtain ⟨cinv, cimp, can, crefs⟩ :=
                  construct_flat hinv hmiss
                    (rds.isEmpty && decide (o.nodeKind fd = TsKind.sourceFile)
                      || ((none : Option AstImport)).isSome
                        && !o.isAedocSupported (o.nodeSourceFile fd))
                    stBase.astSymbolsByImportKey
                obtain ⟨dinv, dimp, dan, drefs⟩ :=
                  @createDeclarationsFor_none_flat o stBase.astSymbols.length s
                    _ _ _ hcreate cinv
                    ⟨constructRec o s stBase.astSymbols.length _,
                      hsymsNewHelper stBase s _ _, rfl⟩
                    (fun d' hd' => by rw [hdecls]; exact hd')
                obtain ⟨c1, _, _, _, _, _, _, _⟩ :=
                  createDeclarationsFor_facts hcreate
                refine ⟨dinv, fun x => (dimp x).trans (cimp x),
                  fun x => (dan x).trans (can x),
                  fun j => (drefs j).trans (crefs j), ?_⟩
                intro a ha
                rw [hx] at ha
                injection ha with ha
                subst ha
                refine dinv.bySCorrect s _ ?_
                rw [c1]
                exact mapGet_mapSet_self _ _ _
/-- A flat import-free fetch is a flat phase-1 step for any owner. -/
theorem fetchNone_flatStep {o : Oracle} (ho : FlatOracle o) {fuel : Nat}
    {st st' : TableState} {s : SymbolId} {b : Bool} {r : Option AstSymbolId}
    (h : fetchAstSymbol o fuel st s b none = .ok (r, st'))
    (hinv : FlatInv o st) (R : AstSymbolId) : FlatStep o st st' R := by
  obtain ⟨hinv', himp, han, hrefs, _⟩ := fetchNone_flat ho h hinv
  obtain ⟨f1, f2, _, _, f5, f6, _⟩ := fetchAstSymbol_facts h
  exact ⟨hinv', f1, f2, f5,
    fun j rc hr => by
      obtain ⟨rc', hrc', hs⟩ := f6 j rc hr
      exact ⟨rc', hrc', hs.1, hs.2.1⟩,
    fun j _ _ _ => hrefs j, himp, han⟩

/-- In the flat world, `_fetchAstDeclaration` is a flat phase-1 step and any
Declaration Node it returns is owned by the Symbol Node owning the node being
walked. -/
theorem fetchAstDeclaration_flat {o : Oracle} (ho : FlatOracle o) {fuel : Nat}
    {st st2 : TableState} {node : NodeId} {ngOpt : Option AstDeclId}
    (h : fetchAstDeclaration o fuel st node = .ok (ngOpt, st2))
    (hinv : FlatInv o st) (R : AstSymbolId)
    (hmem : isAstDeclaration (o.nodeKind node) = true →
      ∃ sr : AstSymbolRec, st.astSymbols[R]? = some sr ∧
        node ∈ o.symDeclarations sr.followedSymbol) :
    FlatStep o st st2 R ∧
    (∀ j, ngOpt = some j → j < st2.astDeclarations.length ∧
      ownerOf st2 j = R) := by
  simp only [fetchAstDeclaration, fetchAstSymbolForNode] at h
  split at h
  · exact absurd h (by simp)
  · next st1 hbody =>
    injection h with h
    injection h with h1 h2
    subst h2
    refine ⟨?_, fun j hj => absurd (h1 ▸ hj) (by simp)⟩
    split at hbody
    · injection hbody with hb
      injection hb with hb1 hb2
      subst hb2
      exact flatStep_refl hinv R
    · split at hbody
      · exact absurd hbody (by simp)
      · exact fetchNone_flatStep ho hbody hinv R
  · next av st1 hbody =>
    split at h
    · exact absurd h (by simp)
    · next j hmap =>
      injection h with h
      injection h with h1 h2
      subst h2
      split at hbody
      · exact absurd hbody (by simp)
      · next hcond =>
        have hkind : isAstDeclaration (o.nodeKind node) = true := by
          by_contra hk
          rw [Bool.not_eq_true] at hk
          exact hcond (by rw [hk]; rfl)
        obtain ⟨sr, hsr, hnodemem⟩ := hmem hkind
        split at hbody
        · exact absurd hbody (by simp)
        · next sym hsym =>
          have hstep : FlatStep o st st1 R :=
            fetchNone_flatStep ho hbody hinv R
          refine ⟨hstep, ?_⟩
          intro j' hj'
          rw [← h1] at hj'
          injection hj' with hj'
          subst hj'
          obtain ⟨rj, hrj, hrjdecl⟩ := hstep.inv.declMapCons node j hmap
          have hjlt : j < st1.astDeclarations.length := by
            by_contra hge
            rw [List.getElem?_eq_none (Nat.le_of_not_lt hge)] at hrj
            exact absurd hrj (by simp)
          refine ⟨hjlt, ?_⟩
          obtain ⟨sro, hsro, hmemo⟩ := hstep.inv.declOwn j rj hrj
          have hRlt : R < st.astSymbols.length := by
            by_contra hge
            rw [List.getElem?_eq_none (Nat.le_of_not_lt hge)] at hsr
            exact absurd hsr (by simp)
          have hsrA : st1.astSymbols[R]? = some sr :=
            (hstep.symEq R hRlt).trans hsr
          have hfoleq : sro.followedSymbol = sr.followedSymbol :=
            ho.declsDisj _ _ rj.declaration hmemo
              (by rw [hrjdecl]; exact hnodemem)
          have hb1 : mapGet st1.astSymbolsBySymbol sro.followedSymbol =
              some rj.astSymbol := hstep.inv.byS _ sro hsro
          have hb2 : mapGet st1.astSymbolsBySymbol sr.followedSymbol =
              some R := hstep.inv.byS R sr hsrA
          rw [hfoleq, hb2] at hb1
          injection hb1 with hb1
          show ownerOf st1 j = R
          unfold ownerOf getDeclRec
          rw [hrj, hb1]
theorem getElem?_lt_of_some {α : Type} {l : List α} {i : Nat} {x : α}
    (h : l[i]? = some x) : i < l.length := by
  by_contra hge
  rw [List.getElem?_eq_none (Nat.le_of_not_lt hge)] at h
  exact absurd h (by simp)

theorem getElem?_some_of_lt {α : Type} (l : List α) {i : Nat}
    (h : i < l.length) : ∃ x, l[i]? = some x :=
  ⟨l[i], List.getElem?_eq_getElem h⟩

/-- A flat phase-1 step does not change the owner of an existing Declaration
Node. -/
theorem ownerOf_flatStep {o : Oracle} {st st' : TableState} {R : AstSymbolId}
    (hs : FlatStep o st st' R) {g : AstDeclId}
    (hg : g < st.astDeclarations.length) : ownerOf st' g = ownerOf st g := by
  obtain ⟨rg, hrg⟩ := getElem?_some_of_lt st.astDeclarations hg
  obtain ⟨rg', hrg', _, e2⟩ := hs.declCore g rg hrg
  unfold ownerOf getDeclRec
  rw [hrg, hrg']
  simp [e2]

/-- The governing walk of `_analyzeChildTree` in the flat world: a flat
phase-1 step relative to the owner of the governing Declaration Node. -/
theorem walk_flatStep {o : Oracle} (ho : FlatOracle o) : ∀ fuel : Nat,
    (∀ st node gov st', analyzeChildTree o fuel st node gov = .ok st' →
      FlatInv o st →
      gov < st.astDeclarations.length →
      (isAstDeclaration (o.nodeKind node) = true →
        ∃ sr : AstSymbolRec, st.astSymbols[ownerOf st gov]? = some sr ∧
          node ∈ o.symDeclarations sr.followedSymbol) →
      FlatStep o st st' (ownerOf st gov)) ∧
    (∀ st ns gov st', analyzeChildrenLoop o fuel st ns gov = .ok st' →
      FlatInv o st →
      gov < st.astDeclarations.length →
      (∀ m ∈ ns, isAstDeclaration (o.nodeKind m) = false) →
      FlatStep o st st' (ownerOf st gov)) := by
  intro fuel
  induction fuel with
  | zero =>
    constructor <;> intro st x gov st' h <;>
      exact absurd h (by simp [analyzeChildTree, analyzeChildrenLoop])
  | succ n ih =>
    constructor
    · intro st node gov st' h hinv hgov hmem
      simp only [analyzeChildTree] at h
      split at h
      · injection h with h
        subst h
        exact flatStep_refl hinv _
      · split at h
        · exact absurd h (by simp)
        · next st1 heq =>
          have hstep1 : FlatStep o st st1 (ownerOf st gov) := by
            split at heq
            · split at heq
              · injection heq with heq
                subst heq
                exact flatStep_refl hinv _
              · split at heq
                · exact absurd heq (by simp)
                · split at heq
                  · exact absurd heq (by simp)
                  · next st2 hfetch =>
                    injection heq with heq
                    subst heq
                    exact fetchNone_flatStep ho hfetch hinv _
                  · next a st2 hfetch =>
                    injection heq with heq
                    subst heq
                    have f := fetchNone_flatStep ho hfetch hinv (ownerOf st gov)
                    obtain ⟨_, _, _, _, hres⟩ := fetchNone_flat ho hfetch hinv
                    obtain ⟨ra, hra, _⟩ := hres a rfl
                    exact flatStep_trans f (notifyRef_flatStep f.inv
                      (getElem?_lt_of_some hra) (ownerOf_flatStep f hgov))
            · injection heq with heq
              subst heq
              exact flatStep_refl hinv _
          cases hfd : fetchAstDeclaration o n st1 node with
          | error e =>
            rw [hfd] at h
            exact absurd h (by simp)
          | ok q =>
            obtain ⟨ng, st2⟩ := q
            rw [hfd] at h
            obtain ⟨hstep2, hng⟩ := fetchAstDeclaration_flat ho hfd hstep1.inv
              (ownerOf st gov)
              (fun hk => by
                obtain ⟨sr, hsr, hm⟩ := hmem hk
                exact ⟨sr,
                  (hstep1.symEq _ (getElem?_lt_of_some hsr)).trans hsr, hm⟩)
            have hstep12 := flatStep_trans hstep1 hstep2
            have hgov' : (ng.getD gov) < st2.astDeclarations.length ∧
                ownerOf st2 (ng.getD gov) = ownerOf st gov := by
              cases ng with
              | none =>
                refine ⟨Nat.lt_of_lt_of_le hgov hstep12.declLen, ?_⟩
                exact ownerOf_flatStep hstep12 hgov
              | some j =>
                obtain ⟨hjl, hjo⟩ := hng j rfl
                exact ⟨hjl, hjo⟩
            have hloop := ih.2 st2 (o.nodeChildren node) (ng.getD gov) st' h
              hstep12.inv hgov'.1
              (fun m hm => ho.childrenNotDecl node m hm)
            rw [hgov'.2] at hloop
            exact flatStep_trans hstep12 hloop
    · intro st ns gov st' h hinv hgov hns
      cases ns with
      | nil =>
        simp only [analyzeChildrenLoop] at h
        injection h with h
        subst h
        exact flatStep_refl hinv _
      | cons c rest =>
        simp only [analyzeChildrenLoop] at h
        split at h
        · exact absurd h (by simp)
        · next st1 hone =>
          have h1 := ih.1 st c gov st1 hone hinv hgov
            (fun hk => absurd hk (by simp [hns c (by simp)]))
          have h2 := ih.2 st1 rest gov st' h h1.inv
            (Nat.lt_of_lt_of_le hgov h1.declLen)
            (fun m hm => hns m (by simp [hm]))
          rw [ownerOf_flatStep h1 hgov] at h2
          exact flatStep_trans h1 h2
/-- The phase-1 walk over the root's Declaration Nodes is a flat phase-1
step relative to the owning Symbol Node. -/
theorem rootDeclsLoop_flatStep {o : Oracle} (ho : FlatOracle o) :
    ∀ (fuel : Nat) (st : TableState) (ds : List AstDeclId) (st' : TableState)
      (R : AstSymbolId),
      analyzeRootDeclsLoop o fuel st ds = .ok st' →
      FlatInv o st →
      (∀ d ∈ ds, ∃ dr : AstDeclarationRec,
        st.astDeclarations[d]? = some dr ∧ dr.astSymbol = R) →
      FlatStep o st st' R := by
  intro fuel
  induction fuel with
  | zero =>
    intro st ds st' R h
    exact absurd h (by simp [analyzeRootDeclsLoop])
  | succ n ih =>
    intro st ds st' R h hinv hds
    cases ds with
    | nil =>
      simp only [analyzeRootDeclsLoop] at h
      injection h with h
      subst h
      exact flatStep_refl hinv R
    | cons d rest =>
      simp only [analyzeRootDeclsLoop] at h
      split at h
      · exact absurd h (by simp)
      · next declRec hdr =>
        split at h
        · exact absurd h (by simp)
        · next st1 hct =>
          obtain ⟨dr, hdr', hdrR⟩ := hds d (by simp)
          have hdreq : declRec = dr := by
            unfold getDeclRec at hdr
            rw [hdr'] at hdr
            injection hdr with hdr
            exact hdr.symm
          subst hdreq
          have hown : ownerOf st d = R := by
            simp [ownerOf, getDeclRec, hdr', hdrR]
          have hct' := (walk_flatStep ho n).1 st declRec.declaration d st1 hct
            hinv (getElem?_lt_of_some hdr')
            (fun _ => by
              rw [hown]
              obtain ⟨sr, hsr, hm⟩ := hinv.declOwn d declRec hdr'
              rw [hdrR] at hsr
              exact ⟨sr, hsr, hm⟩)
          rw [hown] at hct'
          have hrest := ih st1 rest st' R h hct'.inv
            (fun d' hd' => by
              obtain ⟨drA, hdrA, hRA⟩ := hds d' (by simp [hd'])
              obtain ⟨drB, hdrB, _, e2⟩ := hct'.declCore d' drA hdrA
              exact ⟨drB, hdrB, e2.trans hRA⟩)
          exact flatStep_trans hct' hrest

/-- Marking never changes an import flag. -/
theorem importedOf_notifyAnalyzed (st : TableState) (x y : AstSymbolId) :
    importedOf (notifyAnalyzed st x) y = importedOf st y := by
  obtain ⟨_, _, _, _, _, _, e7, e8⟩ := notifyAnalyzed_fields st x
  unfold importedOf getSymRec
  cases hy : st.astSymbols[y]? with
  | none =>
    rw [show (notifyAnalyzed st x).astSymbols[y]? = none from by
      refine List.getElem?_eq_none ?_
      rw [e7]
      exact List.getElem?_eq_none_iff.mp hy]
  | some r =>
    obtain ⟨r', hr', hf⟩ := e8 y r hy
    rw [hr']
    simp [hf.2.2.1]

/-- In the flat world, marking a Symbol Node leaves every other node's
analyzed flag unchanged. -/
theorem analyzedOf_notifyAnalyzed_other {o : Oracle} {st : TableState}
    (hinv : FlatInv o st) {x y : AstSymbolId} (hne : y ≠ rootOfId st x) :
    analyzedOf (notifyAnalyzed st x) y = analyzedOf st y := by
  obtain ⟨_, _, _, _, _, _, e7, _⟩ := notifyAnalyzed_fields st x
  unfold analyzedOf getSymRec
  cases hy : st.astSymbols[y]? with
  | none =>
    rw [show (notifyAnalyzed st x).astSymbols[y]? = none from by
      refine List.getElem?_eq_none ?_
      rw [e7]
      exact List.getElem?_eq_none_iff.mp hy]
  | some r =>
    have hroot : r.rootAstSymbol = y := (hinv.flat y r hy).2
    have hmap : (notifyAnalyzed st x).astSymbols[y]? =
        some (if r.rootAstSymbol = rootOfId st x
          then { r with analyzed := true } else r) := by
      simp [notifyAnalyzed, List.getElem?_map, hy]
    rw [hmap, if_neg (by rw [hroot]; exact hne)]

/-- The facts one needs about a state transition of the analyze layer: the
flat invariant is maintained, symbol records change only their analyzed
flag (monotonically), declaration cores are immutable, and the
referenced-symbol sets of Declaration Nodes owned by an already-analyzed
Symbol Node are unchanged. -/
structure AnSt (o : Oracle) (st st' : TableState) : Prop where
  inv : FlatInv o st'
  symLen : st.astSymbols.length ≤ st'.astSymbols.length
  symCore : ∀ (i : AstSymbolId) (r : AstSymbolRec), st.astSymbols[i]? = some r →
    ∃ r' : AstSymbolRec, st'.astSymbols[i]? = some r' ∧
      r'.followedSymbol = r.followedSymbol ∧ r'.astImport = r.astImport ∧
      r'.rootAstSymbol = r.rootAstSymbol ∧ r'.nominal = r.nominal ∧
      r'.astDeclarations = r.astDeclarations
  declLen : st.astDeclarations.length ≤ st'.astDeclarations.length
  declCore : ∀ (j : AstDeclId) (r : AstDeclarationRec),
    st.astDeclarations[j]? = some r →
    ∃ r' : AstDeclarationRec, st'.astDeclarations[j]? = some r' ∧
      r'.declaration = r.declaration ∧ r'.astSymbol = r.astSymbol
  impEq : ∀ x, importedOf st' x = importedOf st x
  anMono : ∀ x, analyzedOf st x = true → analyzedOf st' x = true
  aSep : ∀ (Q : AstSymbolId), analyzedOf st Q = true →
    ∀ (j : AstDeclId) (r : AstDeclarationRec),
      st.astDeclarations[j]? = some r → r.astSymbol = Q →
      refsOf st' j = refsOf st j

theorem anSt_refl {o : Oracle} {st : TableState} (hinv : FlatInv o st) :
    AnSt o st st :=
  ⟨hinv, Nat.le_refl _, fun _ r hr => ⟨r, hr, rfl, rfl, rfl, rfl, rfl⟩,
    Nat.le_refl _, fun _ r hr => ⟨r, hr, rfl, rfl⟩, fun _ => rfl,
    fun _ h => h, fun _ _ _ _ _ _ => rfl⟩

theorem anSt_trans {o : Oracle} {st₁ st₂ st₃ : TableState}
    (h₁ : AnSt o st₁ st₂) (h₂ : AnSt o st₂ st₃) : AnSt o st₁ st₃ := by
  refine ⟨h₂.inv, Nat.le_trans h₁.symLen h₂.symLen, ?_,
    Nat.le_trans h₁.declLen h₂.declLen, ?_,
    fun x => (h₂.impEq x).trans (h₁.impEq x),
    fun x hx => h₂.anMono x (h₁.anMono x hx), ?_⟩
  · intro i r hr
    obtain ⟨r₂, hr₂, e⟩ := h₁.symCore i r hr
    obtain ⟨r₃, hr₃, f⟩ := h₂.symCore i r₂ hr₂
    exact ⟨r₃, hr₃, f.1.trans e.1, f.2.1.trans e.2.1, f.2.2.1.trans e.2.2.1,
      f.2.2.2.1.trans e.2.2.2.1, f.2.2.2.2.trans e.2.2.2.2⟩
  · intro j r hr
    obtain ⟨r₂, hr₂, e₁, e₂⟩ := h₁.declCore j r hr
    obtain ⟨r₃, hr₃, f₁, f₂⟩ := h₂.declCore j r₂ hr₂
    exact ⟨r₃, hr₃, f₁.trans e₁, f₂.trans e₂⟩
  · intro Q hQ j r hr hown
    obtain ⟨r₂, hr₂, _, e₂⟩ := h₁.declCore j r hr
    exact ((h₂.aSep Q (h₁.anMono Q hQ) j r₂ hr₂ (e₂.trans hown)).trans
      (h₁.aSep Q hQ j r hr hown))

/-- A flat phase-1 step relative to a not-yet-analyzed owner is an analyze
step. -/
theorem AnSt.ofFlatStep {o : Oracle} {st st' : TableState} {R : AstSymbolId}
    (hs : FlatStep o st st' R) (hinv : FlatInv o st)
    (hR : analyzedOf st R = false) : AnSt o st st' := by
  refine ⟨hs.inv, hs.symLen, ?_, hs.declLen, hs.declCore, hs.impEq,
    fun x hx => (hs.anEq x).trans hx, ?_⟩
  · intro i r hr
    refine ⟨r, ?_, rfl, rfl, rfl, rfl, rfl⟩
    exact (hs.symEq i (getElem?_lt_of_some hr)).trans hr
  · intro Q hQ j r hr hown
    obtain ⟨r', hr', _, e₂⟩ := hs.declCore j r hr
    refine hs.refsSep j r' hr' ?_
    rw [e₂, hown]
    intro hc
    rw [hc] at hQ
    rw [hQ] at hR
    exact absurd hR (by simp)

/-- Marking is an analyze step. -/
theorem AnSt.ofNotifyAnalyzed {o : Oracle} {st : TableState}
    (hinv : FlatInv o st) (x : AstSymbolId) :
    AnSt o st (notifyAnalyzed st x) := by
  obtain ⟨e1, _, _, _, _, _, e7, e8⟩ := notifyAnalyzed_fields st x
  refine ⟨notifyAnalyzed_inv hinv x, Nat.le_of_eq e7.symm, ?_,
    Nat.le_of_eq (by rw [e1]), ?_, fun y => importedOf_notifyAnalyzed st x y,
    fun y hy => analyzedOf_notifyAnalyzed_mono hy, ?_⟩
  · intro i r hr
    obtain ⟨r', hr', hf⟩ := e8 i r hr
    exact ⟨r', hr', hf.2.1, hf.2.2.1, hf.2.2.2.2.1, hf.2.2.2.2.2.1,
      hf.2.2.2.2.2.2⟩
  · intro j r hr
    exact ⟨r, e1 ▸ hr, rfl, rfl⟩
  · intro Q hQ j r hr hown
    unfold refsOf getDeclRec
    rw [e1]
/-- The master facts of the analyze layer in the flat world: every function
of the recursive-expansion phase is an analyze step, and the analyzed flag
of a Symbol Node carrying an Import Identity is never changed (except for
the node `analyze` itself was called on). -/
theorem analyze_flat {o : Oracle} (ho : FlatOracle o) : ∀ fuel : Nat,
    (∀ st a st', analyze o fuel st a = .ok st' → FlatInv o st →
      AnSt o st st' ∧ (∀ x, importedOf st x = true → x ≠ a →
        analyzedOf st' x = analyzedOf st x)) ∧
    (∀ st ds st', phase2TopLoop o fuel st ds = .ok st' → FlatInv o st →
      AnSt o st st' ∧ (∀ x, importedOf st x = true →
        analyzedOf st' x = analyzedOf st x)) ∧
    (∀ st d st', phase2Visit o fuel st d = .ok st' → FlatInv o st →
      AnSt o st st' ∧ (∀ x, importedOf st x = true →
        analyzedOf st' x = analyzedOf st x)) ∧
    (∀ st d i st', phase2RefsLoop o fuel st d i = .ok st' → FlatInv o st →
      AnSt o st st' ∧ (∀ x, importedOf st x = true →
        analyzedOf st' x = analyzedOf st x)) ∧
    (∀ st d i st', phase2ChildrenLoop o fuel st d i = .ok st' → FlatInv o st →
      AnSt o st st' ∧ (∀ x, importedOf st x = true →
        analyzedOf st' x = analyzedOf st x)) := by
  intro fuel
  induction fuel with
  | zero =>
    refine ⟨?_, ?_, ?_, ?_, ?_⟩
    · intro st a st' h
      exact absurd h (by simp [analyze])
    · intro st ds st' h
      exact absurd h (by simp [phase2TopLoop])
    · intro st d st' h
      exact absurd h (by simp [phase2Visit])
    · intro st d i st' h
      exact absurd h (by simp [phase2RefsLoop])
    · intro st d i st' h
      exact absurd h (by simp [phase2ChildrenLoop])
  | succ n ih =>
    obtain ⟨ihA, ihT, ihV, ihR, ihC⟩ := ih
    refine ⟨?_, ?_, ?_, ?_, ?_⟩
    · intro st a st' h hinv
      simp only [analyze] at h
      split at h
      · injection h with h
        subst h
        exact ⟨anSt_refl hinv, fun _ _ _ => rfl⟩
      · next hana =>
        split at h
        · injection h with h
          subst h
          refine ⟨AnSt.ofNotifyAnalyzed hinv a, ?_⟩
          intro x _ hxa
          exact analyzedOf_notifyAnalyzed_other hinv
            (by rw [rootOfId_flat hinv a]; exact hxa)
        · split at h
          · exact absurd h (by simp)
          · next st1 hwalk =>
            have hR0 : rootOfId st a = a := rootOfId_flat hinv a
            rw [hR0] at hwalk h
            have hanf : analyzedOf st a = false := by
              rw [Bool.not_eq_true] at hana
              exact hana
            have hds : ∀ d ∈ astDeclarationsOf st a,
                ∃ dr : AstDeclarationRec, st.astDeclarations[d]? = some dr ∧
                  dr.astSymbol = a := by
              intro d hd
              unfold astDeclarationsOf getSymRec at hd
              cases hra : st.astSymbols[a]? with
              | none =>
                rw [hra] at hd
                exact absurd hd (by simp)
              | some ra =>
                rw [hra] at hd
                exact hinv.ownedDecls a ra hra d hd
            have hstep1 := rootDeclsLoop_flatStep ho n st _ st1 a hwalk hinv hds
            have han1 : AnSt o st st1 := AnSt.ofFlatStep hstep1 hinv hanf
            have han2 : AnSt o st1 (notifyAnalyzed st1 a) :=
              AnSt.ofNotifyAnalyzed hstep1.inv a
            have hR1 : rootOfId st1 a = a := rootOfId_flat hstep1.inv a
            split at h
            · injection h with h
              subst h
              refine ⟨anSt_trans han1 han2, ?_⟩
              intro x _ hxa
              rw [analyzedOf_notifyAnalyzed_other hstep1.inv
                (by rw [hR1]; exact hxa)]
              exact hstep1.anEq x
            · obtain ⟨hT, hTx⟩ := ihT _ _ _ h han2.inv
              refine ⟨anSt_trans (anSt_trans han1 han2) hT, ?_⟩
              intro x hximp hxa
              have himp2 : importedOf (notifyAnalyzed st1 a) x = true := by
                rw [importedOf_notifyAnalyzed, hstep1.impEq]
                exact hximp
              rw [hTx x himp2, analyzedOf_notifyAnalyzed_other hstep1.inv
                (by rw [hR1]; exact hxa)]
              exact hstep1.anEq x
    · intro st ds st' h hinv
      cases ds with
      | nil =>
        simp only [phase2TopLoop] at h
        injection h with h
        subst h
        exact ⟨anSt_refl hinv, fun _ _ => rfl⟩
      | cons d rest =>
        simp only [phase2TopLoop] at h
        split at h
        · exact absurd h (by simp)
        · next st1 hv =>
          obtain ⟨hV, hVx⟩ := ihV _ _ _ hv hinv
          obtain ⟨hT, hTx⟩ := ihT _ _ _ h hV.inv
          refine ⟨anSt_trans hV hT, ?_⟩
          intro x hx
          rw [hTx x (by rw [hV.impEq]; exact hx), hVx x hx]
    · intro st d st' h hinv
      simp only [phase2Visit] at h
      split at h
      · exact absurd h (by simp)
      · next st1 hr =>
        obtain ⟨hR, hRx⟩ := ihR _ _ _ _ hr hinv
        obtain ⟨hC, hCx⟩ := ihC _ _ _ _ h hR.inv
        refine ⟨anSt_trans hR hC, ?_⟩
        intro x hx
        rw [hCx x (by rw [hR.impEq]; exact hx), hRx x hx]
    · intro st d i st' h hinv
      simp only [phase2RefsLoop] at h
      split at h
      · injection h with h
        subst h
        exact ⟨anSt_refl hinv, fun _ _ => rfl⟩
      · next ref href =>
        split at h
        · exact ihR _ _ _ _ h hinv
        · next hrefimp =>
          split at h
          · exact absurd h (by simp)
          · next st1 hana =>
            obtain ⟨hA, hAx⟩ := ihA _ _ _ hana hinv
            obtain ⟨hRl, hRlx⟩ := ihR _ _ _ _ h hA.inv
            refine ⟨anSt_trans hA hRl, ?_⟩
            intro x hx
            have hxref : x ≠ ref := fun hc => hrefimp (hc ▸ hx)
            rw [hRlx x (by rw [hA.impEq]; exact hx), hAx x hx hxref]
    · intro st d i st' h hinv
      simp only [phase2ChildrenLoop] at h
      split at h
      · injection h with h
        subst h
        exact ⟨anSt_refl hinv, fun _ _ => rfl⟩
      · next child hchild =>
        split at h
        · exact absurd h (by simp)
        · next st1 hv =>
          obtain ⟨hV, hVx⟩ := ihV _ _ _ hv hinv
          obtain ⟨hC, hCx⟩ := ihC _ _ _ _ h hV.inv
          refine ⟨anSt_trans hV hC, ?_⟩
          intro x hx
          rw [hCx x (by rw [hV.impEq]; exact hx), hVx x hx]
/-- In the flat world every Declaration Node has no children. -/
theorem childrenOfDecl_flat {o : Oracle} {st : TableState}
    (hinv : FlatInv o st) (d : AstDeclId) : childrenOfDecl st d = [] := by
  unfold childrenOfDecl getDeclRec
  cases hd : st.astDeclarations[d]? with
  | none => rfl
  | some r => exact hinv.childrenEmpty d r hd

/-- Completeness of the recursive-expansion phase in the flat world: after
the traversal finishes, every not-imported symbol recorded in the final
referenced-symbol set of a visited Declaration Node is analyzed. -/
theorem phase2_done {o : Oracle} (ho : FlatOracle o) : ∀ fuel : Nat,
    (∀ st ds st' R, phase2TopLoop o fuel st ds = .ok st' → FlatInv o st →
      analyzedOf st R = true →
      (∀ d ∈ ds, ∃ dr : AstDeclarationRec, st.astDeclarations[d]? = some dr ∧
        dr.astSymbol = R) →
      ∀ d ∈ ds, ∀ x ∈ refsOf st' d, importedOf st' x = false →
        analyzedOf st' x = true) ∧
    (∀ st d st' R, phase2Visit o fuel st d = .ok st' → FlatInv o st →
      analyzedOf st R = true →
      (∃ dr : AstDeclarationRec, st.astDeclarations[d]? = some dr ∧
        dr.astSymbol = R) →
      ∀ x ∈ refsOf st' d, importedOf st' x = false →
        analyzedOf st' x = true) ∧
    (∀ st d i st' R, phase2RefsLoop o fuel st d i = .ok st' → FlatInv o st →
      analyzedOf st R = true →
      (∃ dr : AstDeclarationRec, st.astDeclarations[d]? = some dr ∧
        dr.astSymbol = R) →
      ∀ k, i ≤ k → ∀ x, (refsOf st' d)[k]? = some x →
        importedOf st' x = false → analyzedOf st' x = true) := by
  intro fuel
  induction fuel with
  | zero =>
    refine ⟨?_, ?_, ?_⟩
    · intro st ds st' R h
      exact absurd h (by simp [phase2TopLoop])
    · intro st d st' R h
      exact absurd h (by simp [phase2Visit])
    · intro st d i st' R h
      exact absurd h (by simp [phase2RefsLoop])
  | succ n ih =>
    obtain ⟨ihT, ihV, ihR⟩ := ih
    refine ⟨?_, ?_, ?_⟩
    · -- top loop
      intro st ds st' R h hinv hR hds
      cases ds with
      | nil =>
        intro d hd
        exact absurd hd (by simp)
      | cons d rest =>
        simp only [phase2TopLoop] at h
        split at h
        · exact absurd h (by simp)
        · next st1 hv =>
          obtain ⟨hdr, hdrx, hdrR⟩ := hds d (by simp)
          obtain ⟨hVst, _⟩ := (analyze_flat ho n).2.2.1 _ _ _ hv hinv
          obtain ⟨hTst, _⟩ := (analyze_flat ho n).2.1 _ _ _ h hVst.inv
          have hvdone := ihV st d st1 R hv hinv hR ⟨hdr, hdrx, hdrR⟩
          obtain ⟨hdr1, hdr1x, e1, e2⟩ := hVst.declCore d hdr hdrx
          intro d' hd'
          rcases List.mem_cons.mp hd' with hdd | hdrest
          · subst hdd
            have hrefs : refsOf st' d' = refsOf st1 d' :=
              hTst.aSep R (hVst.anMono R hR) d' hdr1 hdr1x (e2.trans hdrR)
            rw [hrefs]
            intro x hx hximp
            refine hTst.anMono x (hvdone x hx ?_)
            rw [← hTst.impEq x]
            exact hximp
          · refine ihT st1 rest st' R h hVst.inv (hVst.anMono R hR) ?_ d' hdrest
            intro dd hdd
            obtain ⟨drA, hdrA, hRA⟩ := hds dd (by simp [hdd])
            obtain ⟨drB, hdrB, _, f2⟩ := hVst.declCore dd drA hdrA
            exact ⟨drB, hdrB, f2.trans hRA⟩
    · -- visit
      intro st d st' R h hinv hR hdr
      simp only [phase2Visit] at h
      split at h
      · exact absurd h (by simp)
      · next st1 hr =>
        obtain ⟨hRst, _⟩ := (analyze_flat ho n).2.2.2.1 _ _ _ _ hr hinv
        have hst' : st' = st1 := by
          cases n with
          | zero => exact absurd h (by simp [phase2ChildrenLoop])
          | succ m =>
            simp only [phase2ChildrenLoop, childrenOfDecl_flat hRst.inv d,
              List.getElem?_nil] at h
            injection h with h
            exact h.symm
        subst hst'
        have hrdone := ihR st d 0 st' R hr hinv hR hdr
        intro x hx hximp
        obtain ⟨k, hk⟩ := List.mem_iff_getElem?.mp hx
        exact hrdone k (Nat.zero_le k) x hk hximp
    · -- refs loop
      intro st d i st' R h hinv hR hdr
      obtain ⟨dr, hdrx, hdrR⟩ := hdr
      simp only [phase2RefsLoop] at h
      split at h
      · next href =>
        injection h with h
        subst h
        intro k hik x hkx _
        have hlen := List.getElem?_eq_none_iff.mp href
        have hklt := getElem?_lt_of_some hkx
        omega
      · next ref href =>
        split at h
        · next hrefimp =>
          obtain ⟨hLst, _⟩ := (analyze_flat ho n).2.2.2.1 _ _ _ _ h hinv
          have hrefs : refsOf st' d = refsOf st d :=
            hLst.aSep R hR d dr hdrx hdrR
          have hdone := ihR st d (i + 1) st' R h hinv hR ⟨dr, hdrx, hdrR⟩
          intro k hik x hkx hximp
          rcases Nat.eq_or_lt_of_le hik with heq | hlt
          · exfalso
            rw [hrefs, ← heq, href] at hkx
            injection hkx with hkx
            subst hkx
            rw [hLst.impEq ref, hrefimp] at hximp
            exact absurd hximp (by simp)
          · exact hdone k hlt x hkx hximp
        · next hrefimp =>
          split at h
          · exact absurd h (by simp)
          · next st1 hana =>
            obtain ⟨hAst, _⟩ := (analyze_flat ho n).1 _ _ _ hana hinv
            obtain ⟨hLst, _⟩ := (analyze_flat ho n).2.2.2.1 _ _ _ _ h hAst.inv
            have hrefmem : ref ∈ refsOf st d :=
              List.mem_iff_getElem?.mpr ⟨i, href⟩
            have hreflt : ref < st.astSymbols.length := by
              have : ref ∈ dr.referencedAstSymbols := by
                unfold refsOf getDeclRec at hrefmem
                rw [hdrx] at hrefmem
                exact hrefmem
              exact hinv.refsValid d dr hdrx ref this
            have hrefroot : rootOfId st ref = ref := rootOfId_flat hinv ref
            have hrefana : analyzedOf st1 ref = true :=
              analyze_sets_analyzed hana (by rw [hrefroot]; exact hreflt)
                (by rw [hrefroot]; exact hrefroot)
            obtain ⟨dr1, hdr1x, _, e2⟩ := hAst.declCore d dr hdrx
            have hdone := ihR st1 d (i + 1) st' R h hAst.inv
              (hAst.anMono R hR) ⟨dr1, hdr1x, e2.trans hdrR⟩
            have hrefs1 : refsOf st' d = refsOf st1 d :=
              hLst.aSep R (hAst.anMono R hR) d dr1 hdr1x (e2.trans hdrR)
            have hrefs0 : refsOf st1 d = refsOf st d :=
              hAst.aSep R hR d dr hdrx hdrR
            intro k hik x hkx hximp
            rcases Nat.eq_or_lt_of_le hik with heq | hlt
            · rw [hrefs1, hrefs0, ← heq, href] at hkx
              injection hkx with hkx
              subst hkx
              exact hLst.anMono ref hrefana
            · exact hdone k hlt x hkx hximp
/-- Carrying an Import Identity is the same as `astImport.isSome`. -/
theorem astImportOf_isSome (st : TableState) (x : AstSymbolId) :
    (astImportOf st x).isSome = importedOf st x := by
  unfold astImportOf importedOf getSymRec
  cases hx : st.astSymbols[x]? <;> rfl

/-- `analyze` on a Symbol Node carrying an Import Identity is exactly the
expansion-free variant: the recursive-expansion phase is skipped. -/
theorem analyze_noExpand_of_imported {o : Oracle} {fuel : Nat}
    {st : TableState} {a : AstSymbolId} (himp : importedOf st a = true) :
    analyze o fuel st a = analyzeNoExpand o fuel st a := by
  cases fuel with
  | zero => rfl
  | succ n =>
    simp only [analyze, analyzeNoExpand]
    by_cases h1 : analyzedOf st a = true
    · simp [h1]
    · simp only [h1, if_false, Bool.false_eq_true]
      by_cases h2 : nominalOf st a = true
      · simp [h2]
      · simp only [h2, if_false, Bool.false_eq_true]
        cases hw : analyzeRootDeclsLoop o n st
            (astDeclarationsOf st (rootOfId st a)) with
        | error e => rfl
        | ok st1 =>
          have hsym : SymsStable st st1 := analyzeRootDeclsLoop_symsStable n st _ st1 hw
          have himp1 : importedOf st1 a = true := by
            unfold importedOf getSymRec at himp ⊢
            cases hra : st.astSymbols[a]? with
            | none =>
              rw [hra] at himp
              exact absurd himp (by simp)
            | some ra =>
              rw [hsym.2 a (getElem?_lt_of_some hra), hra]
              rw [hra] at himp
              exact himp
          have hcond : (astImportOf
              (notifyAnalyzed st1 (rootOfId st a)) a).isSome = true := by
            rw [astImportOf_isSome, importedOf_notifyAnalyzed]
            exact himp1
          simp [hcond]

/-- P1 of the expansion claim: a successful `analyze` on a not-imported,
not-yet-analyzed, non-nominal Symbol Node leaves every not-imported symbol
recorded in the referenced-symbol sets of the root's Declaration Nodes
analyzed; in the flat world those sets are the whole subtree since no
Declaration Node has children. -/
theorem analyze_flat_complete {o : Oracle} (ho : FlatOracle o) {fuel : Nat}
    {st st' : TableState} {a : AstSymbolId} (hinv : FlatInv o st)
    (himp : importedOf st a = false) (han : analyzedOf st a = false)
    (hnom : nominalOf st a = false) (halt : a < st.astSymbols.length)
    (h : analyze o fuel st a = .ok st') :
    (∀ dj ∈ astDeclarationsOf st' (rootOfId st a), ∀ x ∈ refsOf st' dj,
      importedOf st' x = false → analyzedOf st' x = true) ∧
    (∀ dj, childrenOfDecl st' dj = []) := by
  cases fuel with
  | zero => exact absurd h (by simp [analyze])
  | succ n =>
    simp only [analyze] at h
    split at h
    · next hcond => exact absurd hcond (by simp [han])
    · split at h
      · next hcond => exact absurd hcond (by simp [hnom])
      · split at h
        · exact absurd h (by simp)
        · next st1 hwalk =>
          have hR0 : rootOfId st a = a := rootOfId_flat hinv a
          rw [hR0] at hwalk h ⊢
          have hds : ∀ d ∈ astDeclarationsOf st a,
              ∃ dr : AstDeclarationRec, st.astDeclarations[d]? = some dr ∧
                dr.astSymbol = a := by
            intro d hd
            unfold astDeclarationsOf getSymRec at hd
            cases hra : st.astSymbols[a]? with
            | none =>
              rw [hra] at hd
              exact absurd hd (by simp)
            | some ra =>
              rw [hra] at hd
              exact hinv.ownedDecls a ra hra d hd
          have hstep1 := rootDeclsLoop_flatStep ho n st _ st1 a hwalk hinv hds
          obtain ⟨ra, hra⟩ := getElem?_some_of_lt st.astSymbols halt
          have hra1 : st1.astSymbols[a]? = some ra :=
            (hstep1.symEq a halt).trans hra
          have hinv2 : FlatInv o (notifyAnalyzed st1 a) :=
            notifyAnalyzed_inv hstep1.inv a
          split at h
          · next hcond =>
            exfalso
            rw [astImportOf_isSome, importedOf_notifyAnalyzed,
              hstep1.impEq, himp] at hcond
            exact absurd hcond (by simp)
          · have hRana2 : analyzedOf (notifyAnalyzed st1 a) a = true :=
              analyzedOf_notifyAnalyzed_of_root hra1
                (by rw [(hstep1.inv.flat a ra hra1).2,
                  rootOfId_flat hstep1.inv a])
            obtain ⟨e1, _, _, _, _, _, e7, e8⟩ := notifyAnalyzed_fields st1 a
            obtain ⟨ra2, hra2, hf⟩ := e8 a ra hra1
            have hds2 : ∀ d ∈ astDeclarationsOf (notifyAnalyzed st1 a) a,
                ∃ dr : AstDeclarationRec,
                  (notifyAnalyzed st1 a).astDeclarations[d]? = some dr ∧
                  dr.astSymbol = a := by
              intro d hd
              unfold astDeclarationsOf getSymRec at hd
              rw [hra2] at hd
              exact hinv2.ownedDecls a ra2 hra2 d hd
            have hdone := (phase2_done ho n).1 _ _ _ a h hinv2 hRana2 hds2
            obtain ⟨hTst, _⟩ := (analyze_flat ho n).2.1 _ _ _ h hinv2
            obtain ⟨ra', hra', hg⟩ := hTst.symCore a ra2 hra2
            have hdeq : astDeclarationsOf st' a =
                astDeclarationsOf (notifyAnalyzed st1 a) a := by
              unfold astDeclarationsOf getSymRec
              rw [hra2, hra']
              simp [hg.2.2.2.2]
            refine ⟨?_, fun dj => childrenOfDecl_flat hTst.inv dj⟩
            intro dj hdj
            rw [hdeq] at hdj
            exact hdone dj hdj
/-! ### C8 — the claim theorem and witness -/

/-- **C8.** In the flat well-formed world: (1) after `analyze` completes
successfully on a not-yet-analyzed, non-nominal Symbol Node with no Import
Identity, every referenced symbol recorded anywhere in the root's Declaration
Node subtree (the subtree is exactly the root's declaration list, since no
Declaration Node has children) that is itself not imported has been
recursively analyzed; (2) when the Symbol Node has an Import Identity,
`analyze` equals the expansion-free variant, performing no recursive
expansion; (3) the analyzed flag of an imported Symbol Node other than the
`analyze` target itself is never changed, so imported referenced symbols are
never auto-analyzed in either case. -/
theorem c8_recursive_expansion {o : Oracle} (ho : FlatOracle o) :
    (∀ (fuel : Nat) (st st' : TableState) (a : AstSymbolId), FlatInv o st →
      importedOf st a = false → analyzedOf st a = false →
      nominalOf st a = false → a < st.astSymbols.length →
      analyze o fuel st a = .ok st' →
      (∀ dj ∈ astDeclarationsOf st' (rootOfId st a), ∀ x ∈ refsOf st' dj,
        importedOf st' x = false → analyzedOf st' x = true) ∧
      (∀ dj, childrenOfDecl st' dj = [])) ∧
    (∀ (fuel : Nat) (st : TableState) (a : AstSymbolId),
      importedOf st a = true →
      analyze o fuel st a = analyzeNoExpand o fuel st a) ∧
    (∀ (fuel : Nat) (st st' : TableState) (a x : AstSymbolId), FlatInv o st →
      analyze o fuel st a = .ok st' →
      importedOf st x = true → x ≠ a →
      analyzedOf st' x = analyzedOf st x) := by
  refine ⟨?_, ?_, ?_⟩
  · intro fuel st st' a hinv himp han hnom halt h
    exact analyze_flat_complete ho hinv himp han hnom halt h
  · intro fuel st a himp
    exact analyze_noExpand_of_imported himp
  · intro fuel st st' a x hinv h hx hxa
    exact ((analyze_flat ho fuel).1 st a st' h hinv).2 x hx hxa

/-- Witness oracle for C8: symbol 5 (node 0) has declaration 50 whose child
51 is a type reference resolving to local helper symbol 6; symbol 7 (node 1)
is an imported symbol.  Everything is top-level. -/
def c8Oracle : Oracle :=
  { symName := fun _ => "w",
    symFlagsFiltered := fun _ => false,
    symIsAmbient := fun _ => false,
    symDeclarations := fun s =>
      if s = 5 ∨ s = 6 ∨ s = 7 then [10 * s] else [],
    symAliasFlag := fun _ => false,
    symImmediateAlias := fun _ => none,
    symFollowAliases := fun s => s,
    symIsExportStar := fun _ => false,
    nodeKind := fun m =>
      if m = 51 then TsKind.typeReference
      else if m = 50 ∨ m = 60 ∨ m = 70 then TsKind.declarationKind
      else TsKind.otherKind,
    nodeAncestors := fun _ => [],
    nodeChildren := fun m => if m = 50 then [51] else [],
    nodeSourceFile := fun _ => 0,
    symbolForDeclaration := fun d =>
      if d = 50 then some 5 else if d = 60 then some 6
      else if d = 70 then some 7 else none,
    symbolAtLocation := fun m => if m = 52 then some 6 else none,
    firstIdentifier := fun m => if m = 51 then some 52 else none,
    exportSpecifierPropertyName := fun _ => none,
    exportSpecifierName := fun _ => "",
    findExportDeclarationParent := fun _ => none,
    moduleSpecifierOf := fun _ => none,
    getResolvedModule := fun _ _ => none,
    getSourceFileByName := fun _ => none,
    isAedocSupported := fun _ => true,
    moduleSymbolOf := fun _ => 0,
    getExportsOfModule := fun _ => [],
    moduleExportsTable := fun _ => [],
    isExternalModuleNameRelative := fun _ => false }

/-- A concrete Import Identity for the imported node of the C8 witness. -/
def c8Import : AstImport := { exportName := "I", modulePath := "dep" }

/-- The C8 witness start state: node 0 follows symbol 5 (not imported, with
declaration 0 on node 50), node 1 follows symbol 7 (imported via `c8Import`,
with declaration 1 on node 70). -/
def c8State : TableState :=
  { astSymbols :=
      [{ localName := "w", followedSymbol := 5, astImport := none,
         parentAstSymbol := none, rootAstSymbol := 0, nominal := false,
         astDeclarations := [0], analyzed := false },
       { localName := "w", followedSymbol := 7, astImport := some c8Import,
         parentAstSymbol := none, rootAstSymbol := 1, nominal := false,
         astDeclarations := [1], analyzed := false }],
    astDeclarations :=
      [{ declaration := 50, astSymbol := 0, parent := none, children := [],
         referencedAstSymbols := [] },
       { declaration := 70, astSymbol := 1, parent := none, children := [],
         referencedAstSymbols := [] }],
    astModules := [],
    astSymbolsBySymbol := [(5, 0), (7, 1)],
    astSymbolsByImportKey := [(c8Import, 1)],
    astDeclarationsByDeclaration := [(50, 0), (70, 1)],
    astModulesBySourceFile := [] }

/-- The state after analyzing node 0 of the C8 witness. -/
def c8RunState : TableState := stStateAfter (analyze c8Oracle 12 c8State 0)

theorem c8_flatOracle : FlatOracle c8Oracle := by
  constructor
  · intro s d _
    rfl
  · intro n m hm
    by_cases hn : n = 50
    · subst hn
      simp [c8Oracle] at hm
      subst hm
      decide
    · simp only [c8Oracle, if_neg hn] at hm
      exact absurd hm (by simp)
  · intro s1 s2 d h1 h2
    by_cases c1 : s1 = 5 ∨ s1 = 6 ∨ s1 = 7
    · simp only [c8Oracle, if_pos c1, List.mem_singleton] at h1
      by_cases c2 : s2 = 5 ∨ s2 = 6 ∨ s2 = 7
      · simp only [c8Oracle, if_pos c2, List.mem_singleton] at h2
        subst h1
        exact Nat.eq_of_mul_eq_mul_left (by decide) h2
      · simp only [c8Oracle, if_neg c2] at h2
        exact absurd h2 (by simp)
    · simp only [c8Oracle, if_neg c1] at h1
      exact absurd h1 (by simp)
  · intro s d hd
    by_cases c1 : s = 5 ∨ s = 6 ∨ s = 7
    · simp only [c8Oracle, if_pos c1, List.mem_singleton] at hd
      subst hd
      rcases c1 with h5 | h6 | h7
      · subst h5
        decide
      · subst h6
        decide
      · subst h7
        decide
    · simp only [c8Oracle, if_neg c1] at hd
      exact absurd hd (by simp)

theorem c8_flatInv : FlatInv c8Oracle c8State := by
  constructor
  · intro i r hr
    match i with
    | 0 =>
      injection hr with hr
      subst hr
      exact ⟨rfl, rfl⟩
    | 1 =>
      injection hr with hr
      subst hr
      exact ⟨rfl, rfl⟩
    | Nat.succ (Nat.succ m) => simp [c8State] at hr
  · intro i r hr
    match i with
    | 0 =>
      injection hr with hr
      subst hr
      rfl
    | 1 =>
      injection hr with hr
      subst hr
      rfl
    | Nat.succ (Nat.succ m) => simp [c8State] at hr
  · intro k v hkv
    have hk : (k = 5 ∧ v = 0) ∨ (k = 7 ∧ v = 1) := by
      by_cases h5 : k = 5
      · subst h5
        rw [show mapGet c8State.astSymbolsBySymbol 5 = some 0 from rfl] at hkv
        injection hkv with hkv
        exact Or.inl ⟨rfl, hkv.symm⟩
      · by_cases h7 : k = 7
        · subst h7
          rw [show mapGet c8State.astSymbolsBySymbol 7 = some 1 from rfl] at hkv
          injection hkv with hkv
          exact Or.inr ⟨rfl, hkv.symm⟩
        · rw [show mapGet c8State.astSymbolsBySymbol k = none from by
            simp [c8State, mapGet,
              show (5 : SymbolId) ≠ k from fun h => h5 h.symm,
              show (7 : SymbolId) ≠ k from fun h => h7 h.symm]] at hkv
          exact absurd hkv (by simp)
    rcases hk with ⟨hk, hv⟩ | ⟨hk, hv⟩ <;> subst hk <;> subst hv
    · exact ⟨_, rfl, rfl⟩
    · exact ⟨_, rfl, rfl⟩
  · intro j r hr
    match j with
    | 0 =>
      injection hr with hr
      subst hr
      rfl
    | 1 =>
      injection hr with hr
      subst hr
      rfl
    | Nat.succ (Nat.succ m) => simp [c8State] at hr
  · intro j r hr
    match j with
    | 0 =>
      injection hr with hr
      subst hr
      exact ⟨_, rfl, by decide⟩
    | 1 =>
      injection hr with hr
      subst hr
      exact ⟨_, rfl, by decide⟩
    | Nat.succ (Nat.succ m) => simp [c8State] at hr
  · intro nd j hnd
    have hk : (nd = 50 ∧ j = 0) ∨ (nd = 70 ∧ j = 1) := by
      by_cases h5 : nd = 50
      · subst h5
        rw [show mapGet c8State.astDeclarationsByDeclaration 50 = some 0
          from rfl] at hnd
        injection hnd with hnd
        exact Or.inl ⟨rfl, hnd.symm⟩
      · by_cases h7 : nd = 70
        · subst h7
          rw [show mapGet c8State.astDeclarationsByDeclaration 70 = some 1
            from rfl] at hnd
          injection hnd with hnd
          exact Or.inr ⟨rfl, hnd.symm⟩
        · rw [show mapGet c8State.astDeclarationsByDeclaration nd = none from by
            simp [c8State, mapGet,
              show (50 : NodeId) ≠ nd from fun h => h5 h.symm,
              show (70 : NodeId) ≠ nd from fun h => h7 h.symm]] at hnd
          exact absurd hnd (by simp)
    rcases hk with ⟨hk, hv⟩ | ⟨hk, hv⟩ <;> subst hk <;> subst hv
    · exact ⟨_, rfl, rfl⟩
    · exact ⟨_, rfl, rfl⟩
  · intro j r hr
    match j with
    | 0 =>
      injection hr with hr
      subst hr
      intro x hx
      exact absurd (show x ∈ ([] : List AstSymbolId) from hx)
        (List.not_mem_nil x)
    | 1 =>
      injection hr with hr
      subst hr
      intro x hx
      exact absurd (show x ∈ ([] : List AstSymbolId) from hx)
        (List.not_mem_nil x)
    | Nat.succ (Nat.succ m) => simp [c8State] at hr
  · intro i r hr
    match i with
    | 0 =>
      injection hr with hr
      subst hr
      intro dj hdj
      have hdj0 : dj = 0 := by
        have hdj' : dj ∈ ([0] : List AstDeclId) := hdj
        simpa using hdj'
      subst hdj0
      exact ⟨_, rfl, rfl⟩
    | 1 =>
      injection hr with hr
      subst hr
      intro dj hdj
      have hdj1 : dj = 1 := by
        have hdj' : dj ∈ ([1] : List AstDeclId) := hdj
        simpa using hdj'
      subst hdj1
      exact ⟨_, rfl, rfl⟩
    | Nat.succ (Nat.succ m) => simp [c8State] at hr

theorem c8_witness :
    ((∀ dj ∈ astDeclarationsOf c8RunState (rootOfId c8State 0),
      ∀ x ∈ refsOf c8RunState dj, importedOf c8RunState x = false →
        analyzedOf c8RunState x = true) ∧
      (∀ dj, childrenOfDecl c8RunState dj = [])) ∧
    analyze c8Oracle 6 c8State 1 = analyzeNoExpand c8Oracle 6 c8State 1 ∧
    analyzedOf c8RunState 1 = analyzedOf c8State 1 := by
  have hrun : analyze c8Oracle 12 c8State 0 = .ok c8RunState := by decide
  obtain ⟨p1, p2, p3⟩ := c8_recursive_expansion c8_flatOracle
  exact ⟨p1 12 c8State c8RunState 0 c8_flatInv (by decide) (by decide)
      (by decide) (by decide) hrun,
    p2 6 c8State 1 (by decide),
    p3 12 c8State c8RunState 0 1 c8_flatInv hrun (by decide) (by decide)⟩
end AstTable
